import Mathlib

/-!
# NATS JetStream binding of the CloudEvents SDK: message adapter and writers

A shallow embedding of `protocol/nats_jetstream/v2`: the message adapter of
`message.go`, the header map and the writers of `write_message.go`, and the
subscription strategies of `subscriber.go`.

Conventions of the embedding.

* A Go `[]string` is an `Option (List String)`: `none` is the nil slice, `some l`
  a non-nil slice (`some []` is the empty, non-nil slice). The distinction
  matters for `Get`, which tests `v != nil` before reading `v[0]`.
* A Go `map[string][]string` is an `Option` of an association list: `none` is the
  nil map. The list gives the entries in the order in which a `range` loop
  visits them; Go leaves that order unspecified, so statements quantify over
  all lists (all orders). A Go map has no duplicate key (`Entries.WF`).
* A run-time panic is an `Except.error`; a Go `error` result is an `Option Err`.
* A collaborator behind an interface (`binding.BinaryWriter`,
  `binding.StructuredWriter`) is a record of state-passing functions over an
  arbitrary state type. A byte stream handed to it is given by its content.
* Where a statement is about the message after a read, a second model of the two
  reads (`ReadBinaryAliased`, `ReadStructuredAliased`) returns the message as well:
  in Go the stream is laid over the payload's own array, so the collaborator also
  gives the bytes it leaves there.
* Timestamps are written and read as Go's package `time` does
  (`Time.FormatRFC3339Nano`, `ParseRFC3339`).
-/

namespace NatsJetstream

/-! ## Go runtime -/

/-- Run-time panics that the embedded code can raise. -/
inductive Panic where
  | indexOutOfRange
  | nilDereference
  | nilMapAssignment
  | typeAssertion
  deriving DecidableEq, Repr

/-- Go `error` values: the two sentinels of package `binding`, and any other error. -/
inductive Err where
  | ErrNotBinary
  | ErrNotStructured
  | other (msg : String)
  deriving DecidableEq, Repr

deriving instance DecidableEq for Except

/-- A Go `[]string`; `none` is the nil slice. -/
abbrev Slice := Option (List String)

/-- Length of a slice, `len(v)`. -/
def Slice.len : Slice → Nat
  | none => 0
  | some l => l.length

/-- Indexing `v[0]`: panics on a nil or empty slice. -/
def Slice.index0 : Slice → Except Panic String
  | some (x :: _) => .ok x
  | _ => .error .indexOutOfRange

/-- The first value of a slice, when it has one. -/
def Slice.first? : Slice → Option String
  | some (x :: _) => some x
  | _ => none

/-- Entries of a Go `map[string][]string`, in iteration order. -/
abbrev Entries := List (String × Slice)

/-- Map indexing with the comma-ok form, `v, ok := h[key]`. -/
def Entries.lookup (key : String) : Entries → Option Slice
  | [] => none
  | (k, v) :: rest => if k = key then some v else Entries.lookup key rest

/-- Map indexing `h[key]`: the nil slice when the key is absent. -/
def Entries.index (h : Entries) (key : String) : Slice :=
  (Entries.lookup key h).getD none

/-- Map assignment `h[key] = v`. -/
def Entries.assign (h : Entries) (key : String) (v : Slice) : Entries :=
  (key, v) :: h.filter (fun e => decide (e.1 ≠ key))

/-- A Go map holds each key once. -/
def Entries.WF (h : Entries) : Prop := (h.map Prod.fst).Nodup

/-- The type `nats.Header`, a `map[string][]string`; `none` is the nil map. -/
abbrev Header := Option Entries

/-- Map indexing `h[key]` on a map that may be nil. -/
def Header.index (h : Header) (key : String) : Slice :=
  match h with
  | none => none
  | some es => es.index key

/-- Every key of the map has at least one value. -/
abbrev Entries.HasValues (es : Entries) : Prop := ∀ e ∈ es, 0 < Slice.len e.2

/-- Go `strings.HasPrefix`. -/
def HasPrefix (s p : String) : Bool := p.data.isPrefixOf s.data

/-- Go `strings.TrimPrefix`. -/
def TrimPrefix (s p : String) : String :=
  if HasPrefix s p then ⟨s.data.drop p.data.length⟩ else s

/-- Go `unicode.ToLower` on the runes that matter for an ASCII lookup key: the ASCII
letters, and the two non-ASCII runes whose lower case is ASCII (U+0130 to `i`,
U+212A to `k`). Every other non-ASCII rune has a non-ASCII lower case in Go and is
left unchanged here, so a comparison with an ASCII name gives the same answer. -/
def toLowerRune (c : Char) : Char :=
  if c = '\u0130' then 'i' else if c = '\u212a' then 'k' else c.toLower

/-- Go `strings.ToLower`. -/
def ToLower (s : String) : String := ⟨s.data.map toLowerRune⟩

/-! ## Timestamps and `interface{}` values -/

/-- A `time.Time`: an instant (seconds and nanoseconds since the Unix epoch) and
the offset of its zone, in seconds east of UTC. -/
structure Time where
  unix : Int
  nsec : Fin 1000000000
  offset : Int
  deriving DecidableEq, Repr

/-- Decimal digits of `n`, zero-padded on the left to `width`. -/
def padDigits (n width : Nat) : List Char :=
  let ds := Nat.toDigits 10 n
  List.replicate (width - ds.length) '0' ++ ds

/-- Go `appendInt`: a sign for a negative number, then the zero-padded magnitude. -/
def appendInt (x : Int) (width : Nat) : List Char :=
  if x < 0 then '-' :: padDigits x.natAbs width else padDigits x.natAbs width

/-- Civil date (year, month, day) of a day count since 1970-01-01, proleptic
Gregorian calendar. -/
def civilFromDays (days : Int) : Int × Int × Int :=
  let z := days + 719468
  let era := z / 146097
  let doe := z - era * 146097
  let yoe := (doe - doe / 1460 + doe / 36524 - doe / 146096) / 365
  let doy := doe - (365 * yoe + yoe / 4 - yoe / 100)
  let mp := (5 * doy + 2) / 153
  let d := doy - (153 * mp + 2) / 5 + 1
  let m := if mp < 10 then mp + 3 else mp - 9
  let y := yoe + era * 400
  (if m ≤ 2 then y + 1 else y, m, d)

/-- Go `formatNano` with nine digits and trimming: nothing for zero, otherwise a
point and the nanoseconds without trailing zeros. -/
def formatNano (n : Nat) : List Char :=
  let ds := (padDigits n 9).reverse.dropWhile (fun c => c == '0')
  if ds.isEmpty then [] else '.' :: ds.reverse

/-- Zone suffix of layout element `Z07:00`. -/
def formatZone (offset : Int) : List Char :=
  if offset = 0 then ['Z']
  else
    let zone := Int.tdiv offset 60
    let sign := if zone < 0 then '-' else '+'
    let zone := zone.natAbs
    sign :: (padDigits (zone / 60) 2 ++ ':' :: padDigits (zone % 60) 2)

/-- Go `t.Format(time.RFC3339Nano)`, layout `2006-01-02T15:04:05.999999999Z07:00`. -/
def Time.FormatRFC3339Nano (t : Time) : String :=
  let loc := t.unix + t.offset
  let days := loc / 86400
  let sod := loc % 86400
  let ymd := civilFromDays days
  ⟨appendInt ymd.1 4 ++ '-' :: appendInt ymd.2.1 2 ++ '-' :: appendInt ymd.2.2 2
    ++ 'T' :: appendInt (sod / 3600) 2 ++ ':' :: appendInt (sod % 3600 / 60) 2
    ++ ':' :: appendInt (sod % 60) 2 ++ formatNano t.nsec.val ++ formatZone t.offset⟩

/-- A Go `interface{}` value handed to a metadata writer. The binding observes a
value only through `fmt.Sprint` and the type assertion `value.(time.Time)`, so a
value that is neither nil nor a string carries its `fmt.Sprint` rendering. -/
inductive Value where
  | null
  | str (s : String)
  | time (t : Time) (sprint : String)
  | other (sprint : String)
  deriving DecidableEq, Repr

/-- Go `fmt.Sprint(value)`. -/
def Sprint : Value → String
  | .null => "<nil>"
  | .str s => s
  | .time _ r => r
  | .other r => r

/-- The type assertion `value.(time.Time)`: panics unless the value is a timestamp. -/
def Value.assertTime : Value → Except Panic Time
  | .time t _ => .ok t
  | _ => .error .typeAssertion

/-! ## Spec Version Registry (package `binding/spec`) -/

/-- Modelled from the spec: the attribute kinds of package `binding/spec`
(`spec.Kind`), whose code is not among the sources. -/
inductive Kind where
  | ID
  | Source
  | SpecVersion
  | Type
  | DataContentType
  | DataSchema
  | Subject
  | Time
  deriving DecidableEq, Repr

/-- Modelled from the spec: `Kind.String` of package `binding/spec`, the
human-readable name of a kind. -/
def Kind.String : Kind → String
  | .ID => "id"
  | .Source => "source"
  | .SpecVersion => "specversion"
  | .Type => "type"
  | .DataContentType => "datacontenttype"
  | .DataSchema => "dataschema"
  | .Subject => "subject"
  | .Time => "time"

/-- Modelled from the spec: a `spec.Attribute` of package `binding/spec`: its kind,
its name within its version, and the version it belongs to (by name). -/
structure Attribute where
  kind : Kind
  name : String
  version : String
  deriving DecidableEq, Repr

/-- Method `Attribute.Kind`. -/
def Attribute.Kind (a : Attribute) : NatsJetstream.Kind := a.kind

/-- Method `Attribute.Name`. -/
def Attribute.Name (a : Attribute) : String := a.name

/-- Modelled from the spec: a `spec.Version` of package `binding/spec`: the
attribute name prefix, the version string, and the catalogue of attributes. -/
structure Version where
  pfx : String
  name : String
  attrs : List Attribute
  deriving DecidableEq, Repr

/-- Method `Attribute.PrefixedName`: prefix, then name. -/
def Version.PrefixedName (v : Version) (a : Attribute) : String := v.pfx ++ a.name

/-- Modelled from the spec: `Version.Attribute` of package `binding/spec`, the
attribute with the given prefixed name, compared in lower case; `none` is the nil
attribute. -/
def Version.Attribute (v : Version) (prefixedName : String) :
    Option NatsJetstream.Attribute :=
  v.attrs.find? (fun a => decide (ToLower (v.PrefixedName a) = ToLower prefixedName))

/-- Modelled from the spec: `Version.AttributeFromKind` of package `binding/spec`,
the first attribute of the given kind; `none` is the nil attribute. -/
def Version.AttributeFromKind (v : Version) (kind : Kind) :
    Option NatsJetstream.Attribute :=
  v.attrs.find? (fun a => decide (a.Kind = kind))

/-- Modelled from the spec: `spec.Versions`, all known versions with one prefix. -/
structure Versions where
  pfx : String
  all : List Version
  deriving DecidableEq, Repr

/-- Modelled from the spec: `Versions.Version` of package `binding/spec`, the
version with the given name; `none` is the nil version ("unknown"). -/
def Versions.Version (vs : Versions) (name : String) : Option NatsJetstream.Version :=
  vs.all.find? (fun v => decide (v.name = name))

/-- Modelled from the spec: `Versions.PrefixedSpecVersionName`, the canonical
prefixed header name for "specversion". -/
def Versions.PrefixedSpecVersionName (vs : Versions) : String := vs.pfx ++ "specversion"

/-- Constructor `newVersion` of package `binding/spec`: the prefix is lower-cased
and each attribute is tied to its version. -/
def newVersion (pfx name : String) (attrs : List (String × Kind)) : Version :=
  { pfx := ToLower pfx, name := name,
    attrs := attrs.map (fun a => { kind := a.2, name := a.1, version := name }) }

/-- Modelled from the spec: `spec.WithPrefix` of package `binding/spec`, the
catalogues of CloudEvents 1.0 and 0.3 with the given attribute name prefix. -/
def WithPrefix (pfx : String) : Versions :=
  { pfx := pfx,
    all := [
      newVersion pfx "1.0"
        [("id", .ID), ("source", .Source), ("specversion", .SpecVersion), ("type", .Type),
         ("datacontenttype", .DataContentType), ("dataschema", .DataSchema),
         ("subject", .Subject), ("time", .Time)],
      newVersion pfx "0.3"
        [("specversion", .SpecVersion), ("type", .Type), ("source", .Source),
         ("schemaurl", .DataSchema), ("subject", .Subject), ("id", .ID), ("time", .Time),
         ("datacontenttype", .DataContentType)]] }

/-! ## `message.go` -/

/-- Constant `_EMPTY_`. -/
def _EMPTY_ : String := ""

/-- Constant `prefix` of `message.go`. -/
def cePrefix : String := "ce-"

/-- Constant `contentTypeHeader`. -/
def contentTypeHeader : String := "content-type"

/-- Constant `applicationCloudEvent`. -/
def applicationCloudEvent : String := "application/cloudevents"

/-- Package variable `specs = spec.WithPrefix(prefix)`. -/
def specs : Versions := WithPrefix cePrefix

/-- Function `withPrefix`: prepends the prefix to the attribute name. -/
def withPrefix (attributeName : String) : String := cePrefix ++ attributeName

/-- The type `binding.Encoding`. -/
inductive Encoding where
  | EncodingBinary
  | EncodingStructured
  | EncodingEvent
  | EncodingUnknown
  deriving DecidableEq, Repr

/-- The fields of `nats.Msg` that the binding reads: headers and payload
(`none` is the nil byte slice). -/
structure Msg where
  Subject : String
  Header : Header
  Data : Option (List UInt8)
  deriving DecidableEq, Repr

/-- Method `Get` of `nats.Header` (the same text as `natsHeader.Get` in
`write_message.go`): the first value associated with the key. -/
def Header.Get (h : Header) (key : String) : Except Panic String :=
  match h with
  | none => .ok _EMPTY_
  | some es =>
    match es.index key with
    | none => .ok _EMPTY_
    | some v => Slice.index0 (some v)

/-- Struct `Message`: wraps a `nats.Msg`. -/
structure Message where
  Msg : Msg
  encoding : Encoding
  deriving DecidableEq, Repr

/-- Function `NewMessage`: wraps a `nats.Msg` and detects its encoding. -/
def NewMessage (msg : Msg) : Except Panic Message :=
  match msg.Header with
  | none => .ok { Msg := msg, encoding := .EncodingStructured }
  | some _ =>
    match Header.Get msg.Header contentTypeHeader with
    | .error p => .error p
    | .ok ct =>
      if ct = applicationCloudEvent then .ok { Msg := msg, encoding := .EncodingStructured }
      else
        match Header.Get msg.Header specs.PrefixedSpecVersionName with
        | .error p => .error p
        | .ok sv =>
          if sv ≠ _EMPTY_ then .ok { Msg := msg, encoding := .EncodingBinary }
          else .ok { Msg := msg, encoding := .EncodingStructured }

/-- Method `ReadEncoding`. -/
def Message.ReadEncoding (m : Message) : Encoding := m.encoding

/-- Method `GetVersion`: looks for the specversion header and resolves it. -/
def Message.GetVersion (m : Message) : Option Version :=
  match m.Msg.Header with
  | none => none
  | some es =>
    match es.index specs.PrefixedSpecVersionName with
    | some (versionValue0 :: _) => specs.Version versionValue0
    | _ => none

/-- Method `GetAttribute`: the attribute and the header value list, or `(nil, nil)`.
A method call on the nil version panics. -/
def Message.GetAttribute (m : Message) (attributeKind : Kind) :
    Except Panic (Option Attribute × Option Slice) :=
  let key := withPrefix attributeKind.String
  match m.Msg.Header with
  | none => .ok (none, none)
  | some es =>
    match Entries.lookup key es with
    | some headerValue =>
      match m.GetVersion with
      | none => .error .nilDereference
      | some version => .ok (version.Attribute key, some headerValue)
    | none => .ok (none, none)

/-- Method `GetExtension`: the header value list, or nil. -/
def Message.GetExtension (m : Message) (name : String) : Option Slice :=
  let key := withPrefix name
  match m.Msg.Header with
  | none => none
  | some es =>
    match Entries.lookup key es with
    | some headerValue => some headerValue
    | none => none

/-- Method `Finish`. -/
def Message.Finish (_m : Message) (_err : Option Err) : Option Err := none

/-- The type `format.Format`, by its media type. -/
structure Format where
  MediaType : String
  deriving DecidableEq, Repr

/-- Value `format.JSON`. -/
def Format.JSON : Format := { MediaType := "application/cloudevents+json" }

/-- A value stored in a `context.Context` under `natsHeaderContextKey`. -/
inductive CtxValue where
  | header (h : Header)
  | other
  deriving DecidableEq, Repr

/-- A `context.Context`, as far as this package reads it: the value stored under
`natsHeaderContextKey`, `none` when `ctx.Value` returns nil. -/
structure Context where
  natsHeaderValue : Option CtxValue
  deriving DecidableEq, Repr

/-- Interface `binding.StructuredWriter`, over a writer state `σ`. A byte stream is
given by its content. -/
structure StructuredWriter (σ : Type) where
  SetStructuredEvent : Context → Format → List UInt8 → σ → Option Err × σ

/-- Interface `binding.BinaryWriter`, over a writer state `σ`: the three methods
that `ReadBinary` calls. The attribute is `none` when the nil attribute is passed. -/
structure BinaryWriter (σ : Type) where
  SetAttribute : Option Attribute → Value → σ → Option Err × σ
  SetExtension : String → Value → σ → Option Err × σ
  SetData : List UInt8 → σ → Option Err × σ

/-- Content of `bytes.NewReader(data)`: empty for the nil slice. -/
def bytesOf (data : Option (List UInt8)) : List UInt8 := data.getD []

/-- Method `ReadStructured`: transfers a structured-mode event to a StructuredWriter. -/
def Message.ReadStructured {σ : Type} (m : Message) (ctx : Context)
    (encoder : StructuredWriter σ) (s : σ) : Option Err × σ :=
  if m.encoding ≠ .EncodingStructured then (some .ErrNotStructured, s)
  else encoder.SetStructuredEvent ctx Format.JSON (bytesOf m.Msg.Data) s

/-- The `for k, v := range m.Msg.Header` loop of `ReadBinary`, over the entries in
iteration order: a panic, or the error returned from inside the loop, or `none` when
the loop runs to its end. -/
def Message.ReadBinary.range {σ : Type} (version : Version) (encoder : BinaryWriter σ) :
    Entries → σ → Except Panic (Option Err) × σ
  | [], s => (.ok none, s)
  | (k, v) :: rest, s =>
    match Slice.index0 v with
    | .error p => (.error p, s)
    | .ok headerValue =>
      let r : Option Err × σ :=
        if HasPrefix k cePrefix then
          match version.Attribute k with
          | some attr => encoder.SetAttribute (some attr) (.str headerValue) s
          | none => encoder.SetExtension (TrimPrefix k cePrefix) (.str headerValue) s
        else if k = contentTypeHeader then
          encoder.SetAttribute (version.AttributeFromKind .DataContentType) (.str headerValue) s
        else (none, s)
      match r.1 with
      | some err => (.ok (some err), r.2)
      | none => Message.ReadBinary.range version encoder rest r.2

/-- Method `ReadBinary`: transfers a binary-mode event to a BinaryWriter. -/
def Message.ReadBinary {σ : Type} (m : Message) (_ctx : Context) (encoder : BinaryWriter σ)
    (s : σ) : Except Panic (Option Err) × σ :=
  if m.encoding ≠ .EncodingBinary then (.ok (some .ErrNotBinary), s)
  else
    match m.GetVersion with
    | none => (.ok (some .ErrNotBinary), s)
    | some version =>
      match Message.ReadBinary.range version encoder (m.Msg.Header.getD []) s with
      | (.ok none, s1) =>
        match m.Msg.Data with
        | some data => let r := encoder.SetData data s1; (.ok r.1, r.2)
        | none => (.ok none, s1)
      | r => r

/-! ## `write_message.go` -/

/-- The type `natsHeader`, a `map[string][]string`. -/
abbrev natsHeader := Header

/-- Method `natsHeader.Add`: appends to any existing values associated with the key. -/
def natsHeader.Add (h : natsHeader) (key value : String) : Except Panic natsHeader :=
  match h with
  | none => .error .nilMapAssignment
  | some es => .ok (some (es.assign key (some ((es.index key).getD [] ++ [value]))))

/-- Method `natsHeader.Set`: sets the entries associated with the key to the single
element value. -/
def natsHeader.Set (h : natsHeader) (key value : String) : Except Panic natsHeader :=
  match h with
  | none => .error .nilMapAssignment
  | some es => .ok (some (es.assign key (some [value])))

/-- Method `natsHeader.Get`: the first value associated with the key. -/
def natsHeader.Get (h : natsHeader) (key : String) : Except Panic String :=
  match h with
  | none => .ok _EMPTY_
  | some es =>
    match es.index key with
    | none => .ok _EMPTY_
    | some v => Slice.index0 (some v)

/-- Struct `natsBinaryMessageWriter`: the header accumulator. The embedded
`io.ReaderFrom` is not touched by the metadata setters. -/
structure natsBinaryMessageWriter where
  header : natsHeader
  deriving DecidableEq, Repr

/-- Method `natsBinaryMessageWriter.SetAttribute`. -/
def natsBinaryMessageWriter.SetAttribute (w : natsBinaryMessageWriter)
    (attr : Option Attribute) (value : Value) :
    Except Panic (Option Err × natsBinaryMessageWriter) :=
  match attr with
  | none => .error .nilDereference
  | some attr =>
    let prefixedName := withPrefix attr.Name
    let convertedValue := Sprint value
    let converted : Except Panic String :=
      if attr.Kind.String = Kind.Time.String then
        match value.assertTime with
        | .error p => .error p
        | .ok timeValue => .ok timeValue.FormatRFC3339Nano
      else .ok convertedValue
    match converted with
    | .error p => .error p
    | .ok convertedValue =>
      match natsHeader.Set w.header prefixedName convertedValue with
      | .error p => .error p
      | .ok h => .ok (none, { w with header := h })

/-- Method `natsBinaryMessageWriter.SetExtension`. -/
def natsBinaryMessageWriter.SetExtension (w : natsBinaryMessageWriter)
    (name : String) (value : Value) : Except Panic (Option Err × natsBinaryMessageWriter) :=
  let prefixedName := withPrefix name
  let convertedValue := Sprint value
  match natsHeader.Set w.header prefixedName convertedValue with
  | .error p => .error p
  | .ok h => .ok (none, { w with header := h })

/-- Function `GetHeaderFromContext`. -/
def GetHeaderFromContext (ctx : Context) : Except Panic natsHeader :=
  match ctx.natsHeaderValue with
  | some (.header h) => .ok h
  | some .other => .error .typeAssertion
  | none => .ok (some [])

/-- Method `natsBinaryMessageWriter.Start`. -/
def natsBinaryMessageWriter.Start (w : natsBinaryMessageWriter) (ctx : Context) :
    Except Panic (Option Err × natsBinaryMessageWriter) :=
  match GetHeaderFromContext ctx with
  | .error p => .error p
  | .ok h => .ok (none, { w with header := h })

/-- Method `natsBinaryMessageWriter.End`. -/
def natsBinaryMessageWriter.End (w : natsBinaryMessageWriter) (_ctx : Context) :
    Option Err × natsBinaryMessageWriter := (none, w)

/-! ## Observation of the calls made on a collaborator -/

/-- A call on a `binding.BinaryWriter` or `binding.StructuredWriter`. -/
inductive Call where
  | SetAttribute (attr : Option Attribute) (value : Value)
  | SetExtension (name : String) (value : Value)
  | SetData (data : List UInt8)
  | SetStructuredEvent (f : Format) (event : List UInt8)
  deriving DecidableEq, Repr

/-- A BinaryWriter that behaves as `encoder` and logs each call it receives. -/
def BinaryWriter.traced {σ : Type} (encoder : BinaryWriter σ) : BinaryWriter (σ × List Call) where
  SetAttribute a v s :=
    ((encoder.SetAttribute a v s.1).1, (encoder.SetAttribute a v s.1).2, s.2 ++ [.SetAttribute a v])
  SetExtension n v s :=
    ((encoder.SetExtension n v s.1).1, (encoder.SetExtension n v s.1).2, s.2 ++ [.SetExtension n v])
  SetData d s := ((encoder.SetData d s.1).1, (encoder.SetData d s.1).2, s.2 ++ [.SetData d])

/-- A StructuredWriter that behaves as `encoder` and logs each call it receives. -/
def StructuredWriter.traced {σ : Type} (encoder : StructuredWriter σ) :
    StructuredWriter (σ × List Call) where
  SetStructuredEvent ctx f d s :=
    ((encoder.SetStructuredEvent ctx f d s.1).1, (encoder.SetStructuredEvent ctx f d s.1).2,
      s.2 ++ [.SetStructuredEvent f d])

/-- A BinaryWriter all of whose calls succeed. -/
def BinaryWriter.Succeeds {σ : Type} (encoder : BinaryWriter σ) : Prop :=
  (∀ a v s, (encoder.SetAttribute a v s).1 = none) ∧
  (∀ n v s, (encoder.SetExtension n v s).1 = none) ∧
  (∀ d s, (encoder.SetData d s).1 = none)

/-- A BinaryWriter without state that accepts every call. -/
def acceptAll : BinaryWriter Unit where
  SetAttribute _ _ s := (none, s)
  SetExtension _ _ s := (none, s)
  SetData _ s := (none, s)

/-- A StructuredWriter without state that accepts every call. -/
def acceptStructured : StructuredWriter Unit where
  SetStructuredEvent _ _ _ s := (none, s)

/-- The empty context, `context.Background()`. -/
def Context.background : Context := { natsHeaderValue := none }

/-! ## Statements of the specification, in its own words -/

/-- The metadata call that the specification assigns to a header key `k` with first
value `first`, for the resolved version `V`: a key with the binding prefix is an
attribute of `V` or else an extension under the stripped name, the unprefixed
content-type header is the data-content-type attribute, and any other key gives no
call. -/
def expectedCall (V : Version) (k first : String) : Option Call :=
  if HasPrefix k "ce-" then
    match V.Attribute k with
    | some a => some (.SetAttribute (some a) (.str first))
    | none => some (.SetExtension (TrimPrefix k "ce-") (.str first))
  else if k = "content-type" then
    some (.SetAttribute (V.AttributeFromKind .DataContentType) (.str first))
  else none

/-- The metadata call for a header entry, from its first value. -/
def expectedCallOfEntry (V : Version) (e : String × Slice) : Option Call :=
  match e.2 with
  | some (first :: _) => expectedCall V e.1 first
  | _ => none

/-- The data call: one `SetData` when the payload is non-nil. -/
def dataCalls (data : Option (List UInt8)) : List Call :=
  match data with
  | some d => [.SetData d]
  | none => []

/-! ## Concrete messages -/

/-- Payload of the scenario, the bytes of `{"k":1}`. -/
def scenarioPayload : List UInt8 := [123, 34, 107, 34, 58, 49, 125]

/-- The scenario of the specification: four prefixed headers and a content type. -/
def scenarioMsg : Msg :=
  { Subject := "test_stream.ABC",
    Header := some [("ce-specversion", some ["1.0"]), ("ce-type", some ["com.example.test"]),
      ("ce-source", some ["/src"]), ("ce-id", some ["A234"]),
      ("content-type", some ["application/json"])],
    Data := some scenarioPayload }

/-- A binary-looking message one of whose headers has an empty value list. -/
def emptyValueMsg : Msg :=
  { Subject := "test_stream.ABC",
    Header := some [("x-trace", some []), ("ce-specversion", some ["1.0"])],
    Data := none }

/-- The message `emptyValueMsg` with its two headers visited in the other order. -/
def emptyValueMsgSwapped : Msg :=
  { Subject := "test_stream.ABC",
    Header := some [("ce-specversion", some ["1.0"]), ("x-trace", some [])],
    Data := none }

/-- The catalogue of CloudEvents 1.0 with the binding prefix. -/
def V1 : Version :=
  newVersion cePrefix "1.0"
    [("id", .ID), ("source", .Source), ("specversion", .SpecVersion), ("type", .Type),
     ("datacontenttype", .DataContentType), ("dataschema", .DataSchema),
     ("subject", .Subject), ("time", .Time)]

/-- A message with the structured content type and a ce-specversion header. -/
def structuredWithVersionMsg : Msg :=
  { Subject := "test_stream.ABC",
    Header := some [("ce-specversion", some ["1.0"]), ("ce-type", some ["com.example.test"]),
      ("content-type", some ["application/cloudevents"])],
    Data := some scenarioPayload }

/-- A message with prefixed headers and no content-type entry. -/
def binaryNoContentTypeMsg : Msg :=
  { Subject := "test_stream.ABC",
    Header := some [("ce-id", some ["A234"]), ("ce-specversion", some ["1.0", "0.3"])],
    Data := none }

/-- A message with a foreign content type and an empty ce-specversion value. -/
def noSignalMsg : Msg :=
  { Subject := "test_stream.ABC",
    Header := some [("content-type", some ["application/json"]), ("ce-specversion", some [""])],
    Data := some scenarioPayload }

/-- A message with no header map at all. -/
def noHeaderMsg : Msg :=
  { Subject := "test_stream.ABC", Header := none, Data := some scenarioPayload }

/-- A message whose content-type entry is an empty, non-nil value list. -/
def emptyContentTypeMsg : Msg :=
  { Subject := "test_stream.ABC", Header := some [("content-type", some [])], Data := none }

/-- A message whose ce-specversion value is not a known version. -/
def unknownVersionMsg : Msg :=
  { Subject := "test_stream.ABC",
    Header := some [("ce-specversion", some ["2.0"]), ("ce-type", some ["com.example.test"])],
    Data := some scenarioPayload }

/-- A message with a prefixed attribute header and no ce-specversion header. -/
def attributeNoVersionMsg : Msg :=
  { Subject := "test_stream.ABC",
    Header := some [("ce-type", some ["com.example.test"])],
    Data := none }

/-! ## The write side as the orchestrator drives it -/

/-- A metadata call that the write orchestrator makes on the binary writer. -/
inductive Write where
  | attr (a : Option Attribute) (value : Value)
  | ext (name : String) (value : Value)
  deriving DecidableEq, Repr

/-- One metadata call on the binary writer. -/
def natsBinaryMessageWriter.write (w : natsBinaryMessageWriter) :
    Write → Except Panic (Option Err × natsBinaryMessageWriter)
  | .attr a v => w.SetAttribute a v
  | .ext n v => w.SetExtension n v

/-- A sequence of metadata calls on the binary writer, aborted at the first panic or
error, as the orchestrator does. -/
def natsBinaryMessageWriter.writeAll (w : natsBinaryMessageWriter) :
    List Write → Except Panic (Option Err × natsBinaryMessageWriter)
  | [] => .ok (none, w)
  | wr :: rest =>
    match w.write wr with
    | .error p => .error p
    | .ok (some err, w1) => .ok (some err, w1)
    | .ok (none, w1) => natsBinaryMessageWriter.writeAll w1 rest

/-- The header key that a metadata call writes. -/
def Write.key : Write → String
  | .attr (some a) _ => withPrefix a.Name
  | .attr none _ => _EMPTY_
  | .ext n _ => withPrefix n

/-- The header entry that a metadata call leaves: its key with the single string form
of the value. -/
def Write.entry (w : Write) : String × Slice :=
  match w with
  | .attr _ v => (w.key, some [Sprint v])
  | .ext _ v => (w.key, some [Sprint v])

/-- The call with which a written metadata item comes back on reading: the same
attribute or extension name, with the string form of the value. -/
def Write.readCall : Write → Call
  | .attr a v => .SetAttribute a (.str (Sprint v))
  | .ext n v => .SetExtension n (.str (Sprint v))

/-- A metadata call that reads back as itself under version `V`: an attribute of `V`
that is not time-valued, or an extension whose prefixed name is no attribute of `V`. -/
def Write.Valid (V : Version) : Write → Prop
  | .attr (some a) _ => a.Kind ≠ .Time ∧ V.Attribute (withPrefix a.Name) = some a
  | .attr none _ => False
  | .ext n _ => V.Attribute (withPrefix n) = none

/-- The writes for an event that has only the mandatory attributes: specversion of
version `V`, id, source and type. -/
def mandatoryWrites (V : Version) (id source type : String) : List Write :=
  [.attr (V.AttributeFromKind .SpecVersion) (.str V.name),
   .attr (V.AttributeFromKind .ID) (.str id),
   .attr (V.AttributeFromKind .Source) (.str source),
   .attr (V.AttributeFromKind .Type) (.str type)]

/-- The writes for an event of version `V` with the given extensions (name, string
value): the specversion attribute, then each extension. -/
def extensionWrites (V : Version) (exts : List (String × String)) : List Write :=
  .attr (V.AttributeFromKind .SpecVersion) (.str V.name)
    :: exts.map (fun e => .ext e.1 (.str e.2))

/-- The name and value of a `SetExtension` call. -/
def Call.extension? : Call → Option (String × Value)
  | .SetExtension n v => some (n, v)
  | _ => none

/-- The catalogue of CloudEvents 0.3 with the binding prefix. -/
def V03 : Version :=
  newVersion cePrefix "0.3"
    [("specversion", .SpecVersion), ("type", .Type), ("source", .Source),
     ("schemaurl", .DataSchema), ("subject", .Subject), ("id", .ID), ("time", .Time),
     ("datacontenttype", .DataContentType)]

/-- The headers that the binary writer produces for version 1.0 with the single
extension `id = x`, in the order in which the model lists them. -/
def extensionNamedIdEntries : Entries :=
  [("ce-id", some ["x"]), ("ce-specversion", some ["1.0"])]

/-- The message that carries `extensionNamedIdEntries`. -/
def extensionNamedIdMsg : Msg :=
  { Subject := "test_stream.ABC", Header := some extensionNamedIdEntries, Data := none }

/-- The message `extensionNamedIdMsg` with its two headers visited in the other order. -/
def extensionNamedIdMsgSwapped : Msg :=
  { Subject := "test_stream.ABC", Header := some extensionNamedIdEntries.reverse, Data := none }

/-! ## `write_message.go`: the payload side -/

/-- Interface `io.ReaderFrom`, over a sink state `ρ`: `ReadFrom` reads the stream, given
by its content, and returns the number of bytes read and an error. -/
structure ReaderFrom (ρ : Type) where
  ReadFrom : List UInt8 → ρ → (Int × Option Err) × ρ

/-- Method `natsMessageWriter.SetStructuredEvent`: hands the event stream to the
embedded `io.ReaderFrom` and returns its error. -/
def natsMessageWriter.SetStructuredEvent {ρ : Type} (w : ReaderFrom ρ) (_ctx : Context)
    (_f : Format) (event : List UInt8) (sink : ρ) : Option Err × ρ :=
  match w.ReadFrom event sink with
  | ((_, some err), sink1) => (some err, sink1)
  | ((_, none), sink1) => (none, sink1)

/-- The struct `natsMessageWriter` as a `binding.StructuredWriter`. -/
def natsMessageWriter.asStructuredWriter {ρ : Type} (w : ReaderFrom ρ) : StructuredWriter ρ where
  SetStructuredEvent := natsMessageWriter.SetStructuredEvent w

/-- Method `natsBinaryMessageWriter.SetData`: hands the data stream to the embedded
`io.ReaderFrom` and returns its error. -/
def natsBinaryMessageWriter.SetData {ρ : Type} (w : ReaderFrom ρ) (data : List UInt8)
    (sink : ρ) : Option Err × ρ :=
  match w.ReadFrom data sink with
  | ((_, some err), sink1) => (some err, sink1)
  | ((_, none), sink1) => (none, sink1)

/-- A `bytes.Buffer` as `io.ReaderFrom`: `ReadFrom` appends the whole stream to the
buffer and reports its length. -/
def bytesBuffer : ReaderFrom (List UInt8) where
  ReadFrom data buf := ((Int.ofNat data.length, none), buf ++ data)

/-- A sink whose `ReadFrom` fails with the given error after taking nothing. -/
def failingSink (err : Err) : ReaderFrom (List UInt8) where
  ReadFrom _ buf := ((0, some err), buf)

/-! ## `subscriber.go` -/

/-- A `nats.MsgHandler`, the callback of a push subscription, by an identifier. -/
structure MsgHandler where
  id : Nat
  deriving DecidableEq, Repr

/-- A `nats.SubOpt`, a subscription option, by its name. -/
structure SubOpt where
  name : String
  deriving DecidableEq, Repr

/-- A `*nats.Subscription`, the subscription handle, by an identifier. -/
structure Subscription where
  id : Nat
  deriving DecidableEq, Repr

/-- Interface `nats.JetStreamContext`, over a client state `σ`: the four subscription
methods that the subscribers call. A result is the handle (`none` for nil) and the
error. -/
structure JetStreamContext (σ : Type) where
  Subscribe : String → MsgHandler → List SubOpt → σ → (Option Subscription × Option Err) × σ
  SubscribeSync : String → List SubOpt → σ → (Option Subscription × Option Err) × σ
  QueueSubscribe :
    String → String → MsgHandler → List SubOpt → σ → (Option Subscription × Option Err) × σ
  QueueSubscribeSync :
    String → String → List SubOpt → σ → (Option Subscription × Option Err) × σ

/-- Struct `RegularSubscriber`: creates regular subscriptions. -/
structure RegularSubscriber where
  deriving DecidableEq, Repr

/-- Struct `QueueSubscriber`: creates queue subscriptions. -/
structure QueueSubscriber where
  Queue : String
  deriving DecidableEq, Repr

/-- Method `RegularSubscriber.Subscribe`. The package variable `DoPullProcessing` is
passed as its current value. -/
def RegularSubscriber.Subscribe {σ : Type} (_s : RegularSubscriber) (DoPullProcessing : Bool)
    (jsm : JetStreamContext σ) (subject : String) (cb : MsgHandler) (opts : List SubOpt)
    (st : σ) : (Option Subscription × Option Err) × σ :=
  if DoPullProcessing then jsm.SubscribeSync subject opts st
  else jsm.Subscribe subject cb opts st

/-- Method `QueueSubscriber.Subscribe`. The package variable `DoPullProcessing` is
passed as its current value. -/
def QueueSubscriber.Subscribe {σ : Type} (s : QueueSubscriber) (DoPullProcessing : Bool)
    (jsm : JetStreamContext σ) (subject : String) (cb : MsgHandler) (opts : List SubOpt)
    (st : σ) : (Option Subscription × Option Err) × σ :=
  if DoPullProcessing then jsm.QueueSubscribeSync subject s.Queue opts st
  else jsm.QueueSubscribe subject s.Queue cb opts st

/-- A call on a `nats.JetStreamContext`. -/
inductive JsmCall where
  | Subscribe (subject : String) (cb : MsgHandler) (opts : List SubOpt)
  | SubscribeSync (subject : String) (opts : List SubOpt)
  | QueueSubscribe (subject queue : String) (cb : MsgHandler) (opts : List SubOpt)
  | QueueSubscribeSync (subject queue : String) (opts : List SubOpt)
  deriving DecidableEq, Repr

/-- A JetStreamContext that behaves as `jsm` and logs each call it receives. -/
def JetStreamContext.traced {σ : Type} (jsm : JetStreamContext σ) :
    JetStreamContext (σ × List JsmCall) where
  Subscribe subject cb opts st :=
    ((jsm.Subscribe subject cb opts st.1).1, (jsm.Subscribe subject cb opts st.1).2,
      st.2 ++ [.Subscribe subject cb opts])
  SubscribeSync subject opts st :=
    ((jsm.SubscribeSync subject opts st.1).1, (jsm.SubscribeSync subject opts st.1).2,
      st.2 ++ [.SubscribeSync subject opts])
  QueueSubscribe subject queue cb opts st :=
    ((jsm.QueueSubscribe subject queue cb opts st.1).1,
      (jsm.QueueSubscribe subject queue cb opts st.1).2,
      st.2 ++ [.QueueSubscribe subject queue cb opts])
  QueueSubscribeSync subject queue opts st :=
    ((jsm.QueueSubscribeSync subject queue opts st.1).1,
      (jsm.QueueSubscribeSync subject queue opts st.1).2,
      st.2 ++ [.QueueSubscribeSync subject queue opts])

/-! ## Further observation of a collaborator, and concrete collaborators -/

/-- A BinaryWriter that behaves as `encoder` and logs each call with its result. -/
def BinaryWriter.recorded {σ : Type} (encoder : BinaryWriter σ) :
    BinaryWriter (σ × List (Call × Option Err)) where
  SetAttribute a v s :=
    ((encoder.SetAttribute a v s.1).1, (encoder.SetAttribute a v s.1).2,
      s.2 ++ [(.SetAttribute a v, (encoder.SetAttribute a v s.1).1)])
  SetExtension n v s :=
    ((encoder.SetExtension n v s.1).1, (encoder.SetExtension n v s.1).2,
      s.2 ++ [(.SetExtension n v, (encoder.SetExtension n v s.1).1)])
  SetData d s :=
    ((encoder.SetData d s.1).1, (encoder.SetData d s.1).2,
      s.2 ++ [(.SetData d, (encoder.SetData d s.1).1)])

/-- A metadata call: `SetAttribute` or `SetExtension`. -/
def Call.isMetadata : Call → Bool
  | .SetAttribute _ _ => true
  | .SetExtension _ _ => true
  | _ => false

/-- A BinaryWriter whose header calls (`SetAttribute`, `SetExtension`) all succeed. -/
def BinaryWriter.HeaderCallsSucceed {σ : Type} (encoder : BinaryWriter σ) : Prop :=
  (∀ a v s, (encoder.SetAttribute a v s).1 = none) ∧
  (∀ n v s, (encoder.SetExtension n v s).1 = none)

/-- A BinaryWriter without state that rejects every extension with an error that
names it, and accepts every other call. -/
def rejectExtensions : BinaryWriter Unit where
  SetAttribute _ _ s := (none, s)
  SetExtension n _ s := (some (.other n), s)
  SetData _ s := (none, s)

/-- A BinaryWriter without state that accepts the header calls and fails `SetData`. -/
def rejectData : BinaryWriter Unit where
  SetAttribute _ _ s := (none, s)
  SetExtension _ _ s := (none, s)
  SetData _ s := (some (.other "data"), s)

/-- A transport client without state that returns handle 7 from every method. -/
def clientOk : JetStreamContext Unit where
  Subscribe _ _ _ s := ((some { id := 7 }, none), s)
  SubscribeSync _ _ s := ((some { id := 7 }, none), s)
  QueueSubscribe _ _ _ _ s := ((some { id := 7 }, none), s)
  QueueSubscribeSync _ _ _ s := ((some { id := 7 }, none), s)

/-- The time attribute of CloudEvents 1.0. -/
def timeAttributeV1 : Attribute := { kind := .Time, name := "time", version := "1.0" }

/-- A binary message with two extensions and version 1.0, without payload. -/
def twoExtensionsMsg : Msg :=
  { Subject := "test_stream.ABC",
    Header := some [("ce-a", some ["1"]), ("ce-b", some ["2"]),
      ("ce-specversion", some ["1.0"])],
    Data := none }

/-- The message `twoExtensionsMsg` with its headers visited in another order. -/
def twoExtensionsMsgSwapped : Msg :=
  { Subject := "test_stream.ABC",
    Header := some [("ce-b", some ["2"]), ("ce-a", some ["1"]),
      ("ce-specversion", some ["1.0"])],
    Data := none }

/-- A binary message with a payload, one of whose headers has an empty value list. -/
def emptyValueMsgWithData : Msg :=
  { Subject := "test_stream.ABC",
    Header := some [("ce-specversion", some ["1.0"]), ("x-trace", some [])],
    Data := some scenarioPayload }

/-- The message `emptyValueMsgWithData` without its header x-trace. -/
def emptyValueMsgWithDataTrimmed : Msg :=
  { Subject := "test_stream.ABC",
    Header := some [("ce-specversion", some ["1.0"])],
    Data := some scenarioPayload }

/-- A header key that `ReadBinary` maps to a call: prefixed, or the content type. -/
def relevantKey (k : String) : Bool := HasPrefix k cePrefix || decide (k = contentTypeHeader)

/-- The message without the headers whose key is neither prefixed nor the content type. -/
def Msg.dropIrrelevant (msg : Msg) : Msg :=
  { msg with Header := msg.Header.map (fun es => es.filter (fun e => relevantKey e.1)) }

/-- What the log of a recording writer shows after the header loop, started with log
`log`: either every new entry is a metadata call that succeeded and the loop ended
without an error (it ran to its end, or panicked), or the new entries are metadata
calls that succeeded followed by one last metadata call that failed, whose error the
loop returned. -/
def FailFastLog {σ : Type} (log : List (Call × Option Err))
    (r : Except Panic (Option Err) × σ × List (Call × Option Err)) : Prop :=
  ∃ new, r.2.2 = log ++ new ∧
    (((∀ x ∈ new, x.2 = none ∧ x.1.isMetadata = true) ∧ (r.1 = .ok none ∨ ∃ p, r.1 = .error p))
      ∨ ∃ init c e, new = init ++ [(c, some e)] ∧ c.isMetadata = true ∧
          (∀ x ∈ init, x.2 = none ∧ x.1.isMetadata = true) ∧ r.1 = .ok (some e))

/-- A binary message with a payload whose second header is an extension. -/
def extensionSecondMsg : Msg :=
  { Subject := "test_stream.ABC",
    Header := some [("ce-specversion", some ["1.0"]), ("ce-a", some ["1"]),
      ("ce-id", some ["A234"])],
    Data := some scenarioPayload }

/-- A binary message of version 1.0 with a zero-length, non-nil payload. -/
def emptyPayloadMsg : Msg :=
  { Subject := "test_stream.ABC",
    Header := some [("ce-specversion", some ["1.0"])],
    Data := some [] }

/-! ## Header maps by reference -/

/-- The header maps allocated so far, by address. A Go map value is a reference: a
write through one reference is seen through every reference to the same map. -/
structure Store where
  maps : Nat → Option Entries
  next : Nat

/-- The store with no map. -/
def Store.empty : Store := { maps := fun _ => none, next := 0 }

/-- Allocation of a new map with the given content; returns its address. -/
def Store.alloc (st : Store) (es : Entries) : Nat × Store :=
  (st.next,
   { maps := fun b => if b = st.next then some es else st.maps b, next := st.next + 1 })

/-- In-place update of the map at an address. -/
def Store.update (st : Store) (a : Nat) (es : Entries) : Store :=
  { maps := fun b => if b = a then some es else st.maps b, next := st.next }

/-- A `natsHeader` value as a reference: `none` is the nil map, `some a` the map at
address `a`. -/
abbrev MapRef := Option Nat

/-- The content behind a reference. -/
def Store.deref (st : Store) (r : MapRef) : Header := r.bind st.maps

/-- A value stored in a context under `natsHeaderContextKey`, with a header held by
reference. -/
inductive RefValue where
  | header (r : MapRef)
  | other
  deriving DecidableEq, Repr

/-- A `context.Context` whose header value is held by reference. A context is
immutable: no operation of the package changes it. -/
structure RefContext where
  natsHeaderValue : Option RefValue
  deriving DecidableEq, Repr

/-- The context as `GetHeaderFromContext` reads it in a given store. -/
def RefContext.view (ctx : RefContext) (st : Store) : Context :=
  { natsHeaderValue := ctx.natsHeaderValue.map (fun v =>
      match v with
      | .header r => CtxValue.header (st.deref r)
      | .other => CtxValue.other) }

/-- Function `GetHeaderFromContext`, by reference: the reference stored in the context,
or a newly allocated empty map (`natsHeader{}`). -/
def GetHeaderFromContextRef (ctx : RefContext) (st : Store) : Except Panic (MapRef × Store) :=
  match ctx.natsHeaderValue with
  | some (.header r) => .ok (r, st)
  | some .other => .error .typeAssertion
  | none => .ok (some (st.alloc []).1, (st.alloc []).2)

/-- Struct `natsBinaryMessageWriter` with its header map held by reference. -/
structure natsBinaryMessageWriterRef where
  header : MapRef
  deriving DecidableEq, Repr

/-- Method `natsBinaryMessageWriter.Start`, by reference. -/
def natsBinaryMessageWriterRef.Start (_w : natsBinaryMessageWriterRef) (ctx : RefContext)
    (st : Store) : Except Panic (Option Err × natsBinaryMessageWriterRef × Store) :=
  match GetHeaderFromContextRef ctx st with
  | .error p => .error p
  | .ok (r, st1) => .ok (none, { header := r }, st1)

/-- A metadata call on the binary writer, by reference: the call acts on the content
behind the writer's reference and the map at that address is updated in place. -/
def natsBinaryMessageWriterRef.write (w : natsBinaryMessageWriterRef) (wr : Write)
    (st : Store) : Except Panic (Option Err × Store) :=
  match natsBinaryMessageWriter.write { header := st.deref w.header } wr with
  | .error p => .error p
  | .ok (err, w1) =>
    match w.header, w1.header with
    | some a, some es1 => .ok (err, st.update a es1)
    | _, _ => .ok (err, st)

/-- A sequence of metadata calls on the binary writer, by reference, aborted at the
first panic or error. -/
def natsBinaryMessageWriterRef.writeAll (w : natsBinaryMessageWriterRef) :
    List Write → Store → Except Panic (Option Err × Store)
  | [], st => .ok (none, st)
  | wr :: rest, st =>
    match w.write wr st with
    | .error p => .error p
    | .ok (some err, st1) => .ok (some err, st1)
    | .ok (none, st1) => natsBinaryMessageWriterRef.writeAll w rest st1

/-- A metadata call that does not panic on a started writer: a non-nil attribute, with
a timestamp as value when the attribute is time-valued, or an extension. -/
def Write.Safe : Write → Prop
  | .attr (some a) v => a.Kind = .Time → ∃ t r, v = Value.time t r
  | .attr none _ => False
  | .ext _ _ => True

/-- A context that holds no header value. -/
def RefContext.background : RefContext := { natsHeaderValue := none }

/-- A context that holds the header map at address 0. -/
def RefContext.withHeader0 : RefContext := { natsHeaderValue := some (.header (some 0)) }

/-- A store whose only map, at address 0, is empty. -/
def Store.oneEmptyMap : Store := (Store.empty.alloc []).2

/-! ## Reading an RFC 3339 timestamp (Go `time.Parse`) -/

/-- The decimal digits of `n` in exactly `w` places, most significant first: the
closed form of `padDigits` for a number that fits, used to state the lemmas on digits. -/
def fixedDigits : Nat → Nat → List Char
  | 0, _ => []
  | w + 1, n => fixedDigits w (n / 10) ++ [Nat.digitChar (n % 10)]

/-- Value of a decimal digit character. -/
def digitValue (c : Char) : Nat := c.toNat - 48

/-- Value of a string of decimal digits. -/
def digitsValue (cs : List Char) : Nat := cs.foldl (fun acc c => acc * 10 + digitValue c) 0

/-- Go `atoi` on text that starts with a digit: a number written in decimal digits
only. -/
def parseNum (cs : List Char) : Option Nat :=
  if cs.all Char.isDigit then some (digitsValue cs) else none

/-- Go `getnum`: the number in the one or two leading decimal digits of `s`, and the
rest of `s`; when `fixed`, two digits are required. -/
def getnum (s : List Char) (fixed : Bool) : Option (Nat × List Char) :=
  match s with
  | [] => none
  | [c1] => if c1.isDigit then (if fixed then none else some (digitValue c1, [])) else none
  | c1 :: c2 :: rest =>
    if c1.isDigit then
      if c2.isDigit then some (digitValue c1 * 10 + digitValue c2, rest)
      else if fixed then none else some (digitValue c1, c2 :: rest)
    else none

/-- Go `skip` for a literal character `c` of the layout: the text after `c`. -/
def skip (value : List Char) (c : Char) : Option (List Char) :=
  match value with
  | d :: rest => if d = c then some rest else none
  | [] => none

/-- Layout element `2006`: a year of exactly four decimal digits, and the rest. -/
def getyear : List Char → Option (Nat × List Char)
  | y1 :: y2 :: y3 :: y4 :: rest =>
    match parseNum [y1, y2, y3, y4] with
    | some year => some (year, rest)
    | none => none
  | _ => none

/-- Go `isLeap`: leap year of the proleptic Gregorian calendar. -/
def isLeap (y : Int) : Bool := y % 4 = 0 ∧ (y % 100 ≠ 0 ∨ y % 400 = 0)

/-- Go `daysIn`: number of days of month `m` in year `y`. -/
def daysIn (m y : Int) : Int :=
  if m = 2 then (if isLeap y then 29 else 28)
  else if m = 4 ∨ m = 6 ∨ m = 9 ∨ m = 11 then 30 else 31

/-- Day count since 1970-01-01 of a civil date, proleptic Gregorian calendar. -/
def daysFromCivil (y m d : Int) : Int :=
  let y1 := if m ≤ 2 then y - 1 else y
  let era := y1 / 400
  let yoe := y1 - era * 400
  let mp := if m > 2 then m - 3 else m + 9
  let doy := (153 * mp + 2) / 5 + d - 1
  let doe := yoe * 365 + yoe / 4 - yoe / 100 + doy
  era * 146097 + doe - 719468

/-- Go `parseNanoseconds` on the digits of a fraction of a second: the first nine
count, scaled to nanoseconds. -/
def nanosOf (ds : List Char) : Nat :=
  digitsValue (ds.take 9) * 10 ^ (9 - (ds.take 9).length)

/-- Layout element `.999999999`: an optional fraction of a second, a point or comma
followed by digits; its value in nanoseconds and what follows it. -/
def parseFraction : List Char → Nat × List Char
  | sep :: d :: rest =>
    if (sep = '.' ∨ sep = ',') ∧ d.isDigit = true then
      (nanosOf ((d :: rest).takeWhile Char.isDigit), (d :: rest).dropWhile Char.isDigit)
    else (0, sep :: d :: rest)
  | cs => (0, cs)

/-- Layout element `Z07:00` at the end of the text: `Z`, or a sign, two digits of
hours, a colon and two digits of minutes, as an offset in seconds east of UTC. The
range test of `Parse` lets 24 hours and 60 minutes through. -/
def parseZone : List Char → Option Int
  | ['Z'] => some 0
  | [sg, h1, h2, ':', m1, m2] =>
    match getnum [h1, h2] true, getnum [m1, m2] true with
    | some (hr, _), some (mm, _) =>
      if hr > 24 ∨ mm > 60 then none
      else if sg = '+' then some (Int.ofNat ((hr * 60 + mm) * 60))
      else if sg = '-' then some (- Int.ofNat ((hr * 60 + mm) * 60))
      else none
    | _, _ => none
  | _ => none

/-- Layout `2006-01-02`: year, month and day, and what follows. The month is range
checked here; `Parse` checks the day against the month at its end. -/
def parseDate (value : List Char) : Option ((Nat × Nat × Nat) × List Char) :=
  match getyear value with
  | none => none
  | some (year, v1) =>
    match skip v1 '-' with
    | none => none
    | some v2 =>
      match getnum v2 true with
      | none => none
      | some (month, v3) =>
        if month = 0 ∨ 12 < month then none
        else
          match skip v3 '-' with
          | none => none
          | some v4 =>
            match getnum v4 true with
            | none => none
            | some (day, v5) => some ((year, month, day), v5)

/-- Layout `T15:04:05`: hour (one or two digits), minute and second, each range
checked, and what follows. -/
def parseClock (value : List Char) : Option ((Nat × Nat × Nat) × List Char) :=
  match skip value 'T' with
  | none => none
  | some v1 =>
    match getnum v1 false with
    | none => none
    | some (hour, v2) =>
      if 24 ≤ hour then none
      else
        match skip v2 ':' with
        | none => none
        | some v3 =>
          match getnum v3 true with
          | none => none
          | some (min, v4) =>
            if 60 ≤ min then none
            else
              match skip v4 ':' with
              | none => none
              | some v5 =>
                match getnum v5 true with
                | none => none
                | some (sec, v6) => if 60 ≤ sec then none else some ((hour, min, sec), v6)

/-- Go `time.Parse(time.RFC3339Nano, s)`: the instant and the zone offset read from
`s`; `none` when `Parse` returns an error. -/
def ParseRFC3339 (s : String) : Option Time :=
  match parseDate s.data with
  | none => none
  | some ((year, month, day), v1) =>
    match parseClock v1 with
    | none => none
    | some ((hour, min, sec), v2) =>
      match parseZone (parseFraction v2).2 with
      | none => none
      | some off =>
        if h : (parseFraction v2).1 < 1000000000 then
          if 1 ≤ day ∧ Int.ofNat day ≤ daysIn (Int.ofNat month) (Int.ofNat year) then
            some { unix := daysFromCivil (Int.ofNat year) (Int.ofNat month) (Int.ofNat day)
                      * 86400 + Int.ofNat (hour * 3600 + min * 60 + sec) - off,
                   nsec := ⟨(parseFraction v2).1, h⟩, offset := off }
          else none
        else none

/-- Go `Time.Equal`: two timestamps denote the same instant, to the nanosecond. -/
def Time.Equal (t u : Time) : Prop := t.unix = u.unix ∧ t.nsec = u.nsec

/-- Go `Time.Year`: the civil year of a timestamp in its zone. -/
def Time.Year (t : Time) : Int := (civilFromDays ((t.unix + t.offset) / 86400)).1

/-! ## The byte stream handed to a decoder, and the message after a read -/

/-- What an array holding `old` holds after `left` is written over its front: the
length of the array does not change. -/
def overwrite (old left : List UInt8) : List UInt8 :=
  (left ++ old.drop left.length).take old.length

/-- Interface `binding.BinaryWriter` with the reach of `SetData` into its argument.
`ReadBinary` hands `SetData` the stream `bytes.NewBuffer(m.Msg.Data)`, a buffer laid
over the payload's own array, which a decoder can read and, through `Bytes` or
`Reset` and `Write`, write. Besides its result and state, `SetData` gives the bytes it
leaves in that array: the content it was handed, when it only reads. -/
structure AliasedBinaryWriter (σ : Type) where
  SetAttribute : Option Attribute → Value → σ → Option Err × σ
  SetExtension : String → Value → σ → Option Err × σ
  SetData : List UInt8 → σ → (Option Err × σ) × List UInt8

/-- Interface `binding.StructuredWriter` with the reach of `SetStructuredEvent` into
its argument: `ReadStructured` hands it `bytes.NewReader(m.Msg.Data)`, a reader laid
over the payload's own array, whose `WriteTo` passes a slice of that array on.
Besides its result and state, the call gives the bytes it leaves in that array. -/
structure AliasedStructuredWriter (σ : Type) where
  SetStructuredEvent : Context → Format → List UInt8 → σ → (Option Err × σ) × List UInt8

/-- The decoder as `ReadBinary` of the first model sees it: results and states only. -/
def AliasedBinaryWriter.toBinaryWriter {σ : Type} (w : AliasedBinaryWriter σ) :
    BinaryWriter σ where
  SetAttribute := w.SetAttribute
  SetExtension := w.SetExtension
  SetData d s := (w.SetData d s).1

/-- The decoder as `ReadStructured` of the first model sees it. -/
def AliasedStructuredWriter.toStructuredWriter {σ : Type} (w : AliasedStructuredWriter σ) :
    StructuredWriter σ where
  SetStructuredEvent ctx f d s := (w.SetStructuredEvent ctx f d s).1

/-- A decoder that only reads the stream it is handed: it leaves the bytes as they
were. -/
def AliasedBinaryWriter.ReadsOnly {σ : Type} (w : AliasedBinaryWriter σ) : Prop :=
  ∀ d s, (w.SetData d s).2 = d

/-- A structured decoder that only reads the stream it is handed. -/
def AliasedStructuredWriter.ReadsOnly {σ : Type} (w : AliasedStructuredWriter σ) : Prop :=
  ∀ ctx f d s, (w.SetStructuredEvent ctx f d s).2 = d

/-- A decoder that behaves as `encoder` and logs each call it receives. -/
def AliasedBinaryWriter.traced {σ : Type} (encoder : AliasedBinaryWriter σ) :
    AliasedBinaryWriter (σ × List Call) where
  SetAttribute a v s :=
    ((encoder.SetAttribute a v s.1).1, (encoder.SetAttribute a v s.1).2, s.2 ++ [.SetAttribute a v])
  SetExtension n v s :=
    ((encoder.SetExtension n v s.1).1, (encoder.SetExtension n v s.1).2, s.2 ++ [.SetExtension n v])
  SetData d s :=
    (((encoder.SetData d s.1).1.1, (encoder.SetData d s.1).1.2, s.2 ++ [.SetData d]),
      (encoder.SetData d s.1).2)

/-- A structured decoder that behaves as `encoder` and logs each call it receives. -/
def AliasedStructuredWriter.traced {σ : Type} (encoder : AliasedStructuredWriter σ) :
    AliasedStructuredWriter (σ × List Call) where
  SetStructuredEvent ctx f d s :=
    (((encoder.SetStructuredEvent ctx f d s.1).1.1, (encoder.SetStructuredEvent ctx f d s.1).1.2,
        s.2 ++ [.SetStructuredEvent f d]),
      (encoder.SetStructuredEvent ctx f d s.1).2)

/-- The message after a decoder was handed a stream over its payload and left `left`
in the array: a nil payload has no array and stays nil. -/
def Msg.afterStream (msg : Msg) (left : List UInt8) : Msg :=
  { msg with Data := msg.Data.map (fun d => overwrite d left) }

/-- Method `ReadStructured`, with the message as the call leaves it. -/
def Message.ReadStructuredAliased {σ : Type} (m : Message) (ctx : Context)
    (encoder : AliasedStructuredWriter σ) (s : σ) : (Option Err × σ) × Message :=
  if m.encoding ≠ .EncodingStructured then ((some .ErrNotStructured, s), m)
  else
    let r := encoder.SetStructuredEvent ctx Format.JSON (bytesOf m.Msg.Data) s
    (r.1, { m with Msg := m.Msg.afterStream r.2 })

/-- Method `ReadBinary`, with the message as the call leaves it. The header loop
passes strings and attributes only; the payload is reached by `SetData` alone. -/
def Message.ReadBinaryAliased {σ : Type} (m : Message) (_ctx : Context)
    (encoder : AliasedBinaryWriter σ) (s : σ) : (Except Panic (Option Err) × σ) × Message :=
  if m.encoding ≠ .EncodingBinary then ((.ok (some .ErrNotBinary), s), m)
  else
    match m.GetVersion with
    | none => ((.ok (some .ErrNotBinary), s), m)
    | some version =>
      match Message.ReadBinary.range version encoder.toBinaryWriter (m.Msg.Header.getD []) s with
      | (.ok none, s1) =>
        match m.Msg.Data with
        | some data =>
          let r := encoder.SetData data s1
          ((.ok r.1.1, r.1.2), { m with Msg := m.Msg.afterStream r.2 })
        | none => ((.ok none, s1), m)
      | r => (r, m)

/-- A decoder without state that accepts every call and only reads the stream. -/
def acceptAllAliased : AliasedBinaryWriter Unit where
  SetAttribute _ _ s := (none, s)
  SetExtension _ _ s := (none, s)
  SetData d s := ((none, s), d)

/-- A structured decoder without state that accepts the event and only reads the
stream. -/
def acceptStructuredAliased : AliasedStructuredWriter Unit where
  SetStructuredEvent _ _ d s := ((none, s), d)

/-- A decoder without state that accepts every call and, in `SetData`, overwrites the
bytes of the stream with zeros. -/
def zeroingWriter : AliasedBinaryWriter Unit where
  SetAttribute _ _ s := (none, s)
  SetExtension _ _ s := (none, s)
  SetData d s := ((none, s), d.map (fun _ => 0))

/-- A message whose ce-specversion entry is an empty, non-nil value list. -/
def emptyVersionMsg : Msg :=
  { Subject := "test_stream.ABC", Header := some [("ce-specversion", some [])], Data := none }

/-! ## Lemmas on the traced writer and the header loop -/

theorem traced_SetAttribute {σ : Type} (enc : BinaryWriter σ) (a : Option Attribute) (v : Value)
    (s : σ × List Call) :
    enc.traced.SetAttribute a v s
      = ((enc.SetAttribute a v s.1).1, (enc.SetAttribute a v s.1).2, s.2 ++ [.SetAttribute a v]) :=
  rfl

theorem traced_SetExtension {σ : Type} (enc : BinaryWriter σ) (n : String) (v : Value)
    (s : σ × List Call) :
    enc.traced.SetExtension n v s
      = ((enc.SetExtension n v s.1).1, (enc.SetExtension n v s.1).2, s.2 ++ [.SetExtension n v]) :=
  rfl

theorem traced_SetData {σ : Type} (enc : BinaryWriter σ) (d : List UInt8) (s : σ × List Call) :
    enc.traced.SetData d s = ((enc.SetData d s.1).1, (enc.SetData d s.1).2, s.2 ++ [.SetData d]) :=
  rfl

theorem acceptAll_succeeds : acceptAll.Succeeds :=
  ⟨fun _ _ _ => rfl, fun _ _ _ => rfl, fun _ _ => rfl⟩

theorem slice_of_len_pos (v : Slice) (h : 0 < Slice.len v) : ∃ x l, v = some (x :: l) := by
  cases v with
  | none => simp [Slice.len] at h
  | some l =>
    cases l with
    | nil => simp [Slice.len] at h
    | cons x l => exact ⟨x, l, rfl⟩

/-- Tracing does not change what the loop returns nor the state of the writer. -/
theorem range_traced_fst {σ : Type} (V : Version) (enc : BinaryWriter σ) :
    ∀ (es : Entries) (s : σ) (log : List Call),
      (Message.ReadBinary.range V enc.traced es (s, log)).1 = (Message.ReadBinary.range V enc es s).1
      ∧ (Message.ReadBinary.range V enc.traced es (s, log)).2.1
          = (Message.ReadBinary.range V enc es s).2 := by
  intro es
  induction es with
  | nil => intro s log; simp [Message.ReadBinary.range]
  | cons e rest ih =>
    intro s log
    obtain ⟨k, v⟩ := e
    simp only [Message.ReadBinary.range]
    cases hv : Slice.index0 v with
    | error p => simp
    | ok x =>
      simp only
      by_cases hp : HasPrefix k cePrefix = true
      · simp only [hp, if_true]
        cases ha : V.Attribute k with
        | some a =>
          simp only [traced_SetAttribute]
          cases he : (enc.SetAttribute (some a) (.str x) s).1 with
          | some err => simp
          | none => simpa using ih _ _
        | none =>
          simp only [traced_SetExtension]
          cases he : (enc.SetExtension (TrimPrefix k cePrefix) (.str x) s).1 with
          | some err => simp
          | none => simpa using ih _ _
      · simp only [hp, Bool.false_eq_true, if_false]
        by_cases hc : k = contentTypeHeader
        · simp only [hc, if_true, traced_SetAttribute]
          cases he : (enc.SetAttribute (V.AttributeFromKind .DataContentType) (.str x) s).1 with
          | some err => simp
          | none => simpa using ih _ _
        · simpa [hc] using ih _ _

/-- With a writer that accepts every call and headers that all have a value, the loop
runs to its end and logs the expected call of each entry, in iteration order. -/
theorem range_traced_log {σ : Type} (V : Version) (enc : BinaryWriter σ) (henc : enc.Succeeds) :
    ∀ (es : Entries) (s : σ) (log : List Call), es.HasValues →
      (Message.ReadBinary.range V enc.traced es (s, log)).1 = .ok none ∧
      (Message.ReadBinary.range V enc.traced es (s, log)).2.2
        = log ++ es.filterMap (expectedCallOfEntry V) := by
  intro es
  induction es with
  | nil => intro s log _; simp [Message.ReadBinary.range]
  | cons e rest ih =>
    intro s log hes
    obtain ⟨k, v⟩ := e
    obtain ⟨x, l, hx⟩ := slice_of_len_pos v (hes (k, v) (List.mem_cons_self _ _))
    have hrest : Entries.HasValues rest := fun e he => hes e (List.mem_cons_of_mem _ he)
    subst hx
    obtain ⟨h1, h2, h3⟩ := henc
    simp only [Message.ReadBinary.range, Slice.index0, List.filterMap_cons, expectedCallOfEntry,
      expectedCall]
    by_cases hp : HasPrefix k cePrefix = true
    · have hp2 : HasPrefix k "ce-" = true := hp
      simp only [hp, hp2, if_true]
      cases ha : V.Attribute k with
      | some a =>
        simp only [traced_SetAttribute, h1]
        have := ih (enc.SetAttribute (some a) (.str x) s).2 (log ++ [.SetAttribute (some a) (.str x)]) hrest
        simpa using this
      | none =>
        simp only [traced_SetExtension, h2]
        have := ih (enc.SetExtension (TrimPrefix k cePrefix) (.str x) s).2
          (log ++ [.SetExtension (TrimPrefix k cePrefix) (.str x)]) hrest
        simpa [cePrefix] using this
    · have hp2 : ¬ HasPrefix k "ce-" = true := hp
      simp only [hp, hp2, Bool.false_eq_true, if_false]
      by_cases hc : k = contentTypeHeader
      · have hc2 : k = "content-type" := hc
        simp only [hc, traced_SetAttribute, h1, if_true]
        have := ih (enc.SetAttribute (V.AttributeFromKind .DataContentType) (.str x) s).2
          (log ++ [.SetAttribute (V.AttributeFromKind .DataContentType) (.str x)]) hrest
        simpa [contentTypeHeader] using this
      · have hc2 : ¬ k = "content-type" := hc
        simp only [hc, hc2, if_false]
        simpa using ih s log hrest

/-- Binary read with an accepting writer: the result is nil and the log grows by the
expected metadata calls, then the data call. -/
theorem ReadBinary_traced_of_succeeds {σ : Type} (m : Message) (V : Version) (ctx : Context)
    (enc : BinaryWriter σ) (s : σ) (log : List Call) (es : Entries)
    (hm : m.encoding = .EncodingBinary) (hV : m.GetVersion = some V)
    (hH : m.Msg.Header = some es) (henc : enc.Succeeds) (hes : es.HasValues) :
    (m.ReadBinary ctx enc.traced (s, log)).1 = .ok none ∧
    (m.ReadBinary ctx enc.traced (s, log)).2.2
      = log ++ es.filterMap (expectedCallOfEntry V) ++ dataCalls m.Msg.Data := by
  obtain ⟨h1, h2⟩ := range_traced_log V enc henc es s log hes
  have hr : Message.ReadBinary.range V enc.traced es (s, log)
      = (.ok none, (Message.ReadBinary.range V enc.traced es (s, log)).2.1,
          log ++ es.filterMap (expectedCallOfEntry V)) := by
    rw [← h1, ← h2]
  unfold Message.ReadBinary
  simp only [hm, ne_eq, not_true_eq_false, if_false, hV, hH, Option.getD_some]
  rw [hr]
  cases hd : m.Msg.Data with
  | none => simp [dataCalls]
  | some d => simp [dataCalls, traced_SetData, henc.2.2]

/-! ## Claims -/

/-- The calls of `ReadBinary` where it does not panic. For every message detected as
Binary whose ce-specversion resolves to a known version `V` and all of whose header
keys have at least one value, and every decoder whose calls all succeed, `ReadBinary`
returns nil and makes exactly these calls, in iteration order: for each header key the
call that the specification assigns to it (`expectedCall`: an attribute of `V`, else
an extension under the stripped name, for a prefixed key; the data-content-type
attribute for `content-type`; no call for any other key), then the data call. -/
theorem readBinary_metadata_calls {σ : Type} (m : Message) (V : Version) (ctx : Context)
    (enc : BinaryWriter σ) (s : σ) (es : Entries)
    (hm : m.encoding = .EncodingBinary) (hV : m.GetVersion = some V)
    (hH : m.Msg.Header = some es) (henc : enc.Succeeds) (hes : es.HasValues) :
    (m.ReadBinary ctx enc.traced (s, [])).1 = .ok none ∧
    (m.ReadBinary ctx enc.traced (s, [])).2.2
      = es.filterMap (expectedCallOfEntry V) ++ dataCalls m.Msg.Data := by
  simpa using ReadBinary_traced_of_succeeds m V ctx enc s [] es hm hV hH henc hes

/-- The scenario of the specification. The message is detected as Binary, resolves
to version 1.0, and the calls delivered are the five attributes specversion, type,
source, id and datacontenttype, no extension, then the payload. -/
theorem readBinary_metadata_calls_witness :
    NewMessage scenarioMsg = .ok { Msg := scenarioMsg, encoding := .EncodingBinary } ∧
    (Message.ReadBinary { Msg := scenarioMsg, encoding := .EncodingBinary } Context.background
        acceptAll.traced ((), [])).1 = .ok none ∧
    (Message.ReadBinary { Msg := scenarioMsg, encoding := .EncodingBinary } Context.background
        acceptAll.traced ((), [])).2.2
      = [.SetAttribute (some { kind := .SpecVersion, name := "specversion", version := "1.0" })
            (.str "1.0"),
         .SetAttribute (some { kind := .Type, name := "type", version := "1.0" })
            (.str "com.example.test"),
         .SetAttribute (some { kind := .Source, name := "source", version := "1.0" }) (.str "/src"),
         .SetAttribute (some { kind := .ID, name := "id", version := "1.0" }) (.str "A234"),
         .SetAttribute
            (some { kind := .DataContentType, name := "datacontenttype", version := "1.0" })
            (.str "application/json"),
         .SetData scenarioPayload] :=
  ⟨by decide,
   (readBinary_metadata_calls { Msg := scenarioMsg, encoding := .EncodingBinary } V1
      Context.background acceptAll () _ rfl (by decide) rfl acceptAll_succeeds (by decide)).1,
   (readBinary_metadata_calls { Msg := scenarioMsg, encoding := .EncodingBinary } V1
      Context.background acceptAll () _ rfl (by decide) rfl acceptAll_succeeds (by decide)).2.trans
      (by decide)⟩

/-- C1, failing input. A message detected as Binary, of version 1.0, with the headers
ce-specversion and x-trace, the second with an empty value list. The specification
assigns the call `SetAttribute(specversion, "1.0")` to the key ce-specversion and no
call to x-trace, and without x-trace `ReadBinary` delivers exactly that call and
returns nil. With it `ReadBinary` panics on `v[0]`: before any call when x-trace is
visited first, after the one call otherwise, and it never returns. -/
theorem readBinary_metadata_calls_failing_input :
    NewMessage emptyValueMsg = .ok { Msg := emptyValueMsg, encoding := .EncodingBinary } ∧
    Message.GetVersion { Msg := emptyValueMsg, encoding := .EncodingBinary } = some V1 ∧
    expectedCallOfEntry V1 ("ce-specversion", some ["1.0"])
      = some (.SetAttribute (some { kind := .SpecVersion, name := "specversion", version := "1.0" })
          (.str "1.0")) ∧
    expectedCall V1 "x-trace" "" = none ∧
    Message.ReadBinary { Msg := emptyValueMsg.dropIrrelevant, encoding := .EncodingBinary }
        Context.background acceptAll.traced ((), [])
      = (.ok none, (),
          [.SetAttribute (some { kind := .SpecVersion, name := "specversion", version := "1.0" })
              (.str "1.0")]) ∧
    Message.ReadBinary { Msg := emptyValueMsg, encoding := .EncodingBinary } Context.background
        acceptAll.traced ((), []) = (.error .indexOutOfRange, (), []) ∧
    Message.ReadBinary { Msg := emptyValueMsgSwapped, encoding := .EncodingBinary }
        Context.background acceptAll.traced ((), [])
      = (.error .indexOutOfRange, (),
          [.SetAttribute (some { kind := .SpecVersion, name := "specversion", version := "1.0" })
              (.str "1.0")]) :=
  ⟨by decide, by decide, by decide, by decide, by decide, by decide, by decide⟩

/-! ## Lemmas on maps and strings -/

theorem prefixedSpecVersionName_eq : specs.PrefixedSpecVersionName = "ce-specversion" := by
  decide

theorem Entries.lookup_filter_ne (k key : String) (es : Entries) :
    Entries.lookup key (es.filter (fun e => decide (e.1 ≠ k)))
      = if key = k then none else Entries.lookup key es := by
  induction es with
  | nil => simp [Entries.lookup]
  | cons e rest ih =>
    obtain ⟨k1, v1⟩ := e
    by_cases h1 : k1 = k
    · subst h1
      by_cases h2 : key = k1
      · subst h2; simpa [Entries.lookup] using ih
      · have h3 : ¬ k1 = key := fun h => h2 h.symm
        simpa [Entries.lookup, h2, h3] using ih
    · by_cases h2 : key = k
      · subst h2
        simpa [List.filter_cons, h1, Entries.lookup] using ih
      · by_cases h3 : k1 = key
        · simp [List.filter_cons, h1, Entries.lookup, h3, h2]
        · simpa [List.filter_cons, h1, Entries.lookup, h3, h2] using ih

theorem Entries.lookup_assign (es : Entries) (k key : String) (v : Slice) :
    Entries.lookup key (es.assign k v) = if key = k then some v else Entries.lookup key es := by
  unfold Entries.assign
  by_cases h : key = k
  · subst h; simp [Entries.lookup]
  · have h2 : ¬ k = key := fun h3 => h h3.symm
    rw [Entries.lookup, if_neg h2, Entries.lookup_filter_ne, if_neg h, if_neg h]

/-! ## Claims on encoding detection and on the read modes -/

/-- C4. A message whose content-type header has the structured media type
"application/cloudevents" as first value is detected as Structured, whatever other
headers are present. -/
theorem newMessage_structured_content_type (msg : Msg)
    (h : Slice.first? (msg.Header.index "content-type") = some "application/cloudevents") :
    NewMessage msg = .ok { Msg := msg, encoding := .EncodingStructured } := by
  unfold NewMessage Header.Get
  cases hH : msg.Header with
  | none => rfl
  | some es =>
    rw [hH] at h
    simp only [Header.index] at h
    simp only [contentTypeHeader]
    cases hv : es.index "content-type" with
    | none => rw [hv] at h; simp [Slice.first?] at h
    | some l =>
      rw [hv] at h
      cases l with
      | nil => simp [Slice.first?] at h
      | cons x l =>
        simp only [Slice.first?, Option.some.injEq] at h
        simp [Slice.index0, h, applicationCloudEvent]

/-- C4, witness: structured content type together with a non-empty ce-specversion. -/
theorem newMessage_structured_content_type_witness :
    Slice.first? (structuredWithVersionMsg.Header.index "ce-specversion") = some "1.0" ∧
    NewMessage structuredWithVersionMsg
      = .ok { Msg := structuredWithVersionMsg, encoding := .EncodingStructured } :=
  ⟨by decide, newMessage_structured_content_type structuredWithVersionMsg (by decide)⟩

/-- C5. A message whose header map has no content-type entry and whose ce-specversion
header has a non-empty first value is detected as Binary. -/
theorem newMessage_binary (msg : Msg) (es : Entries) (sv : String)
    (hH : msg.Header = some es)
    (hct : Entries.lookup "content-type" es = none)
    (hsv : Slice.first? (es.index "ce-specversion") = some sv) (hne : sv ≠ "") :
    NewMessage msg = .ok { Msg := msg, encoding := .EncodingBinary } := by
  unfold NewMessage Header.Get
  rw [hH]
  simp only [contentTypeHeader, prefixedSpecVersionName_eq]
  have h1 : es.index "content-type" = none := by simp [Entries.index, hct]
  rw [h1]
  cases hv : es.index "ce-specversion" with
  | none => rw [hv] at hsv; simp [Slice.first?] at hsv
  | some l =>
    rw [hv] at hsv
    cases l with
    | nil => simp [Slice.first?] at hsv
    | cons x l =>
      simp only [Slice.first?, Option.some.injEq] at hsv
      subst hsv
      simp [Slice.index0, _EMPTY_, applicationCloudEvent, hne]

/-- C5, witness. -/
theorem newMessage_binary_witness :
    NewMessage binaryNoContentTypeMsg
      = .ok { Msg := binaryNoContentTypeMsg, encoding := .EncodingBinary } :=
  newMessage_binary binaryNoContentTypeMsg _ "1.0" rfl (by decide) (by decide) (by decide)

/-- The default of `NewMessage` where it does not panic. A message that has neither a
content-type header whose first value is the structured media type nor a
ce-specversion header with a non-empty first value, and whose content-type and
ce-specversion entries are not empty non-nil value lists, is detected as Structured;
so is a message with no header map at all. -/
theorem newMessage_default_structured (msg : Msg)
    (h1 : Slice.first? (msg.Header.index "content-type") ≠ some "application/cloudevents")
    (h2 : Slice.first? (msg.Header.index "ce-specversion") = none
        ∨ Slice.first? (msg.Header.index "ce-specversion") = some "")
    (h3 : msg.Header.index "content-type" ≠ some [])
    (h4 : msg.Header.index "ce-specversion" ≠ some []) :
    NewMessage msg = .ok { Msg := msg, encoding := .EncodingStructured } := by
  unfold NewMessage Header.Get
  cases hH : msg.Header with
  | none => rfl
  | some es =>
    rw [hH] at h1 h2 h3 h4
    simp only [Header.index] at h1 h2 h3 h4
    simp only [contentTypeHeader, prefixedSpecVersionName_eq]
    have key : ∀ ct : String, ct ≠ applicationCloudEvent →
        (if ct = applicationCloudEvent then
            (.ok { Msg := msg, encoding := .EncodingStructured } : Except Panic Message)
          else
            match (match es.index "ce-specversion" with
                | none => (.ok _EMPTY_ : Except Panic String)
                | some v => Slice.index0 (some v)) with
            | .error p => .error p
            | .ok sv =>
              if sv ≠ _EMPTY_ then .ok { Msg := msg, encoding := .EncodingBinary }
              else .ok { Msg := msg, encoding := .EncodingStructured })
          = .ok { Msg := msg, encoding := .EncodingStructured } := by
      intro ct hct
      rw [if_neg hct]
      cases hv : es.index "ce-specversion" with
      | none => simp [_EMPTY_]
      | some l =>
        rw [hv] at h2 h4
        cases l with
        | nil => exact absurd rfl h4
        | cons x l =>
          rcases h2 with h2 | h2
          · simp [Slice.first?] at h2
          · simp only [Slice.first?, Option.some.injEq] at h2
            simp [Slice.index0, h2, _EMPTY_]
    cases hv : es.index "content-type" with
    | none => exact key _EMPTY_ (by decide)
    | some l =>
      rw [hv] at h1 h3
      cases l with
      | nil => exact absurd rfl h3
      | cons x l =>
        simp only [Slice.first?, ne_eq, Option.some.injEq] at h1
        exact key x h1

/-- A foreign content type with an empty ce-specversion value, and no header map:
both are detected as Structured. -/
theorem newMessage_default_structured_witness :
    NewMessage noSignalMsg = .ok { Msg := noSignalMsg, encoding := .EncodingStructured } ∧
    NewMessage noHeaderMsg = .ok { Msg := noHeaderMsg, encoding := .EncodingStructured } :=
  ⟨newMessage_default_structured noSignalMsg (by decide) (by decide) (by decide) (by decide),
   newMessage_default_structured noHeaderMsg (by decide) (by decide) (by decide) (by decide)⟩

/-- C6, failing inputs. A message whose content-type entry is an empty, non-nil value
list, and one whose ce-specversion entry is: neither has a content type equal to the
structured media type nor a ce-specversion header with a non-empty first value, yet
`NewMessage` panics on `v[0]` in `Header.Get`, which tests `v != nil`, instead of
detecting Structured. `GetVersion` tests `len(versionValue) == 0` and returns nil on
the same headers; with the entry absent, or holding an empty string, `NewMessage`
detects Structured. -/
theorem newMessage_default_structured_failing_input :
    Slice.first? (emptyContentTypeMsg.Header.index "content-type")
      ≠ some "application/cloudevents" ∧
    Slice.first? (emptyContentTypeMsg.Header.index "ce-specversion") = none ∧
    NewMessage emptyContentTypeMsg = .error .indexOutOfRange ∧
    Slice.first? (emptyVersionMsg.Header.index "content-type")
      ≠ some "application/cloudevents" ∧
    Slice.first? (emptyVersionMsg.Header.index "ce-specversion") = none ∧
    NewMessage emptyVersionMsg = .error .indexOutOfRange ∧
    Message.GetVersion { Msg := emptyVersionMsg, encoding := .EncodingStructured } = none ∧
    Message.GetVersion { Msg := emptyContentTypeMsg, encoding := .EncodingStructured } = none ∧
    NewMessage noSignalMsg = .ok { Msg := noSignalMsg, encoding := .EncodingStructured } :=
  ⟨by decide, by decide, by decide, by decide, by decide, by decide, by decide, by decide,
    by decide⟩

/-- C7. On a message detected as Structured `ReadBinary` returns `ErrNotBinary`, on a
message detected as Binary `ReadStructured` returns `ErrNotStructured`, and in both
cases the supplied writer receives no call: its state and its log are unchanged. -/
theorem read_mode_mismatch {σ τ : Type} (m : Message) (ctx : Context)
    (enc : BinaryWriter σ) (s : σ) (sw : StructuredWriter τ) (t : τ) (log : List Call) :
    (m.encoding = .EncodingStructured →
      m.ReadBinary ctx enc.traced (s, log) = (.ok (some .ErrNotBinary), s, log)) ∧
    (m.encoding = .EncodingBinary →
      m.ReadStructured ctx sw.traced (t, log) = (some .ErrNotStructured, t, log)) := by
  constructor
  · intro h
    simp [Message.ReadBinary, h]
  · intro h
    simp [Message.ReadStructured, h]

/-- C7, witness: the scenario message as detected (Binary) and the message with the
structured content type as detected (Structured). -/
theorem read_mode_mismatch_witness :
    NewMessage structuredWithVersionMsg
      = .ok { Msg := structuredWithVersionMsg, encoding := .EncodingStructured } ∧
    Message.ReadBinary { Msg := structuredWithVersionMsg, encoding := .EncodingStructured }
      Context.background acceptAll.traced ((), []) = (.ok (some .ErrNotBinary), (), []) ∧
    NewMessage scenarioMsg = .ok { Msg := scenarioMsg, encoding := .EncodingBinary } ∧
    Message.ReadStructured { Msg := scenarioMsg, encoding := .EncodingBinary }
      Context.background acceptStructured.traced ((), []) = (some .ErrNotStructured, (), []) :=
  ⟨by decide,
   (read_mode_mismatch { Msg := structuredWithVersionMsg, encoding := .EncodingStructured }
      Context.background acceptAll () acceptStructured () []).1 rfl,
   by decide,
   (read_mode_mismatch { Msg := scenarioMsg, encoding := .EncodingBinary }
      Context.background acceptAll () acceptStructured () []).2 rfl⟩

/-- C8. On a message detected as Binary whose ce-specversion value (the first value of
the header, if any) does not resolve to a known spec version, `ReadBinary` returns
`ErrNotBinary` and the decoder receives no call. -/
theorem readBinary_unknown_version {σ : Type} (m : Message) (ctx : Context)
    (enc : BinaryWriter σ) (s : σ) (log : List Call)
    (hm : m.encoding = .EncodingBinary)
    (hsv : (Slice.first? (m.Msg.Header.index "ce-specversion")).bind specs.Version = none) :
    m.ReadBinary ctx enc.traced (s, log) = (.ok (some .ErrNotBinary), s, log) := by
  have hV : m.GetVersion = none := by
    unfold Message.GetVersion
    cases hH : m.Msg.Header with
    | none => rfl
    | some es =>
      rw [hH] at hsv
      simp only [Header.index] at hsv
      simp only [prefixedSpecVersionName_eq]
      cases hv : es.index "ce-specversion" with
      | none => rfl
      | some l =>
        rw [hv] at hsv
        cases l with
        | nil => rfl
        | cons x l => simpa [Slice.first?] using hsv
  simp [Message.ReadBinary, hm, hV]

/-- C8, witness: ce-specversion 2.0 is detected as Binary and is no known version. -/
theorem readBinary_unknown_version_witness :
    NewMessage unknownVersionMsg = .ok { Msg := unknownVersionMsg, encoding := .EncodingBinary } ∧
    Message.ReadBinary { Msg := unknownVersionMsg, encoding := .EncodingBinary }
      Context.background acceptAll.traced ((), []) = (.ok (some .ErrNotBinary), (), []) :=
  ⟨by decide,
   readBinary_unknown_version { Msg := unknownVersionMsg, encoding := .EncodingBinary }
     Context.background acceptAll () [] rfl (by decide)⟩

/-- C9, failing inputs. `GetAttribute` panics with a nil dereference when the prefixed
header is present and the version is nil: on a message with a ce-type header and no
ce-specversion header, and on a message whose ce-specversion value is unrecognised.
`GetExtension` and `GetVersion` return on the same messages. -/
theorem getAttribute_nil_version_panics :
    NewMessage attributeNoVersionMsg
      = .ok { Msg := attributeNoVersionMsg, encoding := .EncodingStructured } ∧
    Message.GetVersion { Msg := attributeNoVersionMsg, encoding := .EncodingStructured } = none ∧
    Message.GetAttribute { Msg := attributeNoVersionMsg, encoding := .EncodingStructured } .Type
      = .error .nilDereference ∧
    Message.GetVersion { Msg := unknownVersionMsg, encoding := .EncodingBinary } = none ∧
    Message.GetAttribute { Msg := unknownVersionMsg, encoding := .EncodingBinary } .SpecVersion
      = .error .nilDereference ∧
    Message.GetAttribute { Msg := unknownVersionMsg, encoding := .EncodingBinary } .Type
      = .error .nilDereference ∧
    Message.GetAttribute { Msg := unknownVersionMsg, encoding := .EncodingBinary } .ID
      = .ok (none, none) ∧
    Message.GetExtension { Msg := attributeNoVersionMsg, encoding := .EncodingStructured } "type"
      = some (some ["com.example.test"]) :=
  ⟨by decide, by decide, by decide, by decide, by decide, by decide, by decide, by decide⟩

/-- What `SetAttribute` does with the datacontenttype attribute. For every value and
every known version, on a started writer, it stores the string form of the value as
the single value of the prefixed header "ce-datacontenttype", returns nil, and leaves
every other header, "content-type" included, as it was. -/
theorem setAttribute_datacontenttype (V : Version) (hV : V ∈ specs.all) (value : Value)
    (es : Entries) :
    ∃ es1, natsBinaryMessageWriter.SetAttribute { header := some es }
        (V.AttributeFromKind .DataContentType) value = .ok (none, { header := some es1 }) ∧
      Entries.lookup "ce-datacontenttype" es1 = some (some [Sprint value]) ∧
      ∀ k, k ≠ "ce-datacontenttype" → Entries.lookup k es1 = Entries.lookup k es := by
  have hattr : V.AttributeFromKind .DataContentType
      = some { kind := .DataContentType, name := "datacontenttype", version := V.name } := by
    simp only [specs, WithPrefix, List.mem_cons, List.mem_singleton, List.not_mem_nil,
      or_false] at hV
    rcases hV with h | h <;> subst h <;> decide
  refine ⟨es.assign "ce-datacontenttype" (some [Sprint value]), ?_, ?_, ?_⟩
  · rw [hattr]
    have hk : ¬ (Kind.String .DataContentType = Kind.String .Time) := by decide
    have hn : withPrefix "datacontenttype" = "ce-datacontenttype" := by decide
    simp [natsBinaryMessageWriter.SetAttribute, Attribute.Kind, Attribute.Name, hk, hn,
      natsHeader.Set]
  · simp [Entries.lookup_assign]
  · intro k hk
    simp [Entries.lookup_assign, hk]

/-- The content type application/json written for version 1.0 onto headers that
already hold a content-type entry. -/
theorem setAttribute_datacontenttype_witness :
    ∃ es1, natsBinaryMessageWriter.SetAttribute
        { header := some [("content-type", some ["text/plain"])] }
        (V1.AttributeFromKind .DataContentType) (.str "application/json")
          = .ok (none, { header := some es1 }) ∧
      Entries.lookup "ce-datacontenttype" es1 = some (some [Sprint (.str "application/json")]) ∧
      ∀ k, k ≠ "ce-datacontenttype" →
        Entries.lookup k es1 = Entries.lookup k [("content-type", some ["text/plain"])] :=
  setAttribute_datacontenttype V1 (by decide) (.str "application/json") _

/-- C10, failing input. The content type application/json written with `SetAttribute`
onto the empty header map of a started writer: the value is stored under
"ce-datacontenttype" and no "content-type" header exists afterwards. The reading side
of the same package, `ReadBinary`, takes the data content type from the unprefixed
header "content-type". -/
theorem setAttribute_datacontenttype_failing_input :
    natsBinaryMessageWriter.SetAttribute { header := some [] }
        (V1.AttributeFromKind .DataContentType) (.str "application/json")
      = .ok (none, { header := some [("ce-datacontenttype", some ["application/json"])] }) ∧
    Entries.lookup "content-type" [("ce-datacontenttype", some ["application/json"])] = none ∧
    Entries.lookup "ce-datacontenttype" [("ce-datacontenttype", some ["application/json"])]
      = some (some ["application/json"]) ∧
    Message.ReadBinary.range V1 acceptAll.traced [("content-type", some ["application/json"])]
        ((), [])
      = (.ok none, (),
          [.SetAttribute (V1.AttributeFromKind .DataContentType) (.str "application/json")]) ∧
    V1.AttributeFromKind .DataContentType
      = some { kind := .DataContentType, name := "datacontenttype", version := "1.0" } :=
  ⟨by decide, by decide, by decide, by decide, by decide⟩


/-! ## Lemmas for the round trips -/

theorem withPrefix_data (n : String) : (withPrefix n).data = cePrefix.data ++ n.data := by
  simp [withPrefix, String.data_append]

theorem HasPrefix_withPrefix (n : String) : HasPrefix (withPrefix n) "ce-" = true := by
  unfold HasPrefix
  rw [withPrefix_data]
  exact List.isPrefixOf_iff_prefix.2 (List.prefix_append _ _)

theorem TrimPrefix_withPrefix (n : String) : TrimPrefix (withPrefix n) "ce-" = n := by
  unfold TrimPrefix
  rw [if_pos (HasPrefix_withPrefix n), withPrefix_data]
  exact congrArg String.mk (List.drop_left _ _)

theorem withPrefix_injective {a b : String} (h : withPrefix a = withPrefix b) : a = b := by
  have h1 := congrArg String.data h
  rw [withPrefix_data, withPrefix_data] at h1
  exact String.ext (List.append_cancel_left h1)

theorem withPrefix_ne_contentType (n : String) : withPrefix n ≠ "content-type" := by
  intro h
  have h1 := HasPrefix_withPrefix n
  rw [h] at h1
  exact absurd h1 (by decide)

theorem Entries.lookup_eq_none (key : String) (es : Entries) (h : key ∉ es.map Prod.fst) :
    Entries.lookup key es = none := by
  induction es with
  | nil => rfl
  | cons e rest ih =>
    obtain ⟨k, v⟩ := e
    simp only [List.map_cons, List.mem_cons, not_or] at h
    have h1 : ¬ k = key := fun h2 => h.1 h2.symm
    simp [Entries.lookup, h1, ih h.2]

theorem Entries.lookup_of_mem (key : String) (v : Slice) (es : Entries) (hwf : es.WF)
    (h : (key, v) ∈ es) : Entries.lookup key es = some v := by
  induction es with
  | nil => simp at h
  | cons e rest ih =>
    obtain ⟨k1, v1⟩ := e
    simp only [Entries.WF, List.map_cons, List.nodup_cons] at hwf
    rcases List.mem_cons.1 h with h1 | h1
    · simp only [Prod.mk.injEq] at h1
      simp [Entries.lookup, h1.1, h1.2]
    · have h2 : k1 ≠ key := by
        intro h3
        apply hwf.1
        rw [h3]
        exact List.mem_map_of_mem Prod.fst h1
      simp [Entries.lookup, h2, ih hwf.2 h1]

theorem Entries.assign_fresh (es : Entries) (k : String) (v : Slice)
    (h : k ∉ es.map Prod.fst) : es.assign k v = (k, v) :: es := by
  unfold Entries.assign
  congr 1
  apply List.filter_eq_self.2
  intro e he
  have : e.1 ≠ k := by
    intro h1
    apply h
    rw [← h1]
    exact List.mem_map_of_mem Prod.fst he
  simpa using this

theorem kind_String_ne_time (k : Kind) (h : k ≠ .Time) : k.String ≠ Kind.String .Time := by
  cases k <;> first | exact absurd rfl h | decide

/-- A valid metadata call on a started writer stores its entry and returns nil. -/
theorem write_valid (V : Version) (w : Write) (hw : w.Valid V) (acc : Entries) :
    natsBinaryMessageWriter.write { header := some acc } w
      = .ok (none, { header := some (acc.assign w.key w.entry.2) }) := by
  cases w with
  | attr a v =>
    cases a with
    | none => exact absurd hw (by simp [Write.Valid])
    | some a =>
      have hk := kind_String_ne_time a.Kind hw.1
      simp [natsBinaryMessageWriter.write, natsBinaryMessageWriter.SetAttribute, hk,
        natsHeader.Set, Write.key, Write.entry]
  | ext n v =>
    simp [natsBinaryMessageWriter.write, natsBinaryMessageWriter.SetExtension,
      natsHeader.Set, Write.key, Write.entry]

theorem Write.entry_fst (w : Write) : w.entry.1 = w.key := by
  cases w <;> rfl

/-- Valid metadata calls with distinct keys, none of them in the map yet, leave their
entries in front of the map. -/
theorem writeAll_valid (V : Version) :
    ∀ (ws : List Write) (acc : Entries), (∀ w ∈ ws, w.Valid V) → (ws.map Write.key).Nodup →
      (∀ w ∈ ws, w.key ∉ acc.map Prod.fst) →
      natsBinaryMessageWriter.writeAll { header := some acc } ws
        = .ok (none, { header := some ((ws.map Write.entry).reverse ++ acc) }) := by
  intro ws
  induction ws with
  | nil => intro acc _ _ _; simp [natsBinaryMessageWriter.writeAll]
  | cons w rest ih =>
    intro acc hv hnd hfresh
    simp only [List.map_cons, List.nodup_cons] at hnd
    have hw := hv w (List.mem_cons_self _ _)
    have hfw := hfresh w (List.mem_cons_self _ _)
    simp only [natsBinaryMessageWriter.writeAll, write_valid V w hw acc]
    rw [Entries.assign_fresh acc _ _ hfw]
    have hent : (w.key, w.entry.2) = w.entry := by
      rw [← Write.entry_fst]
    rw [hent]
    rw [ih (w.entry :: acc) (fun x hx => hv x (List.mem_cons_of_mem _ hx)) hnd.2]
    · simp
    · intro x hx
      simp only [List.map_cons, List.mem_cons, not_or, Write.entry_fst]
      refine ⟨?_, hfresh x (List.mem_cons_of_mem _ hx)⟩
      intro h
      apply hnd.1
      rw [← h]
      exact List.mem_map_of_mem Write.key hx

/-- A valid metadata call reads back as itself. -/
theorem expectedCall_entry (V : Version) (w : Write) (hw : w.Valid V) :
    expectedCallOfEntry V w.entry = some w.readCall := by
  cases w with
  | attr a v =>
    cases a with
    | none => exact absurd hw (by simp [Write.Valid])
    | some a =>
      simp [expectedCallOfEntry, Write.entry, Write.key, expectedCall, HasPrefix_withPrefix,
        hw.2, Write.readCall]
  | ext n v =>
    have h : V.Attribute (withPrefix n) = none := hw
    simp [expectedCallOfEntry, Write.entry, Write.key, expectedCall, HasPrefix_withPrefix,
      h, Write.readCall, TrimPrefix_withPrefix]

theorem filterMap_expectedCall_entries (V : Version) (ws : List Write)
    (hv : ∀ w ∈ ws, w.Valid V) :
    (ws.map Write.entry).filterMap (expectedCallOfEntry V) = ws.map Write.readCall := by
  induction ws with
  | nil => rfl
  | cons w rest ih =>
    simp only [List.map_cons, List.filterMap_cons,
      expectedCall_entry V w (hv w (List.mem_cons_self _ _))]
    rw [ih (fun x hx => hv x (List.mem_cons_of_mem _ hx))]

theorem Write.key_ne_contentType (V : Version) (w : Write) (hw : w.Valid V) :
    w.key ≠ "content-type" := by
  cases w with
  | attr a v =>
    cases a with
    | none => exact absurd hw (by simp [Write.Valid])
    | some a => exact withPrefix_ne_contentType _
  | ext n v => exact withPrefix_ne_contentType _

theorem specs_version_name (V : Version) (hV : V ∈ specs.all) :
    specs.Version V.name = some V ∧ V.name ≠ "" ∧
    V.AttributeFromKind .SpecVersion
      = some { kind := .SpecVersion, name := "specversion", version := V.name } := by
  simp only [specs, WithPrefix, List.mem_cons, List.mem_singleton, List.not_mem_nil,
    or_false] at hV
  rcases hV with h | h <;> subst h <;> exact ⟨by decide, by decide, by decide⟩

/-- Detection of Binary, as a lemma: no content-type entry and a non-empty first
ce-specversion value. -/
theorem NewMessage_binary_of (msg : Msg) (es : Entries) (sv : String)
    (hH : msg.Header = some es)
    (hct : Entries.lookup "content-type" es = none)
    (hsv : Slice.first? (es.index "ce-specversion") = some sv) (hne : sv ≠ "") :
    NewMessage msg = .ok { Msg := msg, encoding := .EncodingBinary } := by
  unfold NewMessage Header.Get
  rw [hH]
  simp only [contentTypeHeader, prefixedSpecVersionName_eq]
  have h1 : es.index "content-type" = none := by simp [Entries.index, hct]
  rw [h1]
  cases hv : es.index "ce-specversion" with
  | none => rw [hv] at hsv; simp [Slice.first?] at hsv
  | some l =>
    rw [hv] at hsv
    cases l with
    | nil => simp [Slice.first?] at hsv
    | cons x l =>
      simp only [Slice.first?, Option.some.injEq] at hsv
      subst hsv
      simp [Slice.index0, _EMPTY_, applicationCloudEvent, hne]

/-- Round trip of valid metadata calls: written onto the empty header map, wrapped
with `NewMessage` under any iteration order of the resulting map, and read back with
an accepting writer, they give encoding Binary, a nil result, and exactly the calls
written, then the data call. -/
theorem round_trip_of_valid {σ : Type} (V : Version) (hV : V ∈ specs.all) (ws : List Write)
    (hv : ∀ w ∈ ws, w.Valid V) (hnd : (ws.map Write.key).Nodup)
    (hspec : Write.attr (V.AttributeFromKind .SpecVersion) (.str V.name) ∈ ws)
    (enc : BinaryWriter σ) (henc : enc.Succeeds) (s : σ) (ctx : Context) (subject : String)
    (data : Option (List UInt8)) :
    ∃ es, natsBinaryMessageWriter.writeAll { header := some [] } ws
        = .ok (none, { header := some es }) ∧
      ∀ es1, es1.Perm es →
        ∃ m, NewMessage { Subject := subject, Header := some es1, Data := data } = .ok m ∧
          m.encoding = .EncodingBinary ∧
          (m.ReadBinary ctx enc.traced (s, [])).1 = .ok none ∧
          ((m.ReadBinary ctx enc.traced (s, [])).2.2).Perm
            (ws.map Write.readCall ++ dataCalls data) := by
  obtain ⟨hver, hname, hattr⟩ := specs_version_name V hV
  refine ⟨(ws.map Write.entry).reverse, ?_, ?_⟩
  · simpa using writeAll_valid V ws [] hv hnd (fun _ _ => by simp)
  intro es1 hperm
  have hperm2 : es1.Perm (ws.map Write.entry) := hperm.trans (List.reverse_perm _)
  have hkeys : (ws.map Write.entry).map Prod.fst = ws.map Write.key := by
    simp [List.map_map, Function.comp_def, Write.entry_fst]
  have hwf : Entries.WF es1 := by
    unfold Entries.WF
    rw [(hperm2.map Prod.fst).nodup_iff, hkeys]
    exact hnd
  have hct : Entries.lookup "content-type" es1 = none := by
    apply Entries.lookup_eq_none
    intro h
    rw [(hperm2.map Prod.fst).mem_iff, hkeys, List.mem_map] at h
    obtain ⟨w, hw, hk⟩ := h
    exact Write.key_ne_contentType V w (hv w hw) hk
  have hsvmem : ("ce-specversion", some [V.name]) ∈ es1 := by
    rw [hperm2.mem_iff, List.mem_map]
    refine ⟨_, hspec, ?_⟩
    rw [hattr]
    simp only [Write.entry, Write.key, Attribute.Name, Sprint, Prod.mk.injEq, and_true]
    decide
  have hidx : es1.index "ce-specversion" = some [V.name] := by
    simp [Entries.index, Entries.lookup_of_mem _ _ es1 hwf hsvmem]
  have hvals : Entries.HasValues es1 := by
    intro e he
    rw [hperm2.mem_iff, List.mem_map] at he
    obtain ⟨w, _, hw⟩ := he
    rw [← hw]
    cases w <;> simp [Write.entry, Slice.len]
  have hgv : Message.GetVersion (Message.mk (Msg.mk subject (some es1) data) .EncodingBinary)
      = some V := by
    simp [Message.GetVersion, prefixedSpecVersionName_eq, hidx, hver]
  refine ⟨_, NewMessage_binary_of _ es1 V.name rfl hct (by simp [hidx, Slice.first?]) hname,
    rfl, ?_⟩
  obtain ⟨h1, h2⟩ := ReadBinary_traced_of_succeeds _ V ctx enc s [] es1 rfl hgv rfl henc hvals
  refine ⟨h1, ?_⟩
  rw [h2, List.nil_append]
  apply List.Perm.append_right
  rw [← filterMap_expectedCall_entries V ws hv]
  exact hperm2.filterMap _


/-! ## Claims on the round trips -/

theorem mandatoryWrites_valid (V : Version) (hV : V ∈ specs.all) (id source type : String) :
    (∀ w ∈ mandatoryWrites V id source type, w.Valid V) ∧
    ((mandatoryWrites V id source type).map Write.key).Nodup := by
  simp only [specs, WithPrefix, List.mem_cons, List.mem_singleton, List.not_mem_nil,
    or_false] at hV
  rcases hV with h | h <;> subst h
  · constructor
    · intro w hw
      simp only [mandatoryWrites, List.mem_cons, List.mem_singleton, List.not_mem_nil,
        or_false] at hw
      rcases hw with h | h | h | h <;> subst h <;> exact ⟨by decide, by decide⟩
    · have h : (mandatoryWrites (newVersion cePrefix "1.0"
          [("id", .ID), ("source", .Source), ("specversion", .SpecVersion), ("type", .Type),
           ("datacontenttype", .DataContentType), ("dataschema", .DataSchema),
           ("subject", .Subject), ("time", .Time)]) id source type).map Write.key
          = ["ce-specversion", "ce-id", "ce-source", "ce-type"] := by
        rfl
      rw [h]
      decide
  · constructor
    · intro w hw
      simp only [mandatoryWrites, List.mem_cons, List.mem_singleton, List.not_mem_nil,
        or_false] at hw
      rcases hw with h | h | h | h <;> subst h <;> exact ⟨by decide, by decide⟩
    · have h : (mandatoryWrites (newVersion cePrefix "0.3"
          [("specversion", .SpecVersion), ("type", .Type), ("source", .Source),
           ("schemaurl", .DataSchema), ("subject", .Subject), ("id", .ID), ("time", .Time),
           ("datacontenttype", .DataContentType)]) id source type).map Write.key
          = ["ce-specversion", "ce-id", "ce-source", "ce-type"] := by
        rfl
      rw [h]
      decide

/-- C2. Binary round trip. For every known version `V` and every event that has only
the mandatory attributes (specversion of `V`, id, source, type): the binary writer's
`SetAttribute` calls on an empty header map succeed, and for every iteration order
of the resulting headers `NewMessage` detects Binary and `ReadBinary` with an
accepting decoder returns nil and delivers, in some order, exactly one `SetAttribute`
call per written attribute with the same attribute and the same string value, and
no `SetExtension` call (then the data call). -/
theorem binary_round_trip {σ : Type} (V : Version) (hV : V ∈ specs.all)
    (id source type : String) (enc : BinaryWriter σ) (henc : enc.Succeeds) (s : σ)
    (ctx : Context) (subject : String) (data : Option (List UInt8)) :
    ∃ es, natsBinaryMessageWriter.writeAll { header := some [] }
        (mandatoryWrites V id source type) = .ok (none, { header := some es }) ∧
      ∀ es1, es1.Perm es →
        ∃ m, NewMessage { Subject := subject, Header := some es1, Data := data } = .ok m ∧
          m.encoding = .EncodingBinary ∧
          (m.ReadBinary ctx enc.traced (s, [])).1 = .ok none ∧
          ((m.ReadBinary ctx enc.traced (s, [])).2.2).Perm
            ([.SetAttribute (V.AttributeFromKind .SpecVersion) (.str V.name),
              .SetAttribute (V.AttributeFromKind .ID) (.str id),
              .SetAttribute (V.AttributeFromKind .Source) (.str source),
              .SetAttribute (V.AttributeFromKind .Type) (.str type)] ++ dataCalls data) := by
  obtain ⟨hv, hnd⟩ := mandatoryWrites_valid V hV id source type
  exact round_trip_of_valid V hV (mandatoryWrites V id source type) hv hnd
    (List.mem_cons_self _ _) enc henc s ctx subject data

/-- C2, witness: the mandatory attributes of the scenario, version 1.0. -/
theorem binary_round_trip_witness :
    natsBinaryMessageWriter.writeAll { header := some [] }
        (mandatoryWrites V1 "A234" "/src" "com.example.test")
      = .ok (none, { header := some [("ce-type", some ["com.example.test"]),
          ("ce-source", some ["/src"]), ("ce-id", some ["A234"]),
          ("ce-specversion", some ["1.0"])] }) ∧
    ∃ es, natsBinaryMessageWriter.writeAll { header := some [] }
        (mandatoryWrites V1 "A234" "/src" "com.example.test")
          = .ok (none, { header := some es }) ∧
      ∀ es1, es1.Perm es →
        ∃ m, NewMessage (Msg.mk "test_stream.ABC" (some es1) (some scenarioPayload)) = .ok m ∧
          m.encoding = .EncodingBinary ∧
          (m.ReadBinary Context.background acceptAll.traced ((), [])).1 = .ok none ∧
          ((m.ReadBinary Context.background acceptAll.traced ((), [])).2.2).Perm
            ([.SetAttribute (V1.AttributeFromKind .SpecVersion) (.str V1.name),
              .SetAttribute (V1.AttributeFromKind .ID) (.str "A234"),
              .SetAttribute (V1.AttributeFromKind .Source) (.str "/src"),
              .SetAttribute (V1.AttributeFromKind .Type) (.str "com.example.test")]
              ++ dataCalls (some scenarioPayload)) :=
  ⟨by decide,
   binary_round_trip V1 (by decide) "A234" "/src" "com.example.test" acceptAll
     acceptAll_succeeds () Context.background "test_stream.ABC" (some scenarioPayload)⟩

theorem extensionWrites_valid (V : Version) (hV : V ∈ specs.all) (exts : List (String × String))
    (hnd : (exts.map Prod.fst).Nodup)
    (hna : ∀ e ∈ exts, V.Attribute (withPrefix e.1) = none) :
    (∀ w ∈ extensionWrites V exts, w.Valid V) ∧
    ((extensionWrites V exts).map Write.key).Nodup := by
  have hs : (Write.attr (V.AttributeFromKind .SpecVersion) (.str V.name)).Valid V ∧
      (Write.attr (V.AttributeFromKind .SpecVersion) (.str V.name)).key = "ce-specversion" ∧
      V.Attribute "ce-specversion" ≠ none := by
    simp only [specs, WithPrefix, List.mem_cons, List.mem_singleton, List.not_mem_nil,
      or_false] at hV
    rcases hV with h | h <;> subst h <;> exact ⟨⟨by decide, by decide⟩, by decide, by decide⟩
  constructor
  · intro w hw
    simp only [extensionWrites, List.mem_cons, List.mem_map] at hw
    rcases hw with h | ⟨e, he, h⟩
    · rw [h]; exact hs.1
    · rw [← h]; exact hna e he
  · have hk : (extensionWrites V exts).map Write.key
        = "ce-specversion" :: (exts.map Prod.fst).map withPrefix := by
      simp only [extensionWrites, List.map_cons, hs.2.1, List.map_map]
      congr 1
    rw [hk, List.nodup_cons]
    constructor
    · intro h
      rw [List.mem_map] at h
      obtain ⟨n, hn, h1⟩ := h
      rw [List.mem_map] at hn
      obtain ⟨e, he, h2⟩ := hn
      apply hs.2.2
      rw [← h1, ← h2]
      exact hna e he
    · exact hnd.map (fun _ _ h => withPrefix_injective h)

theorem extension_calls_of_writes (V : Version) (exts : List (String × String))
    (data : Option (List UInt8)) :
    ((extensionWrites V exts).map Write.readCall ++ dataCalls data).filterMap Call.extension?
      = exts.map (fun e => (e.1, Value.str e.2)) := by
  have h1 : (dataCalls data).filterMap Call.extension? = [] := by
    cases data <;> simp [dataCalls, Call.extension?]
  have h2 : ∀ l : List (String × String),
      ((l.map (fun e => Write.ext e.1 (.str e.2))).map Write.readCall).filterMap Call.extension?
        = l.map (fun e => (e.1, Value.str e.2)) := by
    intro l
    induction l with
    | nil => rfl
    | cons e rest ih =>
      simp only [List.map_cons, List.filterMap_cons, Write.readCall, Call.extension?, Sprint]
      rw [ih]
  simp only [extensionWrites, List.map_cons, List.filterMap_append, List.filterMap_cons,
    Write.readCall, Call.extension?, h1, h2, List.append_nil]

/-- C3 (amended). Extension round trip. For every known version `V` and every
envelope with N extensions whose names are distinct and are not, compared in lower
case, names of attributes of `V`, with string values: writing the specversion
attribute and the N extensions with the binary writer succeeds, and for every
iteration order of the resulting headers `NewMessage` detects Binary and
`ReadBinary` with an accepting decoder returns nil and makes exactly N `SetExtension`
calls, whose (name, value) pairs are the written ones in some order. -/
theorem extension_round_trip {σ : Type} (V : Version) (hV : V ∈ specs.all)
    (exts : List (String × String)) (hnd : (exts.map Prod.fst).Nodup)
    (hna : ∀ e ∈ exts, V.Attribute (withPrefix e.1) = none)
    (enc : BinaryWriter σ) (henc : enc.Succeeds) (s : σ)
    (ctx : Context) (subject : String) (data : Option (List UInt8)) :
    ∃ es, natsBinaryMessageWriter.writeAll { header := some [] } (extensionWrites V exts)
        = .ok (none, { header := some es }) ∧
      ∀ es1, es1.Perm es →
        ∃ m, NewMessage { Subject := subject, Header := some es1, Data := data } = .ok m ∧
          m.encoding = .EncodingBinary ∧
          (m.ReadBinary ctx enc.traced (s, [])).1 = .ok none ∧
          (((m.ReadBinary ctx enc.traced (s, [])).2.2).filterMap Call.extension?).Perm
            (exts.map (fun e => (e.1, Value.str e.2))) ∧
          (((m.ReadBinary ctx enc.traced (s, [])).2.2).filterMap Call.extension?).length
            = exts.length := by
  obtain ⟨hv, hkeys⟩ := extensionWrites_valid V hV exts hnd hna
  obtain ⟨es, hes, h⟩ := round_trip_of_valid V hV (extensionWrites V exts) hv hkeys
    (List.mem_cons_self _ _) enc henc s ctx subject data
  refine ⟨es, hes, ?_⟩
  intro es1 hperm
  obtain ⟨m, hm, henc1, hres, hcalls⟩ := h es1 hperm
  have hp := hcalls.filterMap Call.extension?
  rw [extension_calls_of_writes] at hp
  refine ⟨m, hm, henc1, hres, hp, ?_⟩
  rw [hp.length_eq, List.length_map]

/-- C3, witness: version 1.0 with the extensions comexampleextension1 and
comexampleextension2. -/
theorem extension_round_trip_witness :
    natsBinaryMessageWriter.writeAll { header := some [] }
        (extensionWrites V1 [("comexampleextension1", "value"), ("comexampleextension2", "2")])
      = .ok (none, { header := some [("ce-comexampleextension2", some ["2"]),
          ("ce-comexampleextension1", some ["value"]), ("ce-specversion", some ["1.0"])] }) ∧
    ∃ es, natsBinaryMessageWriter.writeAll { header := some [] }
        (extensionWrites V1 [("comexampleextension1", "value"), ("comexampleextension2", "2")])
          = .ok (none, { header := some es }) ∧
      ∀ es1, es1.Perm es →
        ∃ m, NewMessage { Subject := "test_stream.ABC", Header := some es1, Data := none }
            = .ok m ∧
          m.encoding = .EncodingBinary ∧
          (m.ReadBinary Context.background acceptAll.traced ((), [])).1 = .ok none ∧
          (((m.ReadBinary Context.background acceptAll.traced ((), [])).2.2).filterMap
              Call.extension?).Perm
            ([("comexampleextension1", "value"), ("comexampleextension2", "2")].map
              (fun e => (e.1, Value.str e.2))) ∧
          (((m.ReadBinary Context.background acceptAll.traced ((), [])).2.2).filterMap
              Call.extension?).length
            = [("comexampleextension1", "value"), ("comexampleextension2", "2")].length :=
  ⟨by decide,
   extension_round_trip V1 (by decide)
     [("comexampleextension1", "value"), ("comexampleextension2", "2")] (by decide) (by decide)
     acceptAll acceptAll_succeeds () Context.background "test_stream.ABC" none⟩

/-- C3, counterexample: version 1.0 with the single extension `id = x`. The writer
stores it under "ce-id"; on reading, "ce-id" names the attribute id of the version,
so the decoder receives `SetAttribute(id, "x")` and no `SetExtension` call at all,
in either iteration order. -/
theorem extension_round_trip_counterexample :
    natsBinaryMessageWriter.writeAll { header := some [] } (extensionWrites V1 [("id", "x")])
      = .ok (none, { header := some extensionNamedIdEntries }) ∧
    NewMessage extensionNamedIdMsg
      = .ok { Msg := extensionNamedIdMsg, encoding := .EncodingBinary } ∧
    Message.ReadBinary { Msg := extensionNamedIdMsg, encoding := .EncodingBinary }
        Context.background acceptAll.traced ((), [])
      = (.ok none, (),
          [.SetAttribute (some { kind := .ID, name := "id", version := "1.0" }) (.str "x"),
           .SetAttribute (some { kind := .SpecVersion, name := "specversion", version := "1.0" })
             (.str "1.0")]) ∧
    NewMessage extensionNamedIdMsgSwapped
      = .ok { Msg := extensionNamedIdMsgSwapped, encoding := .EncodingBinary } ∧
    ((Message.ReadBinary { Msg := extensionNamedIdMsgSwapped, encoding := .EncodingBinary }
        Context.background acceptAll.traced ((), [])).2.2).filterMap Call.extension? = [] :=
  ⟨by decide, by decide, by decide, by decide, by decide⟩



/-! ## Claims on the writers and on the subscription strategy -/

/-- C11. For every extension name `n`, string value `v` and header map, the binary
writer's `SetExtension(n, v)` returns nil and leaves the header "ce-" followed by `n`
with exactly the single value `v`, whatever values the key had before; the key occurs
once, and every other key keeps its values. -/
theorem setExtension_sets_header (n v : String) (es : Entries) :
    ∃ es1, natsBinaryMessageWriter.SetExtension { header := some es } n (.str v)
        = .ok (none, { header := some es1 }) ∧
      Entries.lookup ("ce-" ++ n) es1 = some (some [v]) ∧
      (es1.map Prod.fst).count ("ce-" ++ n) = 1 ∧
      ∀ k, k ≠ "ce-" ++ n → Entries.lookup k es1 = Entries.lookup k es := by
  have hn : withPrefix n = "ce-" ++ n := rfl
  refine ⟨es.assign ("ce-" ++ n) (some [v]), ?_, ?_, ?_, ?_⟩
  · simp [natsBinaryMessageWriter.SetExtension, natsHeader.Set, hn, Sprint]
  · simp [Entries.lookup_assign]
  · unfold Entries.assign
    rw [List.map_cons, List.count_cons_self]
    have h0 : ((es.filter (fun e => decide (e.1 ≠ "ce-" ++ n))).map Prod.fst).count ("ce-" ++ n)
        = 0 := by
      apply List.count_eq_zero_of_not_mem
      intro h
      rw [List.mem_map] at h
      obtain ⟨e, he, hk⟩ := h
      rw [List.mem_filter] at he
      have := he.2
      simp only [ne_eq, decide_not, Bool.not_eq_true', decide_eq_false_iff_not] at this
      exact this hk
    rw [h0]
  · intro k hk
    simp [Entries.lookup_assign, hk]

/-- C11, witness: the extension comexampleextension1 = value, written onto headers
that already hold two values under its key, produces the header
`ce-comexampleextension1: value`. -/
theorem setExtension_sets_header_witness :
    natsBinaryMessageWriter.SetExtension
        { header := some [("ce-comexampleextension1", some ["old", "older"]),
            ("ce-specversion", some ["1.0"])] }
        "comexampleextension1" (.str "value")
      = .ok (none, { header := some [("ce-comexampleextension1", some ["value"]),
            ("ce-specversion", some ["1.0"])] }) ∧
    ∃ es1, natsBinaryMessageWriter.SetExtension
        { header := some [("ce-comexampleextension1", some ["old", "older"]),
            ("ce-specversion", some ["1.0"])] }
        "comexampleextension1" (.str "value") = .ok (none, { header := some es1 }) ∧
      Entries.lookup ("ce-" ++ "comexampleextension1") es1 = some (some ["value"]) ∧
      (es1.map Prod.fst).count ("ce-" ++ "comexampleextension1") = 1 ∧
      ∀ k, k ≠ "ce-" ++ "comexampleextension1" →
        Entries.lookup k es1
          = Entries.lookup k [("ce-comexampleextension1", some ["old", "older"]),
              ("ce-specversion", some ["1.0"])] :=
  ⟨by decide, setExtension_sets_header "comexampleextension1" "value" _⟩

/-- C13, failing inputs. On a started writer, `SetAttribute` with the time attribute
and a value that is not a timestamp (a canonical string, nil, or any other value)
panics on the type assertion `value.(time.Time)`: it neither returns an error nor
returns at all. With a timestamp it stores the header and returns nil. -/
theorem setAttribute_time_not_timestamp_panics :
    natsBinaryMessageWriter.SetAttribute { header := some [] } (some timeAttributeV1)
        (.str "2018-04-05T03:56:24Z") = .error .typeAssertion ∧
    natsBinaryMessageWriter.SetAttribute { header := some [] } (some timeAttributeV1) .null
      = .error .typeAssertion ∧
    natsBinaryMessageWriter.SetAttribute { header := some [] } (some timeAttributeV1)
        (.other "42") = .error .typeAssertion ∧
    V1.Attribute "ce-time" = some timeAttributeV1 ∧
    natsBinaryMessageWriter.SetAttribute { header := some [] } (some timeAttributeV1)
        (.time { unix := 1522900584, nsec := 0, offset := 0 } "2018-04-05 03:56:24 +0000 UTC")
      = .ok (none, { header := some [("ce-time", some ["2018-04-05T03:56:24Z"])] }) :=
  ⟨by decide, by decide, by decide, by decide, by decide⟩

/-- C16. On a message detected as Structured, `ReadStructured` makes exactly one call
on the target, `SetStructuredEvent` with the JSON format and a stream whose content
is the payload, and returns the result of that call. The structured writer's
`SetStructuredEvent` hands the stream once, unchanged, to its `io.ReaderFrom` and
returns the error of `ReadFrom`; with a `bytes.Buffer` as sink the outgoing payload
is the message payload, byte for byte. -/
theorem readStructured_passthrough {τ ρ : Type} (m : Message) (ctx : Context)
    (sw : StructuredWriter τ) (t : τ) (rf : ReaderFrom ρ) (f : Format) (event : List UInt8)
    (sink : ρ) (hm : m.encoding = .EncodingStructured) :
    m.ReadStructured ctx sw.traced (t, [])
      = ((sw.SetStructuredEvent ctx Format.JSON (bytesOf m.Msg.Data) t).1,
         (sw.SetStructuredEvent ctx Format.JSON (bytesOf m.Msg.Data) t).2,
         [.SetStructuredEvent Format.JSON (bytesOf m.Msg.Data)]) ∧
    natsMessageWriter.SetStructuredEvent rf ctx f event sink
      = ((rf.ReadFrom event sink).1.2, (rf.ReadFrom event sink).2) ∧
    m.ReadStructured ctx (natsMessageWriter.asStructuredWriter bytesBuffer) []
      = (none, bytesOf m.Msg.Data) := by
  refine ⟨?_, ?_, ?_⟩
  · simp [Message.ReadStructured, hm, StructuredWriter.traced]
  · unfold natsMessageWriter.SetStructuredEvent
    rcases h : rf.ReadFrom event sink with ⟨⟨n, e⟩, sink1⟩
    cases e <;> rfl
  · simp [Message.ReadStructured, hm, natsMessageWriter.asStructuredWriter,
      natsMessageWriter.SetStructuredEvent, bytesBuffer]

/-- C16, witness: the message with the structured content type, read into a buffer and
into a sink that fails. -/
theorem readStructured_passthrough_witness :
    NewMessage structuredWithVersionMsg
      = .ok { Msg := structuredWithVersionMsg, encoding := .EncodingStructured } ∧
    Message.ReadStructured { Msg := structuredWithVersionMsg, encoding := .EncodingStructured }
        Context.background (natsMessageWriter.asStructuredWriter bytesBuffer) []
      = (none, scenarioPayload) ∧
    natsMessageWriter.SetStructuredEvent (failingSink (.other "short write"))
        Context.background Format.JSON scenarioPayload []
      = (some (.other "short write"), []) :=
  ⟨by decide,
   (readStructured_passthrough { Msg := structuredWithVersionMsg, encoding := .EncodingStructured }
      Context.background acceptStructured () bytesBuffer Format.JSON [] [] rfl).2.2,
   by decide⟩

/-- C18. Each of the four combinations of subscriber variant and delivery mode makes
exactly one call on the transport client, with the subject, queue name, callback and
options of the caller, and returns the result of that call: `SubscribeSync` (regular,
pull), `Subscribe` (regular, push), `QueueSubscribeSync` (queue, pull) and
`QueueSubscribe` (queue, push). -/
theorem subscribe_delegates {σ : Type} (jsm : JetStreamContext σ) (subject q : String)
    (cb : MsgHandler) (opts : List SubOpt) (st : σ) :
    RegularSubscriber.Subscribe {} true jsm.traced subject cb opts (st, [])
      = ((jsm.SubscribeSync subject opts st).1, (jsm.SubscribeSync subject opts st).2,
          [.SubscribeSync subject opts]) ∧
    RegularSubscriber.Subscribe {} false jsm.traced subject cb opts (st, [])
      = ((jsm.Subscribe subject cb opts st).1, (jsm.Subscribe subject cb opts st).2,
          [.Subscribe subject cb opts]) ∧
    QueueSubscriber.Subscribe { Queue := q } true jsm.traced subject cb opts (st, [])
      = ((jsm.QueueSubscribeSync subject q opts st).1,
          (jsm.QueueSubscribeSync subject q opts st).2,
          [.QueueSubscribeSync subject q opts]) ∧
    QueueSubscriber.Subscribe { Queue := q } false jsm.traced subject cb opts (st, [])
      = ((jsm.QueueSubscribe subject q cb opts st).1,
          (jsm.QueueSubscribe subject q cb opts st).2,
          [.QueueSubscribe subject q cb opts]) := by
  refine ⟨?_, ?_, ?_, ?_⟩ <;>
    simp [RegularSubscriber.Subscribe, QueueSubscriber.Subscribe, JetStreamContext.traced]



/-! ## Lemmas on the recording writer -/

theorem recorded_SetAttribute {σ : Type} (enc : BinaryWriter σ) (a : Option Attribute) (v : Value)
    (s : σ × List (Call × Option Err)) :
    enc.recorded.SetAttribute a v s
      = ((enc.SetAttribute a v s.1).1, (enc.SetAttribute a v s.1).2,
          s.2 ++ [(.SetAttribute a v, (enc.SetAttribute a v s.1).1)]) :=
  rfl

theorem recorded_SetExtension {σ : Type} (enc : BinaryWriter σ) (n : String) (v : Value)
    (s : σ × List (Call × Option Err)) :
    enc.recorded.SetExtension n v s
      = ((enc.SetExtension n v s.1).1, (enc.SetExtension n v s.1).2,
          s.2 ++ [(.SetExtension n v, (enc.SetExtension n v s.1).1)]) :=
  rfl

theorem recorded_SetData {σ : Type} (enc : BinaryWriter σ) (d : List UInt8)
    (s : σ × List (Call × Option Err)) :
    enc.recorded.SetData d s
      = ((enc.SetData d s.1).1, (enc.SetData d s.1).2, s.2 ++ [(.SetData d, (enc.SetData d s.1).1)]) :=
  rfl

/-- One step of the loop with a recording writer: a metadata call with result `res`,
then the rest of the loop when the call succeeded. -/
theorem failFastLog_step {σ : Type} (log : List (Call × Option Err)) (c : Call)
    (res : Option Err) (s1 : σ) (hc : c.isMetadata = true)
    (rest : Except Panic (Option Err) × σ × List (Call × Option Err))
    (hrest : FailFastLog (log ++ [(c, res)]) rest) :
    FailFastLog log
      (match res with
       | some err => (.ok (some err), s1, log ++ [(c, res)])
       | none => rest) := by
  cases res with
  | some err =>
    exact ⟨[(c, some err)], rfl, Or.inr ⟨[], c, err, rfl, hc, by simp, rfl⟩⟩
  | none =>
    obtain ⟨new, hnew, h⟩ := hrest
    refine ⟨(c, none) :: new, by simpa using hnew, ?_⟩
    rcases h with ⟨hall, hr⟩ | ⟨init, c1, e, hinit, hc1, hall, hr⟩
    · left
      refine ⟨?_, hr⟩
      intro x hx
      rcases List.mem_cons.1 hx with h1 | h1
      · subst h1; exact ⟨rfl, hc⟩
      · exact hall x h1
    · right
      refine ⟨(c, none) :: init, c1, e, by simp [hinit], hc1, ?_, hr⟩
      intro x hx
      rcases List.mem_cons.1 hx with h1 | h1
      · subst h1; exact ⟨rfl, hc⟩
      · exact hall x h1

/-- The header loop with a recording writer stops at the first failing call. -/
theorem range_recorded {σ : Type} (V : Version) (enc : BinaryWriter σ) :
    ∀ (es : Entries) (s : σ) (log : List (Call × Option Err)),
      FailFastLog log (Message.ReadBinary.range V enc.recorded es (s, log)) := by
  intro es
  induction es with
  | nil =>
    intro s log
    exact ⟨[], by simp [Message.ReadBinary.range], Or.inl ⟨by simp, Or.inl rfl⟩⟩
  | cons e rest ih =>
    intro s log
    obtain ⟨k, v⟩ := e
    simp only [Message.ReadBinary.range]
    cases hv : Slice.index0 v with
    | error p => exact ⟨[], by simp, Or.inl ⟨by simp, Or.inr ⟨p, rfl⟩⟩⟩
    | ok x =>
      simp only
      by_cases hp : HasPrefix k cePrefix = true
      · simp only [hp, if_true]
        cases ha : V.Attribute k with
        | some a =>
          simp only [recorded_SetAttribute]
          exact failFastLog_step log (.SetAttribute (some a) (.str x))
            (enc.SetAttribute (some a) (.str x) s).1
            (enc.SetAttribute (some a) (.str x) s).2 rfl _ (ih _ _)
        | none =>
          simp only [recorded_SetExtension]
          exact failFastLog_step log (.SetExtension (TrimPrefix k cePrefix) (.str x))
            (enc.SetExtension (TrimPrefix k cePrefix) (.str x) s).1
            (enc.SetExtension (TrimPrefix k cePrefix) (.str x) s).2 rfl _ (ih _ _)
      · simp only [hp, Bool.false_eq_true, if_false]
        by_cases hc : k = contentTypeHeader
        · simp only [hc, if_true, recorded_SetAttribute]
          exact failFastLog_step log
            (.SetAttribute (V.AttributeFromKind .DataContentType) (.str x))
            (enc.SetAttribute (V.AttributeFromKind .DataContentType) (.str x) s).1
            (enc.SetAttribute (V.AttributeFromKind .DataContentType) (.str x) s).2 rfl _ (ih _ _)
        · simp only [hc, if_false]
          exact ih s log

theorem append_singleton_eq_append_cons {α : Type} (init pre post : List α) (x y : α)
    (h : init ++ [y] = pre ++ x :: post) (hx : x ∉ init) :
    post = [] ∧ pre = init ∧ x = y := by
  rcases List.append_eq_append_iff.1 h with ⟨a, h1, h2⟩ | ⟨c, h1, h2⟩
  · cases a with
    | nil =>
      simp only [List.nil_append, List.cons.injEq] at h2
      refine ⟨h2.2.symm, by simpa using h1, h2.1.symm⟩
    | cons z a =>
      simp only [List.cons_append, List.cons.injEq] at h2
      have := h2.2
      simp at this
  · cases c with
    | nil =>
      simp only [List.nil_append, List.cons.injEq] at h2
      refine ⟨h2.2, by simpa using h1.symm, h2.1⟩
    | cons z c =>
      simp only [List.cons_append, List.cons.injEq] at h2
      exfalso
      apply hx
      rw [h1, h2.1]
      simp

/-! ## Claims on the header loop and the data call -/

/-- C14. Fail-fast binary decode. For every message and every decoder: if a
`SetAttribute` or `SetExtension` call made by `ReadBinary` returns an error `e`, then
`ReadBinary` returns that `e`, the failing call is the last call on the decoder, every
call before it is a metadata call that succeeded, and `SetData` is not called. -/
theorem readBinary_fail_fast {σ : Type} (m : Message) (ctx : Context) (enc : BinaryWriter σ)
    (s : σ) (pre post : List (Call × Option Err)) (c : Call) (e : Err)
    (hlog : (m.ReadBinary ctx enc.recorded (s, [])).2.2 = pre ++ (c, some e) :: post)
    (hc : c.isMetadata = true) :
    (m.ReadBinary ctx enc.recorded (s, [])).1 = .ok (some e) ∧ post = [] ∧
    ∀ x ∈ pre, x.2 = none ∧ x.1.isMetadata = true := by
  have hmem : (c, some e) ∈ (m.ReadBinary ctx enc.recorded (s, [])).2.2 := by
    rw [hlog]; simp
  unfold Message.ReadBinary at hlog hmem ⊢
  by_cases hm : m.encoding = .EncodingBinary
  · simp only [hm, ne_eq, not_true_eq_false, if_false] at hlog hmem ⊢
    cases hV : m.GetVersion with
    | none => simp [hV] at hmem
    | some V =>
      simp only [hV] at hlog hmem ⊢
      obtain ⟨new, hnew, h⟩ := range_recorded V enc (m.Msg.Header.getD []) s []
      rcases hr : Message.ReadBinary.range V enc.recorded (m.Msg.Header.getD []) (s, [])
        with ⟨out, s1, l1⟩
      rw [hr] at hnew h hlog hmem
      simp only [List.nil_append] at hnew
      subst hnew
      rcases h with ⟨hall, hout⟩ | ⟨init, c1, e1, hinit, hc1, hall, hout⟩
      · exfalso
        simp only at hout
        rcases hout with hout | ⟨p, hout⟩
        · subst hout
          cases hd : m.Msg.Data with
          | none =>
            simp only [hd] at hmem
            exact absurd (hall _ hmem).1 (by simp)
          | some d =>
            simp only [hd, recorded_SetData, List.mem_append, List.mem_singleton,
              Prod.mk.injEq] at hmem
            rcases hmem with h1 | h1
            · exact absurd (hall _ h1).1 (by simp)
            · rw [h1.1] at hc
              simp [Call.isMetadata] at hc
        · subst hout
          simp only at hmem
          exact absurd (hall _ hmem).1 (by simp)
      · simp only at hout hinit
        subst hout
        simp only at hlog ⊢
        rw [hinit] at hlog
        have hx : (c, some e) ∉ init := fun h1 => absurd (hall _ h1).1 (by simp)
        obtain ⟨h1, h2, h3⟩ := append_singleton_eq_append_cons init pre post _ _ hlog hx
        simp only [Prod.mk.injEq, Option.some.injEq] at h3
        refine ⟨by rw [h3.2], h1, ?_⟩
        rw [h2]
        exact hall
  · simp [hm] at hmem

/-- C14, witness: a decoder that rejects extensions, on a message with a payload whose
second header is an extension. The error of that call is returned, one call precedes
it, and neither the third header nor the payload is delivered. -/
theorem readBinary_fail_fast_witness :
    NewMessage extensionSecondMsg
      = .ok { Msg := extensionSecondMsg, encoding := .EncodingBinary } ∧
    (Message.ReadBinary { Msg := extensionSecondMsg, encoding := .EncodingBinary }
        Context.background rejectExtensions.recorded ((), [])).2.2
      = [(.SetAttribute (some { kind := .SpecVersion, name := "specversion", version := "1.0" })
            (.str "1.0"), none)]
          ++ (.SetExtension "a" (.str "1"), some (.other "a")) :: [] ∧
    (Message.ReadBinary { Msg := extensionSecondMsg, encoding := .EncodingBinary }
        Context.background rejectExtensions.recorded ((), [])).1 = .ok (some (.other "a")) :=
  ⟨by decide, by decide,
   (readBinary_fail_fast { Msg := extensionSecondMsg, encoding := .EncodingBinary }
      Context.background rejectExtensions ()
      [(.SetAttribute (some { kind := .SpecVersion, name := "specversion", version := "1.0" })
          (.str "1.0"), none)] []
      (.SetExtension "a" (.str "1")) (.other "a") (by decide) rfl).1⟩

/-- With a writer whose header calls succeed and headers that all have a value, the
loop runs to its end and logs the expected call of each entry, in iteration order. -/
theorem range_traced_log_headers {σ : Type} (V : Version) (enc : BinaryWriter σ)
    (henc : enc.HeaderCallsSucceed) :
    ∀ (es : Entries) (s : σ) (log : List Call), es.HasValues →
      (Message.ReadBinary.range V enc.traced es (s, log)).1 = .ok none ∧
      (Message.ReadBinary.range V enc.traced es (s, log)).2.2
        = log ++ es.filterMap (expectedCallOfEntry V) := by
  intro es
  induction es with
  | nil => intro s log _; simp [Message.ReadBinary.range]
  | cons e rest ih =>
    intro s log hes
    obtain ⟨k, v⟩ := e
    obtain ⟨x, l, hx⟩ := slice_of_len_pos v (hes (k, v) (List.mem_cons_self _ _))
    have hrest : Entries.HasValues rest := fun e he => hes e (List.mem_cons_of_mem _ he)
    subst hx
    obtain ⟨h1, h2⟩ := henc
    simp only [Message.ReadBinary.range, Slice.index0, List.filterMap_cons, expectedCallOfEntry,
      expectedCall]
    by_cases hp : HasPrefix k cePrefix = true
    · have hp2 : HasPrefix k "ce-" = true := hp
      simp only [hp, hp2, if_true]
      cases ha : V.Attribute k with
      | some a =>
        simp only [traced_SetAttribute, h1]
        have := ih (enc.SetAttribute (some a) (.str x) s).2
          (log ++ [.SetAttribute (some a) (.str x)]) hrest
        simpa using this
      | none =>
        simp only [traced_SetExtension, h2]
        have := ih (enc.SetExtension (TrimPrefix k cePrefix) (.str x) s).2
          (log ++ [.SetExtension (TrimPrefix k cePrefix) (.str x)]) hrest
        simpa [cePrefix] using this
    · have hp2 : ¬ HasPrefix k "ce-" = true := hp
      simp only [hp, hp2, Bool.false_eq_true, if_false]
      by_cases hc : k = contentTypeHeader
      · have hc2 : k = "content-type" := hc
        simp only [hc, traced_SetAttribute, h1, if_true]
        have := ih (enc.SetAttribute (V.AttributeFromKind .DataContentType) (.str x) s).2
          (log ++ [.SetAttribute (V.AttributeFromKind .DataContentType) (.str x)]) hrest
        simpa [contentTypeHeader] using this
      · have hc2 : ¬ k = "content-type" := hc
        simp only [hc, hc2, if_false]
        simpa using ih s log hrest

theorem expectedCall_isMetadata (V : Version) (e : String × Slice) (c : Call)
    (h : expectedCallOfEntry V e = some c) : c.isMetadata = true := by
  obtain ⟨k, v⟩ := e
  unfold expectedCallOfEntry at h
  cases v with
  | none => simp at h
  | some l =>
    cases l with
    | nil => simp at h
    | cons x l =>
      simp only [expectedCall] at h
      split at h
      · split at h <;> (simp only [Option.some.injEq] at h; subst h; rfl)
      · split at h
        · simp only [Option.some.injEq] at h; subst h; rfl
        · simp at h

/-- The data call of `ReadBinary` where it does not panic. For every message detected
as Binary with a resolvable spec version, all of whose header keys have at least one
value, and every decoder whose header calls all succeed: if the payload is non-nil
(zero-length included), `ReadBinary` makes the
header calls, all of them metadata calls, then calls `SetData` exactly once with the
payload as content, and returns the result of `SetData`; if the payload is nil,
`SetData` is not called and `ReadBinary` returns nil. -/
theorem readBinary_data_call {σ : Type} (m : Message) (V : Version) (ctx : Context)
    (enc : BinaryWriter σ) (s : σ) (es : Entries)
    (hm : m.encoding = .EncodingBinary) (hV : m.GetVersion = some V)
    (hH : m.Msg.Header = some es) (henc : enc.HeaderCallsSucceed) (hes : es.HasValues) :
    (∀ c ∈ es.filterMap (expectedCallOfEntry V), c.isMetadata = true) ∧
    (∀ d, m.Msg.Data = some d →
      m.ReadBinary ctx enc.traced (s, [])
        = (.ok (enc.SetData d (Message.ReadBinary.range V enc es s).2).1,
           (enc.SetData d (Message.ReadBinary.range V enc es s).2).2,
           es.filterMap (expectedCallOfEntry V) ++ [.SetData d])) ∧
    (m.Msg.Data = none →
      m.ReadBinary ctx enc.traced (s, [])
        = (.ok none, (Message.ReadBinary.range V enc es s).2,
            es.filterMap (expectedCallOfEntry V))) := by
  obtain ⟨h1, h2⟩ := range_traced_log_headers V enc henc es s [] hes
  obtain ⟨_, h4⟩ := range_traced_fst V enc es s []
  have hr : Message.ReadBinary.range V enc.traced es (s, [])
      = (.ok none, (Message.ReadBinary.range V enc es s).2,
          es.filterMap (expectedCallOfEntry V)) := by
    rw [← h1, ← h4]
    simp only [List.nil_append] at h2
    rw [← h2]
  refine ⟨?_, ?_, ?_⟩
  · intro c hc
    rw [List.mem_filterMap] at hc
    obtain ⟨e, _, he⟩ := hc
    exact expectedCall_isMetadata V e c he
  · intro d hd
    unfold Message.ReadBinary
    simp only [hm, ne_eq, not_true_eq_false, if_false, hV, hH, Option.getD_some, hr, hd,
      traced_SetData]
  · intro hd
    unfold Message.ReadBinary
    simp only [hm, ne_eq, not_true_eq_false, if_false, hV, hH, Option.getD_some, hr, hd]

/-- The scenario with a decoder that fails `SetData` (its error is returned after the
five header calls), and a zero-length non-nil payload (`SetData` is called with the
empty content). -/
theorem readBinary_data_call_witness :
    Message.ReadBinary { Msg := scenarioMsg, encoding := .EncodingBinary } Context.background
        rejectData.traced ((), [])
      = (.ok (some (.other "data")), (),
          [.SetAttribute (some { kind := .SpecVersion, name := "specversion", version := "1.0" })
              (.str "1.0"),
           .SetAttribute (some { kind := .Type, name := "type", version := "1.0" })
              (.str "com.example.test"),
           .SetAttribute (some { kind := .Source, name := "source", version := "1.0" })
              (.str "/src"),
           .SetAttribute (some { kind := .ID, name := "id", version := "1.0" }) (.str "A234"),
           .SetAttribute
              (some { kind := .DataContentType, name := "datacontenttype", version := "1.0" })
              (.str "application/json")] ++ [.SetData scenarioPayload]) ∧
    Message.ReadBinary { Msg := emptyPayloadMsg, encoding := .EncodingBinary } Context.background
        acceptAll.traced ((), [])
      = (.ok none, (),
          [.SetAttribute (some { kind := .SpecVersion, name := "specversion", version := "1.0" })
              (.str "1.0")] ++ [.SetData []]) :=
  ⟨((readBinary_data_call { Msg := scenarioMsg, encoding := .EncodingBinary } V1
      Context.background rejectData () _ rfl (by decide) rfl
      ⟨fun _ _ _ => rfl, fun _ _ _ => rfl⟩ (by decide)).2.1 scenarioPayload rfl).trans
      (by decide),
   ((readBinary_data_call { Msg := emptyPayloadMsg, encoding := .EncodingBinary } V1
      Context.background acceptAll () _ rfl (by decide) rfl
      ⟨fun _ _ _ => rfl, fun _ _ _ => rfl⟩ (by decide)).2.1 [] rfl).trans (by decide)⟩

/-- C15, failing input. A message detected as Binary, of version 1.0, with a non-nil
payload and the header x-trace, whose value list is empty. The one header call that
is made succeeds, but `ReadBinary` panics on `v[0]` and never calls `SetData`; on the
same message without x-trace it calls `SetData` once, with the payload, after the
header call, and returns its result. -/
theorem readBinary_data_call_failing_input :
    NewMessage emptyValueMsgWithData
      = .ok { Msg := emptyValueMsgWithData, encoding := .EncodingBinary } ∧
    Message.GetVersion { Msg := emptyValueMsgWithData, encoding := .EncodingBinary } = some V1 ∧
    emptyValueMsgWithData.Data = some scenarioPayload ∧
    Message.ReadBinary { Msg := emptyValueMsgWithData, encoding := .EncodingBinary }
        Context.background acceptAll.recorded ((), [])
      = (.error .indexOutOfRange, (),
          [(.SetAttribute (some { kind := .SpecVersion, name := "specversion", version := "1.0" })
              (.str "1.0"), none)]) ∧
    Message.ReadBinary { Msg := emptyValueMsgWithDataTrimmed, encoding := .EncodingBinary }
        Context.background acceptAll.recorded ((), [])
      = (.ok none, (),
          [(.SetAttribute (some { kind := .SpecVersion, name := "specversion", version := "1.0" })
              (.str "1.0"), none),
           (.SetData scenarioPayload, none)]) :=
  ⟨by decide, by decide, by decide, by decide, by decide⟩

/-- Headers whose key is neither prefixed nor the content type, and that have a value,
are skipped by the loop, for every writer. -/
theorem range_dropIrrelevant {σ : Type} (V : Version) (enc : BinaryWriter σ) :
    ∀ (es : Entries) (s : σ), (∀ e ∈ es, relevantKey e.1 = false → 0 < Slice.len e.2) →
      Message.ReadBinary.range V enc es s
        = Message.ReadBinary.range V enc (es.filter (fun e => relevantKey e.1)) s := by
  intro es
  induction es with
  | nil => intro s _; rfl
  | cons e rest ih =>
    intro s hes
    obtain ⟨k, v⟩ := e
    have hrest : ∀ e ∈ rest, relevantKey e.1 = false → 0 < Slice.len e.2 :=
      fun e he => hes e (List.mem_cons_of_mem _ he)
    cases hk : relevantKey k with
    | true =>
      rw [List.filter_cons_of_pos (by simpa using hk)]
      simp only [Message.ReadBinary.range]
      cases hv : Slice.index0 v with
      | error p => rfl
      | ok x =>
        simp only
        split
        · rfl
        · exact ih _ hrest
    | false =>
      rw [List.filter_cons_of_neg (by simp [hk])]
      obtain ⟨x, l, hx⟩ := slice_of_len_pos v (hes (k, v) (List.mem_cons_self _ _) hk)
      subst hx
      simp only [relevantKey, Bool.or_eq_false_iff, decide_eq_false_iff_not] at hk
      simp only [Message.ReadBinary.range, Slice.index0, hk.1, Bool.false_eq_true, if_false,
        hk.2]
      exact ih s hrest

/-- C20, failing input. A message detected as Binary of version 1.0 with the header
x-trace, whose key is neither prefixed nor the content type and whose value list is
empty: `ReadBinary` panics on `v[0]`, after the specversion call or before any call
according to the iteration order, while on the same message without that header it
returns nil after delivering the specversion attribute and the payload. -/
theorem readBinary_irrelevant_empty_header_panics :
    NewMessage emptyValueMsgWithData
      = .ok { Msg := emptyValueMsgWithData, encoding := .EncodingBinary } ∧
    emptyValueMsgWithData.dropIrrelevant = emptyValueMsgWithDataTrimmed ∧
    Message.ReadBinary { Msg := emptyValueMsgWithData, encoding := .EncodingBinary }
        Context.background acceptAll.traced ((), [])
      = (.error .indexOutOfRange, (),
          [.SetAttribute (some { kind := .SpecVersion, name := "specversion", version := "1.0" })
              (.str "1.0")]) ∧
    Message.ReadBinary { Msg := emptyValueMsg, encoding := .EncodingBinary }
        Context.background acceptAll.traced ((), []) = (.error .indexOutOfRange, (), []) ∧
    Message.ReadBinary { Msg := emptyValueMsgWithDataTrimmed, encoding := .EncodingBinary }
        Context.background acceptAll.traced ((), [])
      = (.ok none, (),
          [.SetAttribute (some { kind := .SpecVersion, name := "specversion", version := "1.0" })
              (.str "1.0"),
           .SetData scenarioPayload]) :=
  ⟨by decide, by decide, by decide, by decide, by decide⟩



/-! ## Claims on repeated reads and on the header accumulator -/

theorem Entries.mem_of_lookup (key : String) (v : Slice) (es : Entries)
    (h : Entries.lookup key es = some v) : (key, v) ∈ es := by
  induction es with
  | nil => simp [Entries.lookup] at h
  | cons e rest ih =>
    obtain ⟨k1, v1⟩ := e
    by_cases hk : k1 = key
    · simp only [Entries.lookup, hk, if_true, Option.some.injEq] at h
      simp [hk, h]
    · simp only [Entries.lookup, hk, if_false] at h
      exact List.mem_cons_of_mem _ (ih h)

theorem Entries.not_mem_of_lookup_none (key : String) (es : Entries)
    (h : Entries.lookup key es = none) : key ∉ es.map Prod.fst := by
  induction es with
  | nil => simp
  | cons e rest ih =>
    obtain ⟨k1, v1⟩ := e
    by_cases hk : k1 = key
    · simp [Entries.lookup, hk] at h
    · simp only [Entries.lookup, hk, if_false] at h
      simp only [List.map_cons, List.mem_cons, not_or]
      exact ⟨fun h1 => hk h1.symm, ih h⟩

/-- Lookup in a map does not depend on the iteration order. -/
theorem Entries.lookup_perm (key : String) (es1 es2 : Entries) (hwf : es1.WF)
    (hperm : es1.Perm es2) : Entries.lookup key es1 = Entries.lookup key es2 := by
  have hwf2 : es2.WF := by
    unfold Entries.WF at hwf ⊢
    exact ((hperm.map Prod.fst).nodup_iff).1 hwf
  cases h : Entries.lookup key es1 with
  | some v =>
    have hm := Entries.mem_of_lookup key v es1 h
    rw [Entries.lookup_of_mem key v es2 hwf2 (hperm.mem_iff.1 hm)]
  | none =>
    have hn := Entries.not_mem_of_lookup_none key es1 h
    rw [Entries.lookup_eq_none key es2 (fun h1 => hn ((hperm.map Prod.fst).mem_iff.2 h1))]

theorem overwrite_self (d : List UInt8) : overwrite d d = d := by
  simp [overwrite]

theorem overwrite_length (d left : List UInt8) : (overwrite d left).length = d.length := by
  simp only [overwrite, List.length_take, List.length_append, List.length_drop]
  omega

theorem Msg.afterStream_self (msg : Msg) : msg.afterStream (bytesOf msg.Data) = msg := by
  obtain ⟨subj, hdr, data⟩ := msg
  cases data with
  | none => rfl
  | some d => simp [Msg.afterStream, bytesOf, overwrite_self]

theorem Msg.afterStream_frame (msg : Msg) (left : List UInt8) :
    (msg.afterStream left).Header = msg.Header ∧
    (msg.afterStream left).Subject = msg.Subject ∧
    (msg.afterStream left).Data.map List.length = msg.Data.map List.length := by
  refine ⟨rfl, rfl, ?_⟩
  cases h : msg.Data with
  | none => simp [Msg.afterStream, h]
  | some d => simp [Msg.afterStream, h, overwrite_length]

/-- The result and the decoder state of a read do not depend on the model: the reads
that carry the message along return what `ReadBinary` and `ReadStructured` return. -/
theorem ReadBinaryAliased_fst {σ : Type} (m : Message) (ctx : Context)
    (bw : AliasedBinaryWriter σ) (s : σ) :
    (m.ReadBinaryAliased ctx bw s).1 = m.ReadBinary ctx bw.toBinaryWriter s := by
  unfold Message.ReadBinaryAliased Message.ReadBinary
  by_cases hb : m.encoding = .EncodingBinary
  · simp only [hb, ne_eq, not_true_eq_false, if_false]
    cases hv : m.GetVersion with
    | none => rfl
    | some V =>
      simp only
      rcases hr : Message.ReadBinary.range V bw.toBinaryWriter (m.Msg.Header.getD []) s
        with ⟨r, s1⟩
      cases r with
      | error p => rfl
      | ok e =>
        cases e with
        | some err => rfl
        | none =>
          cases hd : m.Msg.Data with
          | none => rfl
          | some d => rfl
  · simp only [hb, ne_eq, not_false_eq_true, if_true]

theorem ReadStructuredAliased_fst {σ : Type} (m : Message) (ctx : Context)
    (sw : AliasedStructuredWriter σ) (t : σ) :
    (m.ReadStructuredAliased ctx sw t).1 = m.ReadStructured ctx sw.toStructuredWriter t := by
  unfold Message.ReadStructuredAliased Message.ReadStructured
  by_cases hb : m.encoding = .EncodingStructured
  · simp only [hb, ne_eq, not_true_eq_false, if_false]
    rfl
  · simp only [hb, ne_eq, not_false_eq_true, if_true]

/-- The message after a binary read is the message before it, but for what `SetData`
left in the payload. -/
theorem ReadBinaryAliased_snd {σ : Type} (m : Message) (ctx : Context)
    (bw : AliasedBinaryWriter σ) (s : σ) :
    (m.ReadBinaryAliased ctx bw s).2 = m ∨
    ∃ d s1, m.Msg.Data = some d ∧
      (m.ReadBinaryAliased ctx bw s).2
        = { m with Msg := m.Msg.afterStream (bw.SetData d s1).2 } := by
  unfold Message.ReadBinaryAliased
  split
  · exact Or.inl rfl
  · split
    · exact Or.inl rfl
    · split
      · split
        · next data hd => exact Or.inr ⟨data, _, hd, rfl⟩
        · exact Or.inl rfl
      · exact Or.inl rfl

/-- The message after a structured read is the message before it, but for what
`SetStructuredEvent` left in the payload. -/
theorem ReadStructuredAliased_snd {σ : Type} (m : Message) (ctx : Context)
    (sw : AliasedStructuredWriter σ) (t : σ) :
    (m.ReadStructuredAliased ctx sw t).2 = m ∨
    (m.ReadStructuredAliased ctx sw t).2
      = Message.mk
          (m.Msg.afterStream (sw.SetStructuredEvent ctx Format.JSON (bytesOf m.Msg.Data) t).2)
          m.encoding := by
  unfold Message.ReadStructuredAliased
  split
  · exact Or.inl rfl
  · exact Or.inr rfl

/-- Whatever the decoder does with the stream, a binary read leaves the headers, the
subject, the length of the payload and the detected encoding as they were. -/
theorem ReadBinaryAliased_frame {σ : Type} (m : Message) (ctx : Context)
    (bw : AliasedBinaryWriter σ) (s : σ) :
    (m.ReadBinaryAliased ctx bw s).2.encoding = m.encoding ∧
    (m.ReadBinaryAliased ctx bw s).2.Msg.Header = m.Msg.Header ∧
    (m.ReadBinaryAliased ctx bw s).2.Msg.Subject = m.Msg.Subject ∧
    (m.ReadBinaryAliased ctx bw s).2.Msg.Data.map List.length
      = m.Msg.Data.map List.length := by
  rcases ReadBinaryAliased_snd m ctx bw s with h | ⟨d, s1, _, h⟩
  · rw [h]
    exact ⟨rfl, rfl, rfl, rfl⟩
  · rw [h]
    obtain ⟨h1, h2, h3⟩ := Msg.afterStream_frame m.Msg (bw.SetData d s1).2
    exact ⟨rfl, h1, h2, h3⟩

/-- Whatever the decoder does with the stream, a structured read leaves the headers,
the subject, the length of the payload and the detected encoding as they were. -/
theorem ReadStructuredAliased_frame {σ : Type} (m : Message) (ctx : Context)
    (sw : AliasedStructuredWriter σ) (t : σ) :
    (m.ReadStructuredAliased ctx sw t).2.encoding = m.encoding ∧
    (m.ReadStructuredAliased ctx sw t).2.Msg.Header = m.Msg.Header ∧
    (m.ReadStructuredAliased ctx sw t).2.Msg.Subject = m.Msg.Subject ∧
    (m.ReadStructuredAliased ctx sw t).2.Msg.Data.map List.length
      = m.Msg.Data.map List.length := by
  rcases ReadStructuredAliased_snd m ctx sw t with h | h
  · rw [h]
    exact ⟨rfl, rfl, rfl, rfl⟩
  · rw [h]
    obtain ⟨h1, h2, h3⟩ := Msg.afterStream_frame m.Msg
      (sw.SetStructuredEvent ctx Format.JSON (bytesOf m.Msg.Data) t).2
    exact ⟨rfl, h1, h2, h3⟩

/-- A binary read by a decoder that only reads the stream leaves the message as it
was. -/
theorem ReadBinaryAliased_readsOnly {σ : Type} (m : Message) (ctx : Context)
    (bw : AliasedBinaryWriter σ) (s : σ) (hro : bw.ReadsOnly) :
    (m.ReadBinaryAliased ctx bw s).2 = m := by
  rcases ReadBinaryAliased_snd m ctx bw s with h | ⟨d, s1, hd, h⟩
  · exact h
  · rw [h, hro d s1]
    have hself := Msg.afterStream_self m.Msg
    rw [hd] at hself
    simp only [bytesOf, Option.getD_some] at hself
    rw [hself]

/-- A structured read by a decoder that only reads the stream leaves the message as
it was. -/
theorem ReadStructuredAliased_readsOnly {σ : Type} (m : Message) (ctx : Context)
    (sw : AliasedStructuredWriter σ) (t : σ) (hro : sw.ReadsOnly) :
    (m.ReadStructuredAliased ctx sw t).2 = m := by
  rcases ReadStructuredAliased_snd m ctx sw t with h | h
  · exact h
  · rw [h, hro, Msg.afterStream_self]

/-- Two reads that visit the same headers in two iteration orders: `ReadStructured`
returns the same result and delivers the same call; `ReadBinary`, when every header
key has at least one value and the decoder accepts every call, returns the same
result and delivers the same calls up to their order. -/
theorem reads_under_orders {σ τ : Type} (m1 m2 : Message) (ctx : Context)
    (enc : BinaryWriter σ) (s : σ) (sw : StructuredWriter τ) (t : τ) (es1 es2 : Entries)
    (hsame : m1.encoding = m2.encoding) (hd : m1.Msg.Data = m2.Msg.Data)
    (hH1 : m1.Msg.Header = some es1) (hH2 : m2.Msg.Header = some es2)
    (hperm : es1.Perm es2) (hwf : es1.WF) :
    m1.ReadStructured ctx sw.traced (t, []) = m2.ReadStructured ctx sw.traced (t, []) ∧
    (enc.Succeeds → es1.HasValues →
      (m1.ReadBinary ctx enc.traced (s, [])).1 = (m2.ReadBinary ctx enc.traced (s, [])).1 ∧
      ((m1.ReadBinary ctx enc.traced (s, [])).2.2).Perm
        ((m2.ReadBinary ctx enc.traced (s, [])).2.2)) := by
  have hV : m1.GetVersion = m2.GetVersion := by
    unfold Message.GetVersion
    rw [hH1, hH2]
    simp only [Entries.index, Entries.lookup_perm _ es1 es2 hwf hperm]
  refine ⟨?_, ?_⟩
  · simp only [Message.ReadStructured, hsame, hd]
  · intro henc hes
    have hes2 : es2.HasValues := fun e he => hes e (hperm.mem_iff.2 he)
    by_cases hb : m1.encoding = .EncodingBinary
    · have hb2 : m2.encoding = .EncodingBinary := hsame ▸ hb
      cases hv : m1.GetVersion with
      | none =>
        have hv2 : m2.GetVersion = none := hV ▸ hv
        simp [Message.ReadBinary, hb, hb2, hv, hv2]
      | some V =>
        have hv2 : m2.GetVersion = some V := hV ▸ hv
        obtain ⟨h1, h2⟩ := ReadBinary_traced_of_succeeds m1 V ctx enc s [] es1 hb hv hH1 henc hes
        obtain ⟨h3, h4⟩ := ReadBinary_traced_of_succeeds m2 V ctx enc s [] es2 hb2 hv2 hH2 henc hes2
        refine ⟨by rw [h1, h3], ?_⟩
        rw [h2, h4, hd]
        exact (List.Perm.append_left _ (hperm.filterMap _)).append_right _
    · have hb2 : ¬ m2.encoding = .EncodingBinary := hsame ▸ hb
      simp [Message.ReadBinary, hb, hb2]

/-- C17 (amended). Repeatable read, for a message `m`, deterministic decoders, and
reads that each start from the same decoder state. The reads are taken with the
message as they leave it (`ReadBinaryAliased`, `ReadStructuredAliased`), whose results
are those of `ReadBinary` and `ReadStructured`.

* For a decoder that only reads the stream it is handed, the message after a read is
  the message before it, headers, payload and detected encoding, and a second read of
  it, which visits the headers in the same order, returns the same result and delivers
  the same calls as the first.
* For every decoder, whatever it does with the stream, the headers, the subject, the
  length of the payload and the detected encoding after a read are those before it.
* Under another iteration order of the same headers (`m2`), `ReadStructured` returns
  the same result and delivers the same call; `ReadBinary`, when every header key has
  at least one value and the decoder accepts every call, returns the same result and
  delivers the same calls up to their order. -/
theorem repeatable_read {σ τ σ' τ' : Type} (m : Message) (ctx : Context)
    (bw : AliasedBinaryWriter σ) (s : σ) (sw : AliasedStructuredWriter τ) (t : τ)
    (enc : BinaryWriter σ') (s' : σ') (esw : StructuredWriter τ') (t' : τ') :
    ((m.ReadBinaryAliased ctx bw.traced (s, [])).1
        = m.ReadBinary ctx bw.traced.toBinaryWriter (s, []) ∧
      (m.ReadStructuredAliased ctx sw.traced (t, [])).1
        = m.ReadStructured ctx sw.traced.toStructuredWriter (t, [])) ∧
    (bw.ReadsOnly →
      (m.ReadBinaryAliased ctx bw.traced (s, [])).2 = m ∧
      (m.ReadBinaryAliased ctx bw.traced (s, [])).2.ReadBinaryAliased ctx bw.traced (s, [])
        = m.ReadBinaryAliased ctx bw.traced (s, [])) ∧
    (sw.ReadsOnly →
      (m.ReadStructuredAliased ctx sw.traced (t, [])).2 = m ∧
      (m.ReadStructuredAliased ctx sw.traced (t, [])).2.ReadStructuredAliased ctx sw.traced
          (t, [])
        = m.ReadStructuredAliased ctx sw.traced (t, [])) ∧
    ((m.ReadBinaryAliased ctx bw s).2.encoding = m.encoding ∧
      (m.ReadBinaryAliased ctx bw s).2.Msg.Header = m.Msg.Header ∧
      (m.ReadBinaryAliased ctx bw s).2.Msg.Subject = m.Msg.Subject ∧
      (m.ReadBinaryAliased ctx bw s).2.Msg.Data.map List.length
        = m.Msg.Data.map List.length) ∧
    ((m.ReadStructuredAliased ctx sw t).2.encoding = m.encoding ∧
      (m.ReadStructuredAliased ctx sw t).2.Msg.Header = m.Msg.Header ∧
      (m.ReadStructuredAliased ctx sw t).2.Msg.Subject = m.Msg.Subject ∧
      (m.ReadStructuredAliased ctx sw t).2.Msg.Data.map List.length
        = m.Msg.Data.map List.length) ∧
    (∀ (m2 : Message) (es1 es2 : Entries), m.encoding = m2.encoding →
      m.Msg.Data = m2.Msg.Data → m.Msg.Header = some es1 → m2.Msg.Header = some es2 →
      es1.Perm es2 → es1.WF →
      m.ReadStructured ctx esw.traced (t', []) = m2.ReadStructured ctx esw.traced (t', []) ∧
      (enc.Succeeds → es1.HasValues →
        (m.ReadBinary ctx enc.traced (s', [])).1 = (m2.ReadBinary ctx enc.traced (s', [])).1 ∧
        ((m.ReadBinary ctx enc.traced (s', [])).2.2).Perm
          ((m2.ReadBinary ctx enc.traced (s', [])).2.2))) := by
  refine ⟨⟨ReadBinaryAliased_fst _ _ _ _, ReadStructuredAliased_fst _ _ _ _⟩, ?_, ?_,
    ReadBinaryAliased_frame m ctx bw s, ReadStructuredAliased_frame m ctx sw t, ?_⟩
  · intro hro
    have h := ReadBinaryAliased_readsOnly m ctx bw.traced (s, []) (fun d s1 => hro d s1.1)
    exact ⟨h, by rw [h]⟩
  · intro hro
    have h := ReadStructuredAliased_readsOnly m ctx sw.traced (t, [])
      (fun c f d s1 => hro c f d s1.1)
    exact ⟨h, by rw [h]⟩
  · intro m2 es1 es2 hsame hd hH1 hH2 hperm hwf
    exact reads_under_orders m m2 ctx enc s' esw t' es1 es2 hsame hd hH1 hH2 hperm hwf

/-- C17, witness: the message with two extensions, read twice by a decoder that only
reads the stream, and read in two iteration orders with an accepting decoder. -/
theorem repeatable_read_witness :
    (Message.ReadBinaryAliased { Msg := twoExtensionsMsg, encoding := .EncodingBinary }
        Context.background acceptAllAliased.traced ((), [])).2
      = { Msg := twoExtensionsMsg, encoding := .EncodingBinary } ∧
    Message.ReadBinaryAliased
        (Message.ReadBinaryAliased { Msg := twoExtensionsMsg, encoding := .EncodingBinary }
          Context.background acceptAllAliased.traced ((), [])).2
        Context.background acceptAllAliased.traced ((), [])
      = Message.ReadBinaryAliased { Msg := twoExtensionsMsg, encoding := .EncodingBinary }
          Context.background acceptAllAliased.traced ((), []) ∧
    (Message.ReadBinary { Msg := twoExtensionsMsg, encoding := .EncodingBinary }
        Context.background acceptAll.traced ((), [])).1
      = (Message.ReadBinary { Msg := twoExtensionsMsgSwapped, encoding := .EncodingBinary }
          Context.background acceptAll.traced ((), [])).1 ∧
    ((Message.ReadBinary { Msg := twoExtensionsMsg, encoding := .EncodingBinary }
        Context.background acceptAll.traced ((), [])).2.2).Perm
      ((Message.ReadBinary { Msg := twoExtensionsMsgSwapped, encoding := .EncodingBinary }
          Context.background acceptAll.traced ((), [])).2.2) :=
  ⟨((repeatable_read { Msg := twoExtensionsMsg, encoding := .EncodingBinary }
      Context.background acceptAllAliased () acceptStructuredAliased () acceptAll ()
      acceptStructured ()).2.1 (fun _ _ => rfl)).1,
   ((repeatable_read { Msg := twoExtensionsMsg, encoding := .EncodingBinary }
      Context.background acceptAllAliased () acceptStructuredAliased () acceptAll ()
      acceptStructured ()).2.1 (fun _ _ => rfl)).2,
   ((repeatable_read { Msg := twoExtensionsMsg, encoding := .EncodingBinary }
      Context.background acceptAllAliased () acceptStructuredAliased () acceptAll ()
      acceptStructured ()).2.2.2.2.2
      { Msg := twoExtensionsMsgSwapped, encoding := .EncodingBinary } _ _ rfl rfl rfl rfl
      (by decide) (by unfold Entries.WF; decide)).2 acceptAll_succeeds (by decide)⟩

/-- C17, counterexample. First, a message with the extensions `a` and `b`, and a
deterministic decoder without state that rejects each extension with an error naming
it: the two iteration orders of the same headers, both detected as Binary, give
different results and different calls. Second, a binary message with the payload
`{"k":1}` and a deterministic decoder that accepts every call and overwrites the
stream it is handed: the first read delivers the payload and leaves zeros in the
message, and the second read, in the same order, delivers the zeros. -/
theorem repeatable_read_counterexample :
    (twoExtensionsMsg.Header.getD []).Perm (twoExtensionsMsgSwapped.Header.getD []) ∧
    NewMessage twoExtensionsMsg
      = .ok { Msg := twoExtensionsMsg, encoding := .EncodingBinary } ∧
    NewMessage twoExtensionsMsgSwapped
      = .ok { Msg := twoExtensionsMsgSwapped, encoding := .EncodingBinary } ∧
    Message.ReadBinary { Msg := twoExtensionsMsg, encoding := .EncodingBinary }
        Context.background rejectExtensions.traced ((), [])
      = (.ok (some (.other "a")), (), [.SetExtension "a" (.str "1")]) ∧
    Message.ReadBinary { Msg := twoExtensionsMsgSwapped, encoding := .EncodingBinary }
        Context.background rejectExtensions.traced ((), [])
      = (.ok (some (.other "b")), (), [.SetExtension "b" (.str "2")]) ∧
    Message.ReadBinaryAliased
        { Msg := emptyValueMsgWithDataTrimmed, encoding := .EncodingBinary }
        Context.background zeroingWriter.traced ((), [])
      = ((.ok none, (),
          [.SetAttribute (some { kind := .SpecVersion, name := "specversion", version := "1.0" })
              (.str "1.0"),
           .SetData [123, 34, 107, 34, 58, 49, 125]]),
         Message.mk (Msg.mk "test_stream.ABC" (some [("ce-specversion", some ["1.0"])])
           (some [0, 0, 0, 0, 0, 0, 0])) .EncodingBinary) ∧
    (Message.ReadBinaryAliased
        (Message.ReadBinaryAliased
          { Msg := emptyValueMsgWithDataTrimmed, encoding := .EncodingBinary }
          Context.background zeroingWriter.traced ((), [])).2
        Context.background zeroingWriter.traced ((), [])).1
      = (.ok none, (),
          [.SetAttribute (some { kind := .SpecVersion, name := "specversion", version := "1.0" })
              (.str "1.0"),
           .SetData [0, 0, 0, 0, 0, 0, 0]]) :=
  ⟨by decide, by decide, by decide, by decide, by decide, by decide, by decide⟩

/-- A safe metadata call on a started writer stores a single value under its key and
returns nil. -/
theorem write_safe (w : Write) (hw : w.Safe) (es : Entries) :
    ∃ x, natsBinaryMessageWriter.write { header := some es } w
      = .ok (none, { header := some (es.assign w.key (some [x])) }) := by
  cases w with
  | attr a v =>
    cases a with
    | none => exact absurd hw (by simp [Write.Safe])
    | some a =>
      by_cases hk : a.Kind = .Time
      · obtain ⟨t, r, hv⟩ := hw hk
        subst hv
        refine ⟨t.FormatRFC3339Nano, ?_⟩
        simp [natsBinaryMessageWriter.write, natsBinaryMessageWriter.SetAttribute, hk,
          natsHeader.Set, Write.key, Value.assertTime]
      · refine ⟨Sprint v, ?_⟩
        have hk2 := kind_String_ne_time a.Kind hk
        simp [natsBinaryMessageWriter.write, natsBinaryMessageWriter.SetAttribute, hk2,
          natsHeader.Set, Write.key]
  | ext n v =>
    exact ⟨Sprint v, by
      simp [natsBinaryMessageWriter.write, natsBinaryMessageWriter.SetExtension,
        natsHeader.Set, Write.key]⟩

/-- Safe metadata calls through a reference to an allocated map all succeed, and
afterwards the map at that address holds every key that was present before and every
key written, each with a single value when written. -/
theorem writeAllRef_safe (a : Nat) :
    ∀ (ws : List Write) (st : Store) (es0 : Entries), (∀ w ∈ ws, w.Safe) →
      st.maps a = some es0 →
      ∃ st1 es1, natsBinaryMessageWriterRef.writeAll { header := some a } ws st
          = .ok (none, st1) ∧ st1.maps a = some es1 ∧
        (∀ w ∈ ws, ∃ x, Entries.lookup w.key es1 = some (some [x])) ∧
        (∀ k, (∀ w ∈ ws, w.key ≠ k) → Entries.lookup k es1 = Entries.lookup k es0) := by
  intro ws
  induction ws with
  | nil =>
    intro st es0 _ h0
    exact ⟨st, es0, rfl, h0, by simp, fun _ _ => rfl⟩
  | cons w rest ih =>
    intro st es0 hs h0
    obtain ⟨x, hx⟩ := write_safe w (hs w (List.mem_cons_self _ _)) es0
    have hstep : natsBinaryMessageWriterRef.write { header := some a } w st
        = .ok (none, st.update a (es0.assign w.key (some [x]))) := by
      simp [natsBinaryMessageWriterRef.write, Store.deref, h0, hx]
    have hupd : (st.update a (es0.assign w.key (some [x]))).maps a
        = some (es0.assign w.key (some [x])) := by
      simp [Store.update]
    obtain ⟨st1, es1, hrun, hmap, hpres, hkeep⟩ :=
      ih (st.update a (es0.assign w.key (some [x]))) _
        (fun y hy => hs y (List.mem_cons_of_mem _ hy)) hupd
    refine ⟨st1, es1, ?_, hmap, ?_, ?_⟩
    · simp only [natsBinaryMessageWriterRef.writeAll, hstep, hrun]
    · intro y hy
      rcases List.mem_cons.1 hy with h1 | h1
      · subst h1
        by_cases hlater : ∃ z ∈ rest, z.key = y.key
        · obtain ⟨z, hz, hzk⟩ := hlater
          rw [← hzk]
          exact hpres z hz
        · refine ⟨x, ?_⟩
          rw [hkeep y.key (fun z hz hzk => hlater ⟨z, hz, hzk⟩)]
          simp [Entries.lookup_assign]
      · exact hpres y h1
    · intro k hk
      rw [hkeep k (fun z hz => hk z (List.mem_cons_of_mem _ hz))]
      have hne : k ≠ w.key := fun h1 => hk w (List.mem_cons_self _ _) h1.symm
      simp [Entries.lookup_assign, hne]

/-- C19 (amended). `GetHeaderFromContext` returns exactly the header map stored in the
context under the header key when one is stored, and an empty map when no value is
stored. After `Start(ctx)` on a context that holds a reference to a header map, the
writer works on that very map: every header written by later `SetAttribute` or
`SetExtension` calls that do not panic is present, with a single value, in the map
attached to the context, and the calls return nil. -/
theorem start_uses_context_header (h : Header) (ctx : RefContext) (st : Store) (a : Nat)
    (es0 : Entries) (ws : List Write)
    (hctx : ctx.natsHeaderValue = some (.header (some a))) (hmap : st.maps a = some es0)
    (hsafe : ∀ w ∈ ws, w.Safe) :
    GetHeaderFromContext { natsHeaderValue := some (.header h) } = .ok h ∧
    GetHeaderFromContext { natsHeaderValue := none } = .ok (some []) ∧
    GetHeaderFromContext (ctx.view st) = .ok (some es0) ∧
    ∃ st1 es1,
      natsBinaryMessageWriterRef.Start { header := none } ctx st
        = .ok (none, { header := some a }, st) ∧
      natsBinaryMessageWriterRef.writeAll { header := some a } ws st = .ok (none, st1) ∧
      GetHeaderFromContext (ctx.view st1) = .ok (some es1) ∧
      ∀ w ∈ ws, ∃ x, Entries.lookup w.key es1 = some (some [x]) := by
  obtain ⟨st1, es1, hrun, hmap1, hpres, _⟩ := writeAllRef_safe a ws st es0 hsafe hmap
  refine ⟨rfl, rfl, ?_, st1, es1, ?_, hrun, ?_, hpres⟩
  · simp [GetHeaderFromContext, RefContext.view, hctx, Store.deref, hmap]
  · simp [natsBinaryMessageWriterRef.Start, GetHeaderFromContextRef, hctx]
  · simp [GetHeaderFromContext, RefContext.view, hctx, Store.deref, hmap1]

/-- C19, witness: a context that holds the empty map at address 0; after `Start`, the
extension comexampleextension1 and the id attribute are written, and both headers are
in the map that the context holds. -/
theorem start_uses_context_header_witness :
    ∃ st1 es1,
      natsBinaryMessageWriterRef.Start { header := none } RefContext.withHeader0
          Store.oneEmptyMap
        = .ok (none, { header := some 0 }, Store.oneEmptyMap) ∧
      natsBinaryMessageWriterRef.writeAll { header := some 0 }
          [.ext "comexampleextension1" (.str "value"),
           .attr (some { kind := .ID, name := "id", version := "1.0" }) (.str "A234")]
          Store.oneEmptyMap = .ok (none, st1) ∧
      GetHeaderFromContext (RefContext.withHeader0.view st1) = .ok (some es1) ∧
      ∀ w ∈ [Write.ext "comexampleextension1" (.str "value"),
             Write.attr (some { kind := .ID, name := "id", version := "1.0" }) (.str "A234")],
        ∃ x, Entries.lookup w.key es1 = some (some [x]) :=
  (start_uses_context_header none RefContext.withHeader0 Store.oneEmptyMap 0 [] _ rfl rfl
    (by
      intro w hw
      simp only [List.mem_cons, List.mem_singleton, List.not_mem_nil, or_false] at hw
      rcases hw with h | h <;> subst h
      · trivial
      · intro hk
        exact absurd hk (by decide))).2.2.2

/-- C19, counterexample: a context that holds no header value. `Start` gives the
writer a newly allocated map; the extension written afterwards is in that map, at
address 0, but the context still holds no map, and `GetHeaderFromContext` on it
returns an empty map again: the header written is in no map attached to the context. -/
theorem start_uses_context_header_counterexample :
    ∃ st1 st2,
      natsBinaryMessageWriterRef.Start { header := none } RefContext.background Store.empty
        = .ok (none, { header := some 0 }, st1) ∧
      natsBinaryMessageWriterRef.write { header := some 0 }
          (.ext "comexampleextension1" (.str "value")) st1 = .ok (none, st2) ∧
      st2.maps 0 = some [("ce-comexampleextension1", some ["value"])] ∧
      RefContext.background.natsHeaderValue = none ∧
      GetHeaderFromContext (RefContext.background.view st2) = .ok (some []) :=
  ⟨_, _, rfl, rfl, by decide, rfl, by decide⟩

/-! ## Lemmas on decimal digits -/

theorem toDigitsCore_append (fuel : Nat) :
    ∀ (n : Nat) (ds : List Char),
      Nat.toDigitsCore 10 fuel n ds = Nat.toDigitsCore 10 fuel n [] ++ ds := by
  induction fuel with
  | zero => intro n ds; simp [Nat.toDigitsCore]
  | succ f ih =>
    intro n ds
    simp only [Nat.toDigitsCore]
    split
    · simp
    · rw [ih (n / 10) (Nat.digitChar (n % 10) :: ds), ih (n / 10) [Nat.digitChar (n % 10)]]
      simp

theorem fixedDigits_zero (w : Nat) : fixedDigits w 0 = List.replicate w '0' := by
  induction w with
  | zero => rfl
  | succ w ih =>
    simp only [fixedDigits, Nat.zero_div, Nat.zero_mod, ih]
    rw [List.replicate_succ']
    rfl

theorem fixedDigits_length (w n : Nat) : (fixedDigits w n).length = w := by
  induction w generalizing n with
  | zero => rfl
  | succ w ih => simp [fixedDigits, ih]

theorem pad_core (w : Nat) :
    ∀ (fuel n : Nat), n < 10 ^ (w + 1) → n < fuel →
      List.replicate (w + 1 - (Nat.toDigitsCore 10 fuel n []).length) '0'
          ++ Nat.toDigitsCore 10 fuel n [] = fixedDigits (w + 1) n := by
  induction w with
  | zero =>
    intro fuel n hn hf
    obtain ⟨f, rfl⟩ : ∃ f, fuel = f + 1 := ⟨fuel - 1, by omega⟩
    have h0 : n / 10 = 0 := by omega
    simp [Nat.toDigitsCore, h0, fixedDigits]
  | succ w ih =>
    intro fuel n hn hf
    obtain ⟨f, rfl⟩ : ∃ f, fuel = f + 1 := ⟨fuel - 1, by omega⟩
    by_cases h0 : n / 10 = 0
    · have hfix : fixedDigits (w + 1 + 1) n
          = fixedDigits (w + 1) 0 ++ [Nat.digitChar (n % 10)] := by
        rw [fixedDigits, h0]
      rw [hfix, fixedDigits_zero]
      simp [Nat.toDigitsCore, h0]
    · have hn2 : n / 10 < 10 ^ (w + 1) := by
        rw [Nat.div_lt_iff_lt_mul (by norm_num)]
        rw [pow_succ] at hn
        exact hn
      have hf2 : n / 10 < f := by omega
      have hcore : Nat.toDigitsCore 10 (f + 1) n []
          = Nat.toDigitsCore 10 f (n / 10) [] ++ [Nat.digitChar (n % 10)] := by
        simp only [Nat.toDigitsCore, h0, if_false]
        rw [toDigitsCore_append]
      rw [hcore]
      have hfix : fixedDigits (w + 1 + 1) n
          = fixedDigits (w + 1) (n / 10) ++ [Nat.digitChar (n % 10)] := rfl
      rw [hfix, ← ih f (n / 10) hn2 hf2]
      simp only [List.length_append, List.length_singleton, List.append_assoc]
      congr 2
      omega

theorem padDigits_eq (w n : Nat) (hw : 0 < w) (hn : n < 10 ^ w) :
    padDigits n w = fixedDigits w n := by
  obtain ⟨v, rfl⟩ : ∃ v, w = v + 1 := ⟨w - 1, by omega⟩
  exact pad_core v (n + 1) n hn (by omega)

theorem digitChar_isDigit (k : Nat) (h : k < 10) :
    (Nat.digitChar k).isDigit = true ∧ digitValue (Nat.digitChar k) = k := by
  interval_cases k <;> exact ⟨by decide, by decide⟩

theorem fixedDigits_isDigit (w n : Nat) : ∀ c ∈ fixedDigits w n, c.isDigit = true := by
  induction w generalizing n with
  | zero => intro c hc; simp [fixedDigits] at hc
  | succ w ih =>
    intro c hc
    simp only [fixedDigits, List.mem_append, List.mem_singleton] at hc
    rcases hc with h | h
    · exact ih _ c h
    · rw [h]; exact (digitChar_isDigit _ (Nat.mod_lt _ (by norm_num))).1

theorem digitsValue_append (l : List Char) (c : Char) :
    digitsValue (l ++ [c]) = digitsValue l * 10 + digitValue c := by
  simp [digitsValue, List.foldl_append]

theorem digitsValue_fixedDigits (w n : Nat) (hn : n < 10 ^ w) :
    digitsValue (fixedDigits w n) = n := by
  induction w generalizing n with
  | zero =>
    have : n = 0 := by simpa using hn
    subst this; rfl
  | succ w ih =>
    have hn2 : n / 10 < 10 ^ w := by
      rw [Nat.div_lt_iff_lt_mul (by norm_num)]
      rw [pow_succ] at hn
      exact hn
    rw [fixedDigits, digitsValue_append, ih _ hn2,
      (digitChar_isDigit _ (Nat.mod_lt _ (by norm_num))).2]
    omega

theorem parseNum_fixedDigits (w n : Nat) (hn : n < 10 ^ w) :
    parseNum (fixedDigits w n) = some n := by
  unfold parseNum
  rw [if_pos (List.all_eq_true.2 (fixedDigits_isDigit w n)), digitsValue_fixedDigits w n hn]

theorem parseNum2 (n : Nat) (hn : n < 100) :
    parseNum [Nat.digitChar (n / 10 % 10), Nat.digitChar (n % 10)] = some n :=
  parseNum_fixedDigits 2 n hn

theorem parseNum4 (n : Nat) (hn : n < 10000) :
    parseNum [Nat.digitChar (n / 10 / 10 / 10 % 10), Nat.digitChar (n / 10 / 10 % 10),
      Nat.digitChar (n / 10 % 10), Nat.digitChar (n % 10)] = some n :=
  parseNum_fixedDigits 4 n hn

theorem appendInt_two (x : Int) (h0 : 0 ≤ x) (h1 : x < 100) :
    appendInt x 2 = [Nat.digitChar (x.natAbs / 10 % 10), Nat.digitChar (x.natAbs % 10)] := by
  unfold appendInt
  rw [if_neg (by omega), padDigits_eq 2 _ (by norm_num) (by omega)]
  rfl

theorem appendInt_four (x : Int) (h0 : 0 ≤ x) (h1 : x < 10000) :
    appendInt x 4 = [Nat.digitChar (x.natAbs / 10 / 10 / 10 % 10),
      Nat.digitChar (x.natAbs / 10 / 10 % 10), Nat.digitChar (x.natAbs / 10 % 10),
      Nat.digitChar (x.natAbs % 10)] := by
  unfold appendInt
  rw [if_neg (by omega), padDigits_eq 4 _ (by norm_num) (by omega)]
  rfl

/-! ## Lemmas on the fraction and the zone -/

theorem digitsValue_trim (r : List Char) :
    digitsValue (r.dropWhile (fun c => c == '0')).reverse
        * 10 ^ (r.length - (r.dropWhile (fun c => c == '0')).length)
      = digitsValue r.reverse := by
  induction r with
  | nil => rfl
  | cons a r ih =>
    by_cases hc : (a == '0') = true
    · have hc2 : a = '0' := by simpa using hc
      have hdw : (a :: r).dropWhile (fun c => c == '0') = r.dropWhile (fun c => c == '0') := by
        simp only [List.dropWhile_cons, hc, if_true]
      rw [hdw, List.reverse_cons, digitsValue_append, ← ih, hc2]
      have hle : (r.dropWhile (fun c => c == '0')).length ≤ r.length :=
        (List.dropWhile_sublist _).length_le
      have hv : digitValue '0' = 0 := by decide
      rw [hv, List.length_cons, Nat.add_zero,
        show r.length + 1 - (r.dropWhile (fun c => c == '0')).length
          = (r.length - (r.dropWhile (fun c => c == '0')).length) + 1 by omega, pow_succ,
        Nat.mul_assoc, Nat.add_zero]
    · have hdw : (a :: r).dropWhile (fun c => c == '0') = a :: r := by
        simp only [List.dropWhile_cons, hc, if_false]
        simp
      rw [hdw]
      simp

theorem parseFraction_none (zone : List Char)
    (h : ∀ z zs, zone = z :: zs → z ≠ '.' ∧ z ≠ ',') : parseFraction zone = (0, zone) := by
  match zone, h with
  | [], _ => rfl
  | [z], _ => rfl
  | z :: d :: rest, h =>
    have := h z (d :: rest) rfl
    simp [parseFraction, this.1, this.2]

/-- The fraction written by `formatNano`, followed by a zone, reads back as the
nanoseconds, leaving the zone. -/
theorem parseFraction_formatNano (n : Nat) (hn : n < 1000000000) (zone : List Char)
    (hz : ∃ z zs, zone = z :: zs ∧ z.isDigit = false ∧ z ≠ '.' ∧ z ≠ ',') :
    parseFraction (formatNano n ++ zone) = (n, zone) := by
  obtain ⟨z, zs, hzone, hzd, hz1, hz2⟩ := hz
  unfold formatNano
  rw [padDigits_eq 9 n (by norm_num) (by norm_num; exact hn)]
  simp only
  have htrim := digitsValue_trim (fixedDigits 9 n).reverse
  rw [List.reverse_reverse, digitsValue_fixedDigits 9 n (by norm_num; exact hn),
    List.length_reverse, fixedDigits_length] at htrim
  have hle : ((fixedDigits 9 n).reverse.dropWhile (fun c => c == '0')).length ≤ 9 := by
    have := (List.dropWhile_sublist (fun c => c == '0')
      (l := (fixedDigits 9 n).reverse)).length_le
    rwa [List.length_reverse, fixedDigits_length] at this
  have hdig : ∀ c ∈ ((fixedDigits 9 n).reverse.dropWhile (fun c => c == '0')).reverse,
      c.isDigit = true := by
    intro c hc
    rw [List.mem_reverse] at hc
    have h1 := (List.dropWhile_sublist (fun c => c == '0')).subset hc
    rw [List.mem_reverse] at h1
    exact fixedDigits_isDigit 9 n c h1
  generalize ((fixedDigits 9 n).reverse.dropWhile (fun c => c == '0')) = dw at htrim hle hdig
  cases hdw : dw.reverse with
  | nil =>
    have hnil : dw = [] := by simpa using hdw
    subst hnil
    have hn0 : n = 0 := by
      simp [digitsValue] at htrim
      omega
    subst hn0
    simp only [List.isEmpty_nil, if_true, List.nil_append]
    apply parseFraction_none
    intro z1 zs1 h1
    rw [hzone] at h1
    simp only [List.cons.injEq] at h1
    rw [← h1.1]
    exact ⟨hz1, hz2⟩
  | cons d rest =>
    have hne : dw.isEmpty = false := by
      cases dw with
      | nil => simp at hdw
      | cons _ _ => rfl
    rw [hdw] at hdig htrim
    have hlen : (d :: rest).length ≤ 9 := by
      rw [← hdw, List.length_reverse]; exact hle
    have hlen2 : dw.length = (d :: rest).length := by
      rw [← hdw, List.length_reverse]
    rw [hlen2] at htrim
    simp only [hne, Bool.false_eq_true, if_false, List.cons_append]
    have hd : d.isDigit = true := hdig d (List.mem_cons_self _ _)
    have htake : (d :: (rest ++ zone)).takeWhile Char.isDigit = d :: rest := by
      have h1 : d :: (rest ++ zone) = (d :: rest) ++ zone := rfl
      rw [h1, List.takeWhile_append_of_pos hdig, hzone,
        List.takeWhile_cons_of_neg (by simp [hzd])]
      simp
    have hdrop : (d :: (rest ++ zone)).dropWhile Char.isDigit = zone := by
      have h1 : d :: (rest ++ zone) = (d :: rest) ++ zone := rfl
      rw [h1, List.dropWhile_append_of_pos hdig, hzone,
        List.dropWhile_cons_of_neg (by simp [hzd])]
    simp only [parseFraction, hd, and_true, true_or, if_true, htake, hdrop]
    congr 1
    unfold nanosOf
    rw [List.take_of_length_le hlen]
    exact htrim

theorem formatZone_head (off : Int) :
    ∃ z zs, formatZone off = z :: zs ∧ z.isDigit = false ∧ z ≠ '.' ∧ z ≠ ',' := by
  unfold formatZone
  by_cases h0 : off = 0
  · exact ⟨'Z', [], by simp [h0], by decide, by decide, by decide⟩
  · simp only [h0, if_false]
    by_cases hneg : Int.tdiv off 60 < 0
    · simp only [hneg, if_true]
      exact ⟨_, _, rfl, by decide, by decide, by decide⟩
    · simp only [hneg, if_false]
      exact ⟨_, _, rfl, by decide, by decide, by decide⟩

theorem getnum_digits (n : Nat) (hn : n < 100) (isFixed : Bool) (rest : List Char) :
    getnum (Nat.digitChar (n / 10 % 10) :: Nat.digitChar (n % 10) :: rest) isFixed
      = some (n, rest) := by
  obtain ⟨h1, v1⟩ := digitChar_isDigit (n / 10 % 10) (Nat.mod_lt _ (by norm_num))
  obtain ⟨h2, v2⟩ := digitChar_isDigit (n % 10) (Nat.mod_lt _ (by norm_num))
  simp only [getnum, h1, h2, if_true, v1, v2]
  congr 2
  omega

theorem getyear_digits (n : Nat) (hn : n < 10000) (rest : List Char) :
    getyear (Nat.digitChar (n / 10 / 10 / 10 % 10) :: Nat.digitChar (n / 10 / 10 % 10)
      :: Nat.digitChar (n / 10 % 10) :: Nat.digitChar (n % 10) :: rest) = some (n, rest) := by
  simp only [getyear, parseNum4 n hn]

/-- The zone written by `formatZone` reads back as the offset, when the offset is a whole
number of minutes and less than 25 hours either way. -/
theorem parseZone_formatZone (off : Int) (hmin : off % 60 = 0)
    (hlo : -90000 < off) (hhi : off < 90000) : parseZone (formatZone off) = some off := by
  unfold formatZone
  by_cases h0 : off = 0
  · subst h0; rfl
  · simp only [h0, if_false]
    have hdvd : (60 : Int) ∣ off := Int.dvd_of_emod_eq_zero hmin
    rw [Int.tdiv_eq_ediv_of_dvd hdvd]
    have hh : (off / 60).natAbs / 60 < 100 := by omega
    have hm : (off / 60).natAbs % 60 < 100 := by omega
    rw [padDigits_eq 2 _ (by norm_num) (by norm_num; exact hh),
      padDigits_eq 2 _ (by norm_num) (by norm_num; exact hm)]
    have e1 : fixedDigits 2 ((off / 60).natAbs / 60)
        = [Nat.digitChar ((off / 60).natAbs / 60 / 10 % 10),
           Nat.digitChar ((off / 60).natAbs / 60 % 10)] := rfl
    have e2 : fixedDigits 2 ((off / 60).natAbs % 60)
        = [Nat.digitChar ((off / 60).natAbs % 60 / 10 % 10),
           Nat.digitChar ((off / 60).natAbs % 60 % 10)] := rfl
    rw [e1, e2]
    simp only [List.cons_append, List.nil_append, parseZone, getnum_digits _ hh,
      getnum_digits _ hm]
    have hh24 : ¬ ((off / 60).natAbs / 60 > 24 ∨ (off / 60).natAbs % 60 > 60) := by omega
    rw [if_neg hh24]
    have hnat : ((off / 60).natAbs / 60 * 60 + (off / 60).natAbs % 60) * 60
        = 60 * (off / 60).natAbs := by omega
    by_cases hneg : off / 60 < 0
    · simp only [hneg, if_true]
      rw [if_neg (by decide)]
      congr 1
      simp only [Int.ofNat_eq_coe]
      have habs : ((off / 60).natAbs : Int) = -(off / 60) :=
        Int.ofNat_natAbs_of_nonpos (le_of_lt hneg)
      rw [hnat, Nat.cast_mul, habs, Nat.cast_ofNat]
      clear habs hnat hh24 e1 e2 hh hm
      omega
    · simp only [hneg, if_false, if_true]
      congr 1
      simp only [Int.ofNat_eq_coe]
      have habs : ((off / 60).natAbs : Int) = off / 60 := Int.natAbs_of_nonneg (by omega)
      rw [hnat, Nat.cast_mul, habs, Nat.cast_ofNat]
      clear habs hnat hh24 e1 e2 hh hm
      omega

/-! ## Lemmas on the civil date -/

theorem civil_year_bounds (doe yoe doy : Int) (h0 : 0 ≤ doe) (h1 : doe ≤ 146096)
    (hyoe : yoe = (doe - doe / 1460 + doe / 36524 - doe / 146096) / 365)
    (hdoy : doy = doe - (365 * yoe + yoe / 4 - yoe / 100)) :
    0 ≤ yoe ∧ yoe ≤ 399 ∧ 0 ≤ doy ∧ doy ≤ 365 ∧
    (doy = 365 → (yoe + 1) % 4 = 0 ∧ ((yoe + 1) % 100 ≠ 0 ∨ (yoe + 1) % 400 = 0)) := by
  have hf : doe / 36524 = 0 ∨ doe / 36524 = 1 ∨ doe / 36524 = 2 ∨ doe / 36524 = 3
      ∨ doe / 36524 = 4 := by omega
  have hd : yoe / 100 = 0 ∨ yoe / 100 = 1 ∨ yoe / 100 = 2 ∨ yoe / 100 = 3 := by omega
  have hc : doe / 146096 = 0 ∨ doe / 146096 = 1 := by omega
  have hq : yoe % 4 = 0 ∨ yoe % 4 = 1 ∨ yoe % 4 = 2 ∨ yoe % 4 = 3 := by omega
  refine ⟨by omega, by omega, ?_, ?_, ?_⟩
  · rcases hf with hf | hf | hf | hf | hf <;> rcases hd with hd | hd | hd | hd <;> omega
  · rcases hf with hf | hf | hf | hf | hf <;> rcases hd with hd | hd | hd | hd <;> omega
  · intro h365
    rcases hf with hf | hf | hf | hf | hf <;> rcases hd with hd | hd | hd | hd <;>
      rcases hc with hc | hc <;> rcases hq with hq | hq | hq | hq <;> omega

theorem civil_month_bounds (doy mp d : Int) (h0 : 0 ≤ doy) (h1 : doy ≤ 365)
    (hmp : mp = (5 * doy + 2) / 153) (hd : d = doy - (153 * mp + 2) / 5 + 1) :
    0 ≤ mp ∧ mp ≤ 11 ∧ 1 ≤ d ∧ d ≤ 31 ∧
    ((mp = 1 ∨ mp = 3 ∨ mp = 6 ∨ mp = 8) → d ≤ 30) ∧
    (mp = 11 → d ≤ 29 ∧ (d = 29 → doy = 365)) := by
  have hm : mp = 0 ∨ mp = 1 ∨ mp = 2 ∨ mp = 3 ∨ mp = 4 ∨ mp = 5 ∨ mp = 6 ∨ mp = 7 ∨ mp = 8
      ∨ mp = 9 ∨ mp = 10 ∨ mp = 11 := by omega
  rcases hm with h | h | h | h | h | h | h | h | h | h | h | h <;> subst h <;> omega

theorem daysFromCivil_inverse (days era doe yoe doy mp d : Int) (hy0 : 0 ≤ yoe)
    (hy1 : yoe ≤ 399) (hm0 : 0 ≤ mp) (hm1 : mp ≤ 11)
    (hdoe : doe = days + 719468 - era * 146097)
    (hdoy : doy = doe - (365 * yoe + yoe / 4 - yoe / 100))
    (hd : d = doy - (153 * mp + 2) / 5 + 1) :
    daysFromCivil (if (if mp < 10 then mp + 3 else mp - 9) ≤ 2 then yoe + era * 400 + 1
          else yoe + era * 400) (if mp < 10 then mp + 3 else mp - 9) d = days := by
  unfold daysFromCivil
  by_cases hlt : mp < 10
  · have h2 : ¬ (mp + 3 ≤ 2) := by omega
    have h3 : mp + 3 > 2 := by omega
    simp only [hlt, if_true, h2, if_false, h3]
    have e1 : (yoe + era * 400) / 400 = era := by omega
    rw [e1]
    have e2 : yoe + era * 400 - era * 400 = yoe := by omega
    rw [e2]
    have e3 : mp + 3 - 3 = mp := by omega
    rw [e3]
    omega
  · have h2 : mp - 9 ≤ 2 := by omega
    have h3 : ¬ (mp - 9 > 2) := by omega
    simp only [hlt, if_false, h2, if_true, h3]
    have e0 : yoe + era * 400 + 1 - 1 = yoe + era * 400 := by omega
    rw [e0]
    have e1 : (yoe + era * 400) / 400 = era := by omega
    rw [e1]
    have e2 : yoe + era * 400 - era * 400 = yoe := by omega
    rw [e2]
    have e3 : mp - 9 + 9 = mp := by omega
    rw [e3]
    omega

/-- The civil date of a day count is a valid date, and counts back to the same day. -/
theorem civil_valid (days : Int) :
    1 ≤ (civilFromDays days).2.1 ∧ (civilFromDays days).2.1 ≤ 12 ∧
    1 ≤ (civilFromDays days).2.2 ∧
    (civilFromDays days).2.2 ≤ daysIn (civilFromDays days).2.1 (civilFromDays days).1 ∧
    daysFromCivil (civilFromDays days).1 (civilFromDays days).2.1 (civilFromDays days).2.2
      = days := by
  obtain ⟨era, hera⟩ : ∃ era, era = (days + 719468) / 146097 := ⟨_, rfl⟩
  obtain ⟨doe, hdoe⟩ : ∃ doe, doe = days + 719468 - era * 146097 := ⟨_, rfl⟩
  obtain ⟨yoe, hyoe⟩ : ∃ yoe, yoe = (doe - doe / 1460 + doe / 36524 - doe / 146096) / 365 :=
    ⟨_, rfl⟩
  obtain ⟨doy, hdoy⟩ : ∃ doy, doy = doe - (365 * yoe + yoe / 4 - yoe / 100) := ⟨_, rfl⟩
  obtain ⟨mp, hmp⟩ : ∃ mp, mp = (5 * doy + 2) / 153 := ⟨_, rfl⟩
  obtain ⟨d, hd⟩ : ∃ d, d = doy - (153 * mp + 2) / 5 + 1 := ⟨_, rfl⟩
  have hc : civilFromDays days
      = (if (if mp < 10 then mp + 3 else mp - 9) ≤ 2 then yoe + era * 400 + 1
          else yoe + era * 400, if mp < 10 then mp + 3 else mp - 9, d) := by
    simp only [civilFromDays, ← hera, ← hdoe, ← hyoe, ← hdoy, ← hmp, ← hd]
  have hdoe0 : 0 ≤ doe ∧ doe ≤ 146096 := by omega
  obtain ⟨y0, y1, d0, d1, hleap⟩ := civil_year_bounds doe yoe doy hdoe0.1 hdoe0.2 hyoe hdoy
  obtain ⟨m0, m1, dd0, dd1, h30, h29⟩ := civil_month_bounds doy mp d d0 d1 hmp hd
  have hinv := daysFromCivil_inverse days era doe yoe doy mp d y0 y1 m0 m1 hdoe hdoy hd
  rw [hc]
  refine ⟨?_, ?_, dd0, ?_, hinv⟩
  · show 1 ≤ (if mp < 10 then mp + 3 else mp - 9)
    split <;> omega
  · show (if mp < 10 then mp + 3 else mp - 9) ≤ 12
    split <;> omega
  · show d ≤ daysIn (if mp < 10 then mp + 3 else mp - 9)
      (if (if mp < 10 then mp + 3 else mp - 9) ≤ 2 then yoe + era * 400 + 1
          else yoe + era * 400)
    clear hinv hc hyoe hdoy hmp hd hdoe hera hdoe0
    by_cases hlt : mp < 10
    · have h2 : ¬ (mp + 3 ≤ 2) := by omega
      have h4 : ¬ (mp + 3 = 2) := by omega
      simp only [hlt, if_true, h2, if_false, daysIn, h4]
      split <;> omega
    · have h2 : mp - 9 ≤ 2 := by omega
      simp only [hlt, if_false, h2, if_true, daysIn]
      by_cases h11 : mp = 11
      · subst h11
        obtain ⟨h29a, h29b⟩ := h29 rfl
        simp only [show (11 : Int) - 9 = 2 by norm_num, if_true]
        split
        · exact h29a
        · rename_i hnl
          by_contra hgt
          have hd29 : d = 29 := by omega
          have hl := hleap (h29b hd29)
          apply hnl
          simp only [isLeap, decide_eq_true_eq]
          omega
      · have h10 : mp = 10 := by omega
        subst h10
        have e1 : ¬ ((10 : Int) - 9 = 2) := by norm_num
        have e2 : ¬ ((10 : Int) - 9 = 4 ∨ (10 : Int) - 9 = 6 ∨ (10 : Int) - 9 = 9
            ∨ (10 : Int) - 9 = 11) := by norm_num
        simp only [e1, if_false, e2]
        exact dd1

theorem daysIn_le (m y : Int) : daysIn m y ≤ 31 := by
  unfold daysIn
  split
  · split <;> omega
  · split <;> omega

/-! ## The round trip of a timestamp -/

/-- A date written in the layout reads back, leaving what follows. -/
theorem parseDate_format (y mo d : Int) (rest : List Char)
    (hy : 0 ≤ y ∧ y ≤ 9999) (hmo : 1 ≤ mo ∧ mo ≤ 12) (hd : 0 ≤ d ∧ d < 100) :
    parseDate (appendInt y 4 ++ '-' :: (appendInt mo 2 ++ '-' :: (appendInt d 2 ++ rest)))
      = some ((y.natAbs, mo.natAbs, d.natAbs), rest) := by
  rw [appendInt_four y hy.1 (by omega), appendInt_two mo (by omega) (by omega),
    appendInt_two d hd.1 hd.2]
  simp only [List.cons_append, List.nil_append, parseDate, getyear_digits _
    (show y.natAbs < 10000 by omega), skip, if_true,
    getnum_digits _ (show mo.natAbs < 100 by omega),
    getnum_digits _ (show d.natAbs < 100 by omega)]
  rw [if_neg (by omega)]

/-- A time of day written in the layout reads back, leaving what follows. -/
theorem parseClock_format (h mi s : Int) (rest : List Char)
    (hh : 0 ≤ h ∧ h < 24) (hmi : 0 ≤ mi ∧ mi < 60) (hs : 0 ≤ s ∧ s < 60) :
    parseClock ('T' :: (appendInt h 2 ++ ':' :: (appendInt mi 2 ++ ':' ::
        (appendInt s 2 ++ rest))))
      = some ((h.natAbs, mi.natAbs, s.natAbs), rest) := by
  rw [appendInt_two h hh.1 (by omega), appendInt_two mi hmi.1 (by omega),
    appendInt_two s hs.1 (by omega)]
  simp only [List.cons_append, List.nil_append, parseClock, skip, if_true,
    getnum_digits _ (show h.natAbs < 100 by omega),
    getnum_digits _ (show mi.natAbs < 100 by omega),
    getnum_digits _ (show s.natAbs < 100 by omega)]
  rw [if_neg (by omega), if_neg (by omega), if_neg (by omega)]

/-- Reading back what `FormatRFC3339Nano` writes gives the timestamp itself, when its
year is between 0 and 9999 and its zone offset is a whole number of minutes, less than
25 hours either way. -/
theorem parse_format (t : Time) (hy0 : 0 ≤ t.Year) (hy1 : t.Year ≤ 9999)
    (hmin : t.offset % 60 = 0) (hlo : -90000 < t.offset) (hhi : t.offset < 90000) :
    ParseRFC3339 t.FormatRFC3339Nano = some t := by
  obtain ⟨hm0, hm1, hd0, hd1, hinv⟩ := civil_valid ((t.unix + t.offset) / 86400)
  unfold Time.Year at hy0 hy1
  have hd31 := daysIn_le (civilFromDays ((t.unix + t.offset) / 86400)).2.1
    (civilFromDays ((t.unix + t.offset) / 86400)).1
  have hdate := parseDate_format (civilFromDays ((t.unix + t.offset) / 86400)).1
    (civilFromDays ((t.unix + t.offset) / 86400)).2.1
    (civilFromDays ((t.unix + t.offset) / 86400)).2.2
    ('T' :: (appendInt ((t.unix + t.offset) % 86400 / 3600) 2 ++ ':' ::
      (appendInt ((t.unix + t.offset) % 86400 % 3600 / 60) 2 ++ ':' ::
        (appendInt ((t.unix + t.offset) % 86400 % 60) 2
          ++ (formatNano t.nsec.val ++ formatZone t.offset)))))
    ⟨hy0, hy1⟩ ⟨hm0, hm1⟩ ⟨by omega, by omega⟩
  have hclock := parseClock_format ((t.unix + t.offset) % 86400 / 3600)
    ((t.unix + t.offset) % 86400 % 3600 / 60) ((t.unix + t.offset) % 86400 % 60)
    (formatNano t.nsec.val ++ formatZone t.offset) (by omega) (by omega) (by omega)
  have hfrac := parseFraction_formatNano t.nsec.val t.nsec.isLt (formatZone t.offset)
    (formatZone_head t.offset)
  have hzone := parseZone_formatZone t.offset hmin hlo hhi
  have ey : (((civilFromDays ((t.unix + t.offset) / 86400)).1.natAbs : Nat) : Int)
      = (civilFromDays ((t.unix + t.offset) / 86400)).1 := Int.natAbs_of_nonneg hy0
  have emo : (((civilFromDays ((t.unix + t.offset) / 86400)).2.1.natAbs : Nat) : Int)
      = (civilFromDays ((t.unix + t.offset) / 86400)).2.1 := Int.natAbs_of_nonneg (by omega)
  have ed : (((civilFromDays ((t.unix + t.offset) / 86400)).2.2.natAbs : Nat) : Int)
      = (civilFromDays ((t.unix + t.offset) / 86400)).2.2 := Int.natAbs_of_nonneg (by omega)
  have hday : 1 ≤ (civilFromDays ((t.unix + t.offset) / 86400)).2.2.natAbs ∧
      (((civilFromDays ((t.unix + t.offset) / 86400)).2.2.natAbs : Nat) : Int)
        ≤ daysIn (((civilFromDays ((t.unix + t.offset) / 86400)).2.1.natAbs : Nat) : Int)
            (((civilFromDays ((t.unix + t.offset) / 86400)).1.natAbs : Nat) : Int) := by
    rw [ey, emo, ed]
    exact ⟨by omega, hd1⟩
  have hsec : ((((t.unix + t.offset) % 86400 / 3600).natAbs * 3600
        + ((t.unix + t.offset) % 86400 % 3600 / 60).natAbs * 60
        + ((t.unix + t.offset) % 86400 % 60).natAbs : Nat) : Int)
      = (t.unix + t.offset) % 86400 := by omega
  unfold ParseRFC3339 Time.FormatRFC3339Nano
  simp only [List.append_assoc, List.cons_append]
  rw [hdate]
  simp only [hclock, hfrac, hzone]
  rw [dif_pos t.nsec.isLt]
  simp only [Int.ofNat_eq_coe]
  rw [if_pos hday, ey, emo, ed, hinv, hsec]
  congr 1
  cases t with
  | mk u n o =>
    have hu : (u + o) / 86400 * 86400 + (u + o) % 86400 - o = u := by omega
    simp only [Time.mk.injEq, hu, and_self]

/-! ## Claim on the time attribute -/

/-- C12 (amended). For every timestamp `T` whose zone offset is a whole number of
minutes, less than 25 hours either way, and whose year in its zone is between 0 and
9999: on a started writer, `SetAttribute` on a time-valued attribute returns nil and
leaves under the prefixed name the single value `T` formatted as RFC 3339 with
nanoseconds, and reading that header value as RFC 3339 succeeds and gives a timestamp
equal to `T` to the nanosecond, with the zone offset of `T`. -/
theorem setAttribute_time_round_trip (a : Attribute) (T : Time) (r : String) (es : Entries)
    (ha : a.Kind = .Time) (hy0 : 0 ≤ T.Year) (hy1 : T.Year ≤ 9999)
    (hmin : T.offset % 60 = 0) (hlo : -90000 < T.offset) (hhi : T.offset < 90000) :
    ∃ es1, natsBinaryMessageWriter.SetAttribute { header := some es } (some a) (.time T r)
        = .ok (none, { header := some es1 }) ∧
      Entries.lookup (withPrefix a.Name) es1 = some (some [T.FormatRFC3339Nano]) ∧
      ∃ u, ParseRFC3339 T.FormatRFC3339Nano = some u ∧ u.Equal T ∧ u.offset = T.offset := by
  have hk : a.Kind.String = Kind.Time.String := by rw [ha]
  refine ⟨es.assign (withPrefix a.Name) (some [T.FormatRFC3339Nano]), ?_, ?_, ?_⟩
  · simp only [natsBinaryMessageWriter.SetAttribute, hk, if_true, Value.assertTime,
      natsHeader.Set]
  · rw [Entries.lookup_assign, if_pos rfl]
  · exact ⟨T, parse_format T hy0 hy1 hmin hlo hhi, ⟨rfl, rfl⟩, rfl⟩

/-- C12, witness: the time attribute of version 1.0 with the timestamp
2018-04-05T04:56:24.123456+01:00, written onto empty headers; and the two ends of the
range of zone offsets, 24 hours 59 minutes east and west, at the Unix epoch. -/
theorem setAttribute_time_round_trip_witness :
    (timeAttributeV1.Kind = .Time ∧
      0 ≤ Time.Year { unix := 1522900584, nsec := 123456000, offset := 3600 } ∧
      Time.Year { unix := 1522900584, nsec := 123456000, offset := 3600 } ≤ 9999 ∧
      (3600 : Int) % 60 = 0 ∧ (-90000 : Int) < 3600 ∧ (3600 : Int) < 90000) ∧
    Time.FormatRFC3339Nano { unix := 1522900584, nsec := 123456000, offset := 3600 }
      = "2018-04-05T04:56:24.123456+01:00" ∧
    (∃ es1, natsBinaryMessageWriter.SetAttribute { header := some [] } (some timeAttributeV1)
        (.time { unix := 1522900584, nsec := 123456000, offset := 3600 }
          "2018-04-05 04:56:24.123456 +0100 CET")
        = .ok (none, { header := some es1 }) ∧
      Entries.lookup (withPrefix timeAttributeV1.Name) es1
        = some (some [Time.FormatRFC3339Nano
            { unix := 1522900584, nsec := 123456000, offset := 3600 }]) ∧
      ∃ u, ParseRFC3339 (Time.FormatRFC3339Nano
            { unix := 1522900584, nsec := 123456000, offset := 3600 }) = some u ∧
        u.Equal { unix := 1522900584, nsec := 123456000, offset := 3600 } ∧
        u.offset = (3600 : Int)) ∧
    Time.FormatRFC3339Nano { unix := 0, nsec := 0, offset := 89940 }
      = "1970-01-02T00:59:00+24:59" ∧
    ParseRFC3339 "1970-01-02T00:59:00+24:59" = some { unix := 0, nsec := 0, offset := 89940 } ∧
    Time.FormatRFC3339Nano { unix := 0, nsec := 0, offset := -89940 }
      = "1969-12-30T23:01:00-24:59" ∧
    ParseRFC3339 "1969-12-30T23:01:00-24:59"
      = some { unix := 0, nsec := 0, offset := -89940 } :=
  ⟨⟨by decide, by decide, by decide, by decide, by decide, by decide⟩, by decide,
    setAttribute_time_round_trip timeAttributeV1
      { unix := 1522900584, nsec := 123456000, offset := 3600 }
      "2018-04-05 04:56:24.123456 +0100 CET" [] (by decide) (by decide) (by decide)
      (by decide) (by decide) (by decide),
    by decide, by decide, by decide, by decide⟩

/-- C12, counterexample. A timestamp in a zone whose offset has seconds, 19 minutes
32 seconds east of UTC at the Unix epoch: the header value written for it drops the
seconds of the offset, and reads back as an instant 32 seconds later. A timestamp of
the year 10000 is written with a five-digit year, one of the year before year 0 with
a sign, and one in a zone 25 hours east of UTC with the zone `+25:00`: none of the
three header values reads back at all. -/
theorem setAttribute_time_round_trip_counterexample :
    natsBinaryMessageWriter.SetAttribute { header := some [] } (some timeAttributeV1)
        (.time { unix := 0, nsec := 0, offset := 1172 } "1970-01-01 00:19:32 +0019 LMT")
      = .ok (none, { header := some [("ce-time", some ["1970-01-01T00:19:32+00:19"])] }) ∧
    Time.FormatRFC3339Nano { unix := 0, nsec := 0, offset := 1172 }
      = "1970-01-01T00:19:32+00:19" ∧
    ParseRFC3339 "1970-01-01T00:19:32+00:19"
      = some { unix := 32, nsec := 0, offset := 1140 } ∧
    ¬ Time.Equal { unix := 32, nsec := 0, offset := 1140 }
        { unix := 0, nsec := 0, offset := 1172 } ∧
    natsBinaryMessageWriter.SetAttribute { header := some [] } (some timeAttributeV1)
        (.time { unix := 253402300800, nsec := 5, offset := 0 }
          "10000-01-01 00:00:00.000000005 +0000 UTC")
      = .ok (none,
          { header := some [("ce-time", some ["10000-01-01T00:00:00.000000005Z"])] }) ∧
    ParseRFC3339 "10000-01-01T00:00:00.000000005Z" = none ∧
    Time.FormatRFC3339Nano { unix := -62167219201, nsec := 0, offset := 0 }
      = "-0001-12-31T23:59:59Z" ∧
    ParseRFC3339 "-0001-12-31T23:59:59Z" = none ∧
    Time.FormatRFC3339Nano { unix := 0, nsec := 0, offset := 90000 }
      = "1970-01-02T01:00:00+25:00" ∧
    ParseRFC3339 "1970-01-02T01:00:00+25:00" = none :=
  ⟨by decide, by decide, by decide, by unfold Time.Equal; decide, by decide, by decide,
    by decide, by decide, by decide, by decide⟩

end NatsJetstream
